import Mathlib

/-!
# Xml2ExcelByGo: streaming XML to spreadsheet conversion

A shallow embedding of the streaming transformation engine of the repository
(`internal/parser/xml.go`, `internal/parser/svd.go`,
`internal/converter/converter.go`, `internal/converter/svc_converter.go`,
`internal/writer/excel_writer.go`) and theorems about it.

Modelling conventions.
* `encoding/xml`'s `decoder.Token()` is modelled by the list of tokens it yields,
  followed by `io.EOF` or by an error (`Decoder`).
* A Go `map[string]T` is an association list with unique keys (`GoMap`);
  indexing a missing key gives the zero value, assignment replaces or adds.
* The order in which `range` visits a map is not fixed by Go; it is an
  arbitrary permutation of the entries, given by a `MapOrder`.
* A channel is the list of values sent on it, in sending order. Where goroutines
  race (`ConvertSVD`), a channel is its queue, its capacity and its closed flag,
  and a run is a schedule: the list of the goroutines in the order in which they
  make their next channel operation.
* The spreadsheet library is a `Backend`: for each call that can fail, the error
  it returns, if any; what a stream writer was handed is kept with the sheet.
-/

namespace Xml2Excel

/-! ## Tokens and documents -/

/-- The tokens of `encoding/xml` that the parsers distinguish. Comments,
processing instructions and directives fall in no `case` of the type switches
and are `Other`. Names are `Name.Local`. -/
inductive Token where
  | StartElement (name : String)
  | CharData (text : String)
  | EndElement (name : String)
  | Other
  deriving DecidableEq, Repr

/-- What an `xml.Decoder` over a file yields: `tokens`, then `io.EOF` when `err`
is `none`, or the error `err`. -/
structure Decoder where
  tokens : List Token
  err : Option String
  deriving DecidableEq, Repr

/-- A well-formed document as a forest in first-child / next-sibling form:
an element with its content followed by its right siblings, character data,
or another token (comment and the like). The token streams of forests are
exactly the well-formed token streams (`wellFormed_iff_forest`). -/
inductive Forest where
  | nil
  | elem (name : String) (children : Forest) (rest : Forest)
  | text (s : String) (rest : Forest)
  | other (rest : Forest)
  deriving DecidableEq, Repr

/-- The token stream of a well-formed document. -/
def Forest.tokens : Forest → List Token
  | .nil => []
  | .elem n c rest => Token.StartElement n :: (c.tokens ++ Token.EndElement n :: rest.tokens)
  | .text s rest => Token.CharData s :: rest.tokens
  | .other rest => Token.Other :: rest.tokens

/-- The names of all elements of a forest, in document order. -/
def Forest.names : Forest → List String
  | .nil => []
  | .elem n c rest => n :: (c.names ++ rest.names)
  | .text _ rest => rest.names
  | .other rest => rest.names

/-- The check `encoding/xml` performs on the tags it returns: every end tag
closes the innermost open element, and no element is open at `io.EOF`.
`path` lists the open elements, outermost first. -/
def balanced : List String → List Token → Bool
  | path, [] => path.isEmpty
  | path, Token.StartElement n :: ts => balanced (path ++ [n]) ts
  | path, Token.EndElement n :: ts => path.getLast? == some n && balanced path.dropLast ts
  | path, _ :: ts => balanced path ts

/-- A well-formed token stream: tags properly nested and matched. -/
def WellFormed (ts : List Token) : Prop := balanced [] ts = true

instance (ts : List Token) : Decidable (WellFormed ts) :=
  inferInstanceAs (Decidable (balanced [] ts = true))

/-! ## Go maps -/

/-- A Go `map[string]T`: association list with unique keys. -/
abbrev GoMap (α : Type) := List (String × α)

/-- The value `m[k]` with presence flag (`v, ok := m[k]`). -/
def GoMap.lookup {α : Type} (m : GoMap α) (k : String) : Option α :=
  match m with
  | [] => none
  | (k', v) :: rest => if k' = k then some v else GoMap.lookup rest k

/-- The assignment `m[k] = v`. -/
def GoMap.set {α : Type} (m : GoMap α) (k : String) (v : α) : GoMap α :=
  match m with
  | [] => [(k, v)]
  | (k', v') :: rest => if k' = k then (k', v) :: rest else (k', v') :: GoMap.set rest k v

/-- The value `m[k]` of a `map[string]int`, 0 for a missing key. -/
def GoMap.count (m : GoMap Nat) (k : String) : Nat := (m.lookup k).getD 0

/-- A row of data, `map[string]string`. -/
abbrev Record := GoMap String

/-- The value `r[k]` of a `map[string]string`, the empty string for a missing key. -/
def Record.get (r : Record) (k : String) : String := (GoMap.lookup r k).getD ""

/-- An order in which `range` may visit the entries of a `map[string]T`. -/
abbrev MapOrder (α : Type) := List (String × α) → List (String × α)

/-- Every entry is visited exactly once. -/
def MapOrder.Valid {α : Type} (ord : MapOrder α) : Prop := ∀ m, (ord m).Perm m

/-! ## `internal/parser/xml.go` -/

/-- State of the loop of `detectRepeatingElementFromDecoder`. -/
structure DetectState where
  elementCounts : GoMap Nat
  pathStack : List String
  deriving DecidableEq, Repr

/-- One iteration of the token loop of `detectRepeatingElementFromDecoder`. -/
def detectStep (s : DetectState) : Token → DetectState
  | Token.StartElement name =>
    let pathStack := s.pathStack ++ [name]
    if pathStack.length > 1 then
      { elementCounts := s.elementCounts.set name (s.elementCounts.count name + 1),
        pathStack := pathStack }
    else
      { s with pathStack := pathStack }
  | Token.EndElement _ =>
    if s.pathStack.length > 0 then { s with pathStack := s.pathStack.dropLast } else s
  | _ => s

/-- The selection loop `for elem, count := range elementCounts`, on the entries
in the order visited; the state is `(maxCount, repeatingElement)`. -/
def selectStep (acc : Nat × String) (e : String × Nat) : Nat × String :=
  if e.2 > acc.1 ∧ e.2 > 1 then (e.2, e.1) else acc

/-- The function `Parser.detectRepeatingElementFromDecoder`: a decoder error makes it
return the empty name. -/
def detectRepeatingElementFromDecoder (ord : MapOrder Nat) (d : Decoder) : String :=
  match d.err with
  | some _ => ""
  | none =>
    let s := d.tokens.foldl detectStep { elementCounts := [], pathStack := [] }
    ((ord s.elementCounts).foldl selectStep (0, "")).2

/-- Go's `unicode.IsSpace`: the Latin-1 spaces and the code points of the Unicode
property White_Space above Latin-1. -/
def isSpace (c : Char) : Bool :=
  let n := c.toNat
  n == 0x09 || n == 0x0A || n == 0x0B || n == 0x0C || n == 0x0D || n == 0x20 ||
  n == 0x85 || n == 0xA0 || n == 0x1680 || (0x2000 ≤ n && n ≤ 0x200A) ||
  n == 0x2028 || n == 0x2029 || n == 0x202F || n == 0x205F || n == 0x3000

/-- Go's `strings.TrimSpace`: leading and trailing white space removed. -/
def TrimSpace (s : String) : String :=
  String.mk ((s.data.dropWhile isSpace).reverse.dropWhile isSpace).reverse

/-- The element one level up the path stack, `pathStack[len(pathStack)-2]`, read
under the guard `len(pathStack) >= 2`. -/
def parentElement (pathStack : List String) : Option String :=
  if pathStack.length ≥ 2 then pathStack.get? (pathStack.length - 2) else none

/-- State of the second pass of `ParseToRows`; `dataChan` lists the rows sent. -/
structure RowState where
  currentRow : Option Record
  pathStack : List String
  currentText : String
  inTargetElement : Bool
  rowCount : Nat
  dataChan : List Record
  deriving DecidableEq, Repr

/-- Initial state of the second pass. -/
def RowState.init : RowState :=
  { currentRow := none, pathStack := [], currentText := "", inTargetElement := false,
    rowCount := 0, dataChan := [] }

/-- One iteration of the second-pass loop of `ParseToRows`. A nil `currentRow` is
`none`; it is sent as the empty map. -/
def rowStep (repeatingElement : String) (s : RowState) : Token → RowState
  | Token.StartElement name =>
    let s1 := { s with pathStack := s.pathStack ++ [name], currentText := "" }
    if name = repeatingElement then
      { s1 with inTargetElement := true, currentRow := some [] }
    else s1
  | Token.CharData t => { s with currentText := s.currentText ++ t }
  | Token.EndElement name =>
    let text := TrimSpace s.currentText
    let s1 :=
      if s.inTargetElement ∧ parentElement s.pathStack = some repeatingElement
          ∧ name ≠ repeatingElement then
        { s with currentRow := s.currentRow.map (fun r => GoMap.set r name text) }
      else s
    let s2 :=
      if name = repeatingElement ∧ s1.inTargetElement then
        { s1 with dataChan := s1.dataChan ++ [s1.currentRow.getD []],
                  rowCount := s1.rowCount + 1,
                  inTargetElement := false, currentRow := none }
      else s1
    { s2 with pathStack := s2.pathStack.dropLast, currentText := "" }
  | Token.Other => s

/-- The rows the second pass of `ParseToRows` sends for the given tokens. -/
def flatten (repeatingElement : String) (ts : List Token) : List Record :=
  (ts.foldl (rowStep repeatingElement) RowState.init).dataChan

/-- What `ParseToRows` leaves on its two channels. -/
structure ParseResult where
  dataChan : List Record
  errChan : List String
  deriving DecidableEq, Repr

/-- The error of `ParseToRows` when no repeating element is found. -/
def errDetect : String := "failed to detect repeating XML element"

/-- The function `Parser.ParseToRows`. `file` is the outcome of `os.Open`: an error
or the tokens both decoders read; `seek` is the error of the rewind, if any. -/
def ParseToRows (ord : MapOrder Nat) (file : Except String Decoder) (seek : Option String) :
    ParseResult :=
  match file with
  | .error e => { dataChan := [], errChan := [e] }
  | .ok d =>
    let repeatingElement := detectRepeatingElementFromDecoder ord d
    if repeatingElement = "" then
      { dataChan := [], errChan := [errDetect] }
    else
      match seek with
      | some e => { dataChan := [], errChan := ["failed to rewind file: " ++ e] }
      | none =>
        let rows := flatten repeatingElement d.tokens
        match d.err with
        | some e => { dataChan := rows, errChan := ["XML parsing error: " ++ e] }
        | none => { dataChan := rows, errChan := [] }

/-! ## Notions of the specification -/

/-- Number of start tags named `n` at depth greater than 1, in a token stream
read with `d` elements already open. -/
def deepCount (n : String) : Nat → List Token → Nat
  | _, [] => 0
  | d, Token.StartElement m :: ts =>
    (if d ≥ 1 ∧ m = n then 1 else 0) + deepCount n (d + 1) ts
  | d, Token.EndElement _ :: ts => deepCount n (d - 1) ts
  | d, _ :: ts => deepCount n d ts

/-- Number of start tags named `r` in a token stream. -/
def startCount (r : String) (ts : List Token) : Nat :=
  ts.count (Token.StartElement r)

/-- The contents of the elements named `r`, in document order. -/
def Forest.occurrences (r : String) : Forest → List Forest
  | .nil => []
  | .elem n c rest =>
    (if n = r then [c] else []) ++ (c.occurrences r ++ rest.occurrences r)
  | .text _ rest => rest.occurrences r
  | .other rest => rest.occurrences r

/-- No element named `r` lies inside another element named `r`. -/
def Forest.nestFree (r : String) : Forest → Bool
  | .nil => true
  | .elem n c rest => (n != r || !c.names.contains r) && c.nestFree r && rest.nestFree r
  | .text _ rest => rest.nestFree r
  | .other rest => rest.nestFree r

/-- The document `<rows><row><a>1</a><b></b></row><row/><row/></rows>`. -/
def emptyChildDoc : Forest :=
  .elem "rows"
    (.elem "row" (.elem "a" (.text "1" .nil) (.elem "b" .nil .nil))
      (.elem "row" .nil (.elem "row" .nil .nil))) .nil

/-- The document `<r><r></r><r></r></r>`: two elements named `r` inside an element
named `r`. -/
def nestedDoc : Forest := .elem "r" (.elem "r" .nil (.elem "r" .nil .nil)) .nil

/-- The second-pass loop of `ParseToRows` run from state `s` over `ts`. -/
def rowRun (r : String) (s : RowState) (ts : List Token) : RowState :=
  ts.foldl (rowStep r) s

/-- The state of the second pass right after the start tag of an element named `r`
that opens the document. -/
def rowOpen (r : String) : RowState :=
  { currentRow := some [], pathStack := [r], currentText := "", inTargetElement := true,
    rowCount := 0, dataChan := [] }

/-! ## `internal/parser/svd.go` -/

/-- Prefix of peripheral ids. -/
def peripheralIDPrefix : String := "P"

/-- Prefix of register ids. -/
def registerIDPrefix : String := "R"

/-- Prefix of field ids. -/
def fieldIDPrefix : String := "F"

/-- Width of the sequence number in an id. -/
def idFormatWidth : Nat := 4

/-- The verb `%0*d` of `fmt.Sprintf` on a non-negative number: the decimal digits,
padded on the left with zeros up to `width` characters. -/
def zeroPad (width n : Nat) : List Char :=
  List.replicate (width - (Nat.toDigits 10 n).length) '0' ++ Nat.toDigits 10 n

/-- The id `fmt.Sprintf("%s%0*d", pfx, idFormatWidth, count)`. -/
def formatID (pfx : String) (count : Nat) : String :=
  pfx ++ String.mk (zeroPad idFormatWidth count)

/-- The function `isInPath`. -/
def isInPath : List String → String → Bool
  | [], _ => false
  | s :: stack, target => if s = target then true else isInPath stack target

/-- The three record channels of `ParseSVD`. -/
inductive Kind where
  | Peripheral
  | Register
  | Field
  deriving DecidableEq, Repr

/-- State of the loop of `ParseSVD`. `sent` lists the records sent, in the order of
the sends, each with its channel; a nil map is `none`. -/
structure SVDState where
  currentPeripheral : Option Record
  currentRegister : Option Record
  currentField : Option Record
  pathStack : List String
  textBuilder : String
  peripheralCount : Nat
  registerCount : Nat
  fieldCount : Nat
  sent : List (Kind × Record)
  deriving DecidableEq, Repr

/-- Initial state of `ParseSVD`. -/
def SVDState.init : SVDState :=
  { currentPeripheral := none, currentRegister := none, currentField := none,
    pathStack := [], textBuilder := "", peripheralCount := 0, registerCount := 0,
    fieldCount := 0, sent := [] }

/-- Start tag, "Detect peripheral start". -/
def openPeripheral (name : String) (s : SVDState) : SVDState :=
  if name = "peripheral" ∧ isInPath s.pathStack "peripherals" = true then
    { s with
      currentPeripheral :=
        some (GoMap.set [] "_id" (formatID peripheralIDPrefix s.peripheralCount)),
      peripheralCount := s.peripheralCount + 1 }
  else s

/-- Start tag, "Detect register start". -/
def openRegister (name : String) (s : SVDState) : SVDState :=
  if name = "register" ∧ isInPath s.pathStack "registers" = true then
    match s.currentPeripheral with
    | some p =>
      { s with
        currentRegister :=
          some (GoMap.set
            (GoMap.set (GoMap.set [] "_id" (formatID registerIDPrefix s.registerCount))
              "_peripheral_id" (Record.get p "_id"))
            "_peripheral_name" (Record.get p "name")),
        registerCount := s.registerCount + 1 }
    | none => s
  else s

/-- Start tag, "Detect field start". -/
def openField (name : String) (s : SVDState) : SVDState :=
  if name = "field" ∧ isInPath s.pathStack "fields" = true then
    match s.currentRegister with
    | some r =>
      { s with
        currentField :=
          some (GoMap.set
            (GoMap.set
              (GoMap.set
                (GoMap.set (GoMap.set [] "_id" (formatID fieldIDPrefix s.fieldCount))
                  "_register_id" (Record.get r "_id"))
                "_register_name" (Record.get r "name"))
              "_peripheral_id" (Record.get r "_peripheral_id"))
            "_peripheral_name" (Record.get r "_peripheral_name")),
        fieldCount := s.fieldCount + 1 }
    | none => s
  else s

/-- End tag, "Save peripheral child elements". -/
def savePeripheral (name text : String) (s : SVDState) : SVDState :=
  match s.currentPeripheral with
  | some p =>
    if parentElement s.pathStack = some "peripheral" ∧ name ≠ "peripheral"
        ∧ name ≠ "registers" ∧ text ≠ "" then
      { s with currentPeripheral := some (GoMap.set p name text) }
    else s
  | none => s

/-- End tag, "Save register child elements". -/
def saveRegister (name text : String) (s : SVDState) : SVDState :=
  match s.currentRegister with
  | some r =>
    if parentElement s.pathStack = some "register" ∧ name ≠ "register"
        ∧ name ≠ "fields" ∧ text ≠ "" then
      { s with currentRegister := some (GoMap.set r name text) }
    else s
  | none => s

/-- End tag, "Save field child elements". -/
def saveField (name text : String) (s : SVDState) : SVDState :=
  match s.currentField with
  | some x =>
    if parentElement s.pathStack = some "field" ∧ text ≠ "" then
      { s with currentField := some (GoMap.set x name text) }
    else s
  | none => s

/-- End tag, "Send completed peripheral". -/
def sendPeripheral (name : String) (s : SVDState) : SVDState :=
  match s.currentPeripheral with
  | some p =>
    if name = "peripheral" then
      { s with sent := s.sent ++ [(Kind.Peripheral, p)], currentPeripheral := none }
    else s
  | none => s

/-- End tag, "Send completed register". -/
def sendRegister (name : String) (s : SVDState) : SVDState :=
  match s.currentRegister with
  | some r =>
    if name = "register" then
      { s with sent := s.sent ++ [(Kind.Register, r)], currentRegister := none }
    else s
  | none => s

/-- End tag, "Send completed field". -/
def sendField (name : String) (s : SVDState) : SVDState :=
  match s.currentField with
  | some x =>
    if name = "field" then
      { s with sent := s.sent ++ [(Kind.Field, x)], currentField := none }
    else s
  | none => s

/-- One iteration of the token loop of `ParseSVD`: the blocks of the `switch`, in the
order of the source. -/
def svdStep (s : SVDState) : Token → SVDState
  | Token.StartElement name =>
    openField name (openRegister name (openPeripheral name
      { s with pathStack := s.pathStack ++ [name], textBuilder := "" }))
  | Token.CharData t => { s with textBuilder := s.textBuilder ++ t }
  | Token.EndElement name =>
    let text := TrimSpace s.textBuilder
    let s1 := sendField name (sendRegister name (sendPeripheral name
      (saveField name text (saveRegister name text (savePeripheral name text s)))))
    { s1 with pathStack := s1.pathStack.dropLast, textBuilder := "" }
  | Token.Other => s

/-- The loop of `ParseSVD` run from state `s` over `ts`. -/
def svdRun (s : SVDState) (ts : List Token) : SVDState :=
  ts.foldl svdStep s

/-- The records sent on the channel of kind `k`, in order. -/
def chanOf (k : Kind) (sent : List (Kind × Record)) : List Record :=
  (sent.filter (fun e => e.1 = k)).map Prod.snd

/-- What `ParseSVD` leaves on its channels. -/
structure SVDResult where
  sent : List (Kind × Record)
  errChan : List String
  deriving DecidableEq, Repr

/-- The channel `peripheralChan`. -/
def SVDResult.peripheralChan (r : SVDResult) : List Record := chanOf Kind.Peripheral r.sent

/-- The channel `registerChan`. -/
def SVDResult.registerChan (r : SVDResult) : List Record := chanOf Kind.Register r.sent

/-- The channel `fieldChan`. -/
def SVDResult.fieldChan (r : SVDResult) : List Record := chanOf Kind.Field r.sent

/-- The function `SVDParser.ParseSVD`; `file` is the outcome of `os.Open`. -/
def ParseSVD (file : Except String Decoder) : SVDResult :=
  match file with
  | .error e => { sent := [], errChan := [e] }
  | .ok d =>
    let s := svdRun SVDState.init d.tokens
    match d.err with
    | some e => { sent := s.sent, errChan := ["XML parsing error: " ++ e] }
    | none => { sent := s.sent, errChan := [] }

/-! ## `internal/config/constants.go` -/

/-- Header sample size: 128 rows. -/
def HeaderSampleSize : Nat := 128

/-! ## `internal/converter/converter.go` -/

/-- Go's `sort.Strings`: the strings in increasing order. -/
def sortStrings (l : List String) : List String :=
  l.insertionSort (· ≤ ·)

/-- The first loop of `collectHeadersAndData`, from the state
`(headerSet, dataRows, count)`; the result carries what is left on the channel.
`ordK` is the order in which `range data` visits the keys of a row. -/
def collectLoop (ordK : MapOrder String) (sampleSize : Nat) :
    List Record → GoMap Bool → List Record → Nat → GoMap Bool × List Record × List Record
  | [], headerSet, dataRows, _ => (headerSet, dataRows, [])
  | data :: chan, headerSet, dataRows, count =>
    let dataRows := dataRows ++ [data]
    let headerSet := (ordK data).foldl (fun hs kv => GoMap.set hs kv.1 true) headerSet
    let count := count + 1
    if count ≥ sampleSize then (headerSet, dataRows, chan)
    else collectLoop ordK sampleSize chan headerSet dataRows count

/-- Result of `collectHeadersAndData`, with what it leaves on the channel. -/
structure Collected where
  headers : List String
  dataRows : List Record
  rest : List Record
  deriving DecidableEq, Repr

/-- The function `Converter.collectHeadersAndData`; `ordH` is the order in which
`range headerSet` visits the header set. -/
def collectHeadersAndData (ordK : MapOrder String) (ordH : MapOrder Bool)
    (dataChan : List Record) (sampleSize : Nat) : Collected :=
  let res := collectLoop ordK sampleSize dataChan [] [] 0
  { headers := sortStrings ((ordH res.1).map Prod.fst), dataRows := res.2.1, rest := res.2.2 }

/-! ## `internal/writer/excel_writer.go` -/

/-- The row `flushSheet` builds from a buffered record: one cell per header, the
record's value when the key exists and the empty string otherwise. -/
def renderRow (headers : List String) (rowData : Record) : List String :=
  headers.map (fun header =>
    match GoMap.lookup rowData header with
    | some val => val
    | none => "")

/-- The document of scenario A,
`<items><item><name>X</name><qty>3</qty></item><item><name>Y</name><qty>5</qty></item></items>`. -/
def scenarioA : Forest :=
  .elem "items"
    (.elem "item" (.elem "name" (.text "X" .nil) (.elem "qty" (.text "3" .nil) .nil))
      (.elem "item" (.elem "name" (.text "Y" .nil) (.elem "qty" (.text "5" .nil) .nil)) .nil))
    .nil

/-! ## Notions of the specification for SVD documents -/

/-- An element named `n` whose ancestors are `anc` is a correctly nested
peripheral: a `peripheral` inside a `peripherals` container. -/
def nestedPeripheral (anc : List String) (n : String) : Bool :=
  n == "peripheral" && anc.contains "peripherals"

/-- An element named `n` whose ancestors are `anc` is a correctly nested register:
a `register` inside a `registers` container and within a correctly nested
peripheral (`inP`). -/
def nestedRegister (anc : List String) (inP : Bool) (n : String) : Bool :=
  n == "register" && anc.contains "registers" && inP

/-- An element named `n` whose ancestors are `anc` is a correctly nested field:
a `field` inside a `fields` container and within a correctly nested register
(`inR`). -/
def nestedField (anc : List String) (inR : Bool) (n : String) : Bool :=
  n == "field" && anc.contains "fields" && inR

/-- Number of correctly nested peripheral elements of a forest whose ancestors
are `anc`. -/
def correctPeripherals (anc : List String) : Forest → Nat
  | .nil => 0
  | .elem n c rest =>
    (if nestedPeripheral anc n then 1 else 0)
      + (correctPeripherals (anc ++ [n]) c + correctPeripherals anc rest)
  | .text _ rest => correctPeripherals anc rest
  | .other rest => correctPeripherals anc rest

/-- Number of correctly nested register elements of a forest whose ancestors are
`anc`, `inP` telling whether the forest lies within a correctly nested
peripheral. -/
def correctRegisters (anc : List String) (inP : Bool) : Forest → Nat
  | .nil => 0
  | .elem n c rest =>
    (if nestedRegister anc inP n then 1 else 0)
      + (correctRegisters (anc ++ [n]) (inP || nestedPeripheral anc n) c
          + correctRegisters anc inP rest)
  | .text _ rest => correctRegisters anc inP rest
  | .other rest => correctRegisters anc inP rest

/-- Number of correctly nested field elements of a forest whose ancestors are `anc`,
`inP` and `inR` telling whether the forest lies within a correctly nested
peripheral and register. -/
def correctFields (anc : List String) (inP inR : Bool) : Forest → Nat
  | .nil => 0
  | .elem n c rest =>
    (if nestedField anc inR n then 1 else 0)
      + (correctFields (anc ++ [n]) (inP || nestedPeripheral anc n)
            (inR || nestedRegister anc inP n) c
          + correctFields anc inP inR rest)
  | .text _ rest => correctFields anc inP inR rest
  | .other rest => correctFields anc inP inR rest

/-- The keys the extractor adds to its records. -/
def syntheticKeys : List String :=
  ["_id", "_peripheral_id", "_peripheral_name", "_register_id", "_register_name"]

/-- A valid SVD document: well formed (a forest), no `peripheral` inside a
`peripheral`, no `register` inside a `register`, no `field` inside a `field`, and
no element that bears the name of a synthetic key. -/
def ValidSVD (f : Forest) : Prop :=
  f.nestFree "peripheral" = true ∧ f.nestFree "register" = true ∧ f.nestFree "field" = true
    ∧ ∀ k ∈ syntheticKeys, k ∉ f.names

instance (f : Forest) : Decidable (ValidSVD f) :=
  inferInstanceAs (Decidable (_ ∧ _ ∧ _ ∧ _))

/-- An SVD document: one peripheral `TIM` with the registers `CR` (one field `EN`) and
`SR`, and a `field` element outside any register. -/
def svdDoc : Forest :=
  .elem "device"
    (.elem "peripherals"
      (.elem "peripheral"
        (.elem "name" (.text "TIM" .nil)
          (.elem "registers"
            (.elem "register"
              (.elem "name" (.text "CR" .nil)
                (.elem "fields"
                  (.elem "field" (.elem "name" (.text "EN" .nil) .nil) .nil) .nil))
              (.elem "register" (.elem "name" (.text "SR" .nil) .nil) .nil))
            .nil))
        .nil)
      (.elem "fields" (.elem "field" (.elem "name" (.text "X" .nil) .nil) .nil) .nil))
    .nil

/-- The number a string of decimal digits denotes. -/
def digitsValue (ds : List Char) : Nat :=
  ds.foldl (fun acc c => 10 * acc + (c.toNat - 48)) 0

/-- The ids the step on token `t` assigns: an entity is opened exactly when the
counter of its kind grows, and its id is then in the slot of its kind. -/
def openedBy (s : SVDState) (t : Token) : List (Kind × String) :=
  (if (svdStep s t).peripheralCount ≠ s.peripheralCount then
      [(Kind.Peripheral, ((svdStep s t).currentPeripheral.map (Record.get · "_id")).getD "")]
    else [])
  ++ (if (svdStep s t).registerCount ≠ s.registerCount then
      [(Kind.Register, ((svdStep s t).currentRegister.map (Record.get · "_id")).getD "")]
    else [])
  ++ (if (svdStep s t).fieldCount ≠ s.fieldCount then
      [(Kind.Field, ((svdStep s t).currentField.map (Record.get · "_id")).getD "")]
    else [])

/-- The ids assigned to the entities opened while the loop of `ParseSVD` runs from
state `s` over the tokens, in the order of opening. -/
def openedIds (s : SVDState) : List Token → List (Kind × String)
  | [] => []
  | t :: ts => openedBy s t ++ openedIds (svdStep s t) ts

/-- The id prefix of a kind. -/
def Kind.idPrefix : Kind → String
  | .Peripheral => peripheralIDPrefix
  | .Register => registerIDPrefix
  | .Field => fieldIDPrefix

/-- The ids assigned to the entities of kind `k` opened by `ParseSVD` on the tokens,
in the order of opening. -/
def assignedIds (k : Kind) (ts : List Token) : List String :=
  ((openedIds SVDState.init ts).filter (fun e => e.1 = k)).map Prod.snd

/-- No element named `_id` is a direct child of an element named `peripheral`,
`register` or `field`; `path` lists the open elements, outermost first. -/
def idChildFree : List String → List Token → Bool
  | _, [] => true
  | path, Token.StartElement n :: ts => idChildFree (path ++ [n]) ts
  | path, Token.EndElement n :: ts =>
    !(n == "_id" && (parentElement path == some "peripheral"
        || parentElement path == some "register" || parentElement path == some "field"))
      && idChildFree path.dropLast ts
  | path, _ :: ts => idChildFree path ts

/-- A list of `n` empty `peripheral` elements. -/
def peripheralList : Nat → Forest
  | 0 => .nil
  | n + 1 => .elem "peripheral" .nil (peripheralList n)

/-- The document `<peripherals><peripheral/>...<peripheral/></peripherals>` with `n`
peripherals. -/
def manyPeripherals (n : Nat) : Forest := .elem "peripherals" (peripheralList n) .nil

/-- The document
`<peripherals><peripheral><_id>X</_id></peripheral><peripheral><_id>X</_id></peripheral></peripherals>`. -/
def sameIdDoc : Forest :=
  .elem "peripherals"
    (.elem "peripheral" (.elem "_id" (.text "X" .nil) .nil)
      (.elem "peripheral" (.elem "_id" (.text "X" .nil) .nil) .nil))
    .nil

/-- The ids on a channel are the formatted values of increasing sequence numbers
below the counter, and the open entity, if any, carries a later number. -/
def IdInv (pfx : String) (sentIds : List String) (cur : Option Record) (count : Nat) : Prop :=
  ∃ ks : List Nat, sentIds = ks.map (formatID pfx) ∧ ks.Sorted (· < ·)
    ∧ (∀ k ∈ ks, k < count)
    ∧ (∀ p, cur = some p →
        ∃ k0, Record.get p "_id" = formatID pfx k0 ∧ k0 < count ∧ ∀ k ∈ ks, k < k0)

/-- The values of `_id` of the records sent on the channel of kind `k`. -/
def idsOf (k : Kind) (sent : List (Kind × Record)) : List String :=
  (chanOf k sent).map (fun r => Record.get r "_id")

/-- The id invariant of the three channels. -/
def SvdIdInv (s : SVDState) : Prop :=
  IdInv peripheralIDPrefix (idsOf Kind.Peripheral s.sent) s.currentPeripheral s.peripheralCount
  ∧ IdInv registerIDPrefix (idsOf Kind.Register s.sent) s.currentRegister s.registerCount
  ∧ IdInv fieldIDPrefix (idsOf Kind.Field s.sent) s.currentField s.fieldCount

/-- The names of the top-level elements of a forest. -/
def Forest.topNames : Forest → List String
  | .nil => []
  | .elem n _ rest => n :: rest.topNames
  | .text _ rest => rest.topNames
  | .other rest => rest.topNames

/-- In a list of children, every child named `name` ends before the first element
named `kid` starts: no child that is, or comes after, a child containing a `kid`
is named `name`. -/
def Forest.earlyNames (kid : String) : Forest → Bool
  | .nil => true
  | .elem n c rest =>
    if n = kid ∨ kid ∈ c.names then
      decide (n ≠ "name") && !rest.topNames.contains "name"
    else rest.earlyNames kid
  | .text _ rest => rest.earlyNames kid
  | .other rest => rest.earlyNames kid

/-- In every element named `entity`, the `name` children end before the first
element named `kid` starts. -/
def Forest.nameOrdered (entity kid : String) : Forest → Bool
  | .nil => true
  | .elem n c rest =>
    (n != entity || c.earlyNames kid) && c.nameOrdered entity kid
      && rest.nameOrdered entity kid
  | .text _ rest => rest.nameOrdered entity kid
  | .other rest => rest.nameOrdered entity kid

/-- The names come first: in every peripheral the `name` children end before the
first register starts, and in every register before the first field starts. -/
def NamesFirst (f : Forest) : Prop :=
  f.nameOrdered "peripheral" "register" = true ∧ f.nameOrdered "register" "field" = true

instance (f : Forest) : Decidable (NamesFirst f) :=
  inferInstanceAs (Decidable (_ ∧ _))

/-- Record `e` refers to the entity record `p`: the key `ik` of `e` holds the `_id`
of `p` and, when `strict`, the key `nk` of `e` holds the `name` of `p`. -/
def RefersTo (strict : Bool) (ik nk : String) (e p : Record) : Prop :=
  Record.get p "_id" = Record.get e ik
    ∧ (strict = true → Record.get p "name" = Record.get e nk)

/-- The context of a run over a forest: the entity elements of the forest are not
nested in themselves, and an entity that is open has no element of its own name
in the forest. -/
structure Ctx (s : SVDState) (f : Forest) : Prop where
  hP : f.nestFree "peripheral" = true
  hR : f.nestFree "register" = true
  hF : f.nestFree "field" = true
  cP : s.currentPeripheral.isSome = true → "peripheral" ∉ f.names
  cR : s.currentRegister.isSome = true → "register" ∉ f.names
  cF : s.currentField.isSome = true → "field" ∉ f.names

/-- The open register and the open field refer to the open peripheral. -/
def LinkedP (strict : Bool) (s : SVDState) : Prop :=
  (∀ r, s.currentRegister = some r →
    ∃ p, s.currentPeripheral = some p
      ∧ RefersTo strict "_peripheral_id" "_peripheral_name" r p)
  ∧ (∀ x, s.currentField = some x →
    ∃ p, s.currentPeripheral = some p
      ∧ RefersTo strict "_peripheral_id" "_peripheral_name" x p)

/-- Every register or field record of `new` refers to a peripheral record sent later
in `new`, or to the peripheral `cur` that is still open. -/
def ResolvedP (strict : Bool) (new : List (Kind × Record)) (cur : Option Record) : Prop :=
  ∀ k e, (k, e) ∈ new → k ≠ Kind.Peripheral →
    (∃ p, [(k, e), (Kind.Peripheral, p)].Sublist new
      ∧ RefersTo strict "_peripheral_id" "_peripheral_name" e p)
    ∨ (∃ p, cur = some p ∧ RefersTo strict "_peripheral_id" "_peripheral_name" e p)

/-- The open field refers to the open register. -/
def LinkedR (strict : Bool) (s : SVDState) : Prop :=
  ∀ x, s.currentField = some x →
    ∃ r, s.currentRegister = some r ∧ RefersTo strict "_register_id" "_register_name" x r

/-- Every field record of `new` refers to a register record sent later in `new`, or
to the register `cur` that is still open. -/
def ResolvedR (strict : Bool) (new : List (Kind × Record)) (cur : Option Record) : Prop :=
  ∀ e, (Kind.Field, e) ∈ new →
    (∃ r, [(Kind.Field, e), (Kind.Register, r)].Sublist new
      ∧ RefersTo strict "_register_id" "_register_name" e r)
    ∨ (∃ r, cur = some r ∧ RefersTo strict "_register_id" "_register_name" e r)

/-- The document
`<peripherals><peripheral><registers><register><name>CR</name></register></registers>`
`<name>TIM</name></peripheral></peripherals>`: the name of the peripheral comes after its
registers. -/
def lateNameDoc : Forest :=
  .elem "peripherals"
    (.elem "peripheral"
      (.elem "registers"
        (.elem "register" (.elem "name" (.text "CR" .nil) .nil) .nil)
        (.elem "name" (.text "TIM" .nil) .nil))
      .nil)
    .nil

/-! ## `internal/writer/excel_writer.go`: the writer -/

/-- The calls into the spreadsheet library that can fail, each as the error it
returns, if any: `File.NewSheet`, `File.NewStreamWriter`, `StreamWriter.SetRow` of
the header row at `A1`, `StreamWriter.SetRow` of a data row, `StreamWriter.Flush`
and `File.SaveAs`. `setRow sheet written index cells` is the call at row `index`
on the stream of `sheet`, on which the rows `written` were accepted before. -/
structure Backend where
  newSheet : String → Option String
  newStreamWriter : String → Option String
  setHeader : String → List String → Option String
  setRow : String → List (Nat × List String) → Nat → List String → Option String
  flush : String → List (Nat × List String) → Option String
  saveAs : String → Option String

/-- What a stream writer of the library was handed: the header row at `A1`, the data
rows with their row index, in the order of the calls, and whether it was flushed. -/
structure StreamWriter where
  header : List String
  rows : List (Nat × List String)
  flushed : Bool
  deriving DecidableEq, Repr

/-- The type `SheetWriter`. -/
structure SheetWriter where
  streamWriter : StreamWriter
  headers : List String
  rowIndex : Nat
  rowBuffer : List Record
  batchSize : Nat
  deriving DecidableEq, Repr

/-- The type `ExcelWriter`. `currentSheets` maps a sheet name to its `SheetWriter`
(a pointer in the source: an update of a sheet is an update of its entry);
`saved` tells whether `File.SaveAs` has succeeded. The workbook of the library
(active sheet, styles, column widths) is not part of the state. -/
structure ExcelWriter where
  filename : String
  batchSize : Nat
  currentSheets : GoMap SheetWriter
  saved : Bool
  deriving DecidableEq, Repr

/-- The function `NewExcelWriter`. -/
def NewExcelWriter (filename : String) (batchSize : Nat) : ExcelWriter :=
  { filename := filename, batchSize := batchSize, currentSheets := [], saved := false }

/-- The function `ExcelWriter.CreateSheet`: the new state and the error returned. -/
def CreateSheet (be : Backend) (ew : ExcelWriter) (sheetName : String) (headers : List String) :
    ExcelWriter × Option String :=
  match be.newSheet sheetName with
  | some e => (ew, some ("failed to create sheet: " ++ e))
  | none =>
    match be.newStreamWriter sheetName with
    | some e => (ew, some ("failed to create stream writer: " ++ e))
    | none =>
      match be.setHeader sheetName headers with
      | some e => (ew, some ("failed to write header: " ++ e))
      | none =>
        ({ ew with
           currentSheets := ew.currentSheets.set sheetName
             { streamWriter := { header := headers, rows := [], flushed := false },
               headers := headers, rowIndex := 2, rowBuffer := [],
               batchSize := ew.batchSize } }, none)

/-- The loop of `flushSheet` over the buffered records: each is rendered and handed to
the stream writer at `rowIndex`, which then grows by one; the loop stops at the
first error. -/
def flushRows (be : Backend) (sheetName : String) :
    List Record → SheetWriter → SheetWriter × Option String
  | [], sheet => (sheet, none)
  | rowData :: rest, sheet =>
    let row := renderRow sheet.headers rowData
    match be.setRow sheetName sheet.streamWriter.rows sheet.rowIndex row with
    | some e => (sheet, some ("failed to write row: " ++ e))
    | none =>
      flushRows be sheetName rest
        { sheet with
          streamWriter :=
            { sheet.streamWriter with rows := sheet.streamWriter.rows ++ [(sheet.rowIndex, row)] },
          rowIndex := sheet.rowIndex + 1 }

/-- The function `ExcelWriter.flushSheet`. The buffer is emptied only when every row
was accepted. -/
def flushSheet (be : Backend) (ew : ExcelWriter) (sheetName : String) :
    ExcelWriter × Option String :=
  match ew.currentSheets.lookup sheetName with
  | none => (ew, some ("sheet not found: " ++ sheetName))
  | some sheet =>
    if sheet.rowBuffer.length = 0 then (ew, none)
    else
      match flushRows be sheetName sheet.rowBuffer sheet with
      | (sheet1, some e) =>
        ({ ew with currentSheets := ew.currentSheets.set sheetName sheet1 }, some e)
      | (sheet1, none) =>
        ({ ew with
           currentSheets := ew.currentSheets.set sheetName { sheet1 with rowBuffer := [] } },
         none)

/-- The function `ExcelWriter.WriteRow`. -/
def WriteRow (be : Backend) (ew : ExcelWriter) (sheetName : String) (data : Record) :
    ExcelWriter × Option String :=
  match ew.currentSheets.lookup sheetName with
  | none => (ew, some ("sheet not found: " ++ sheetName))
  | some sheet =>
    let sheet1 := { sheet with rowBuffer := sheet.rowBuffer ++ [data] }
    let ew1 := { ew with currentSheets := ew.currentSheets.set sheetName sheet1 }
    if sheet1.rowBuffer.length ≥ sheet1.batchSize then flushSheet be ew1 sheetName
    else (ew1, none)

/-- The first loop of `Close`: `flushSheet` for the sheet names in the order visited. -/
def flushAll (be : Backend) : List String → ExcelWriter → ExcelWriter × Option String
  | [], ew => (ew, none)
  | sheetName :: rest, ew =>
    match flushSheet be ew sheetName with
    | (ew1, some e) => (ew1, some e)
    | (ew1, none) => flushAll be rest ew1

/-- The second loop of `Close`: `streamWriter.Flush()` for the sheets in the order
visited. -/
def flushStreams (be : Backend) : List String → ExcelWriter → ExcelWriter × Option String
  | [], ew => (ew, none)
  | sheetName :: rest, ew =>
    match ew.currentSheets.lookup sheetName with
    | none => flushStreams be rest ew
    | some sheet =>
      match be.flush sheetName sheet.streamWriter.rows with
      | some e => (ew, some ("failed to flush stream writer: " ++ e))
      | none =>
        flushStreams be rest
          { ew with
            currentSheets := ew.currentSheets.set sheetName
              { sheet with streamWriter := { sheet.streamWriter with flushed := true } } }

/-- The function `ExcelWriter.Close`; `ordF` and `ordS` are the orders in which the
first and the second loop visit `currentSheets`. The third loop sets column widths
in the workbook and only prints a warning when that fails. -/
def Close (be : Backend) (ordF ordS : MapOrder SheetWriter) (ew : ExcelWriter) :
    ExcelWriter × Option String :=
  match flushAll be ((ordF ew.currentSheets).map Prod.fst) ew with
  | (ew1, some e) => (ew1, some e)
  | (ew1, none) =>
    match flushStreams be ((ordS ew1.currentSheets).map Prod.fst) ew1 with
    | (ew2, some e) => (ew2, some e)
    | (ew2, none) =>
      match be.saveAs ew2.filename with
      | some e => (ew2, some ("failed to save file: " ++ e))
      | none => ({ ew2 with saved := true }, none)

/-! ## Notions of the specification for the writer -/

/-- The data rows handed to the stream writer of a sheet so far, each with its row
index; `none` when the writer has no such sheet. -/
def sheetRows (ew : ExcelWriter) (sheetName : String) : Option (List (Nat × List String)) :=
  (ew.currentSheets.lookup sheetName).map (fun sheet => sheet.streamWriter.rows)

/-- A sequence of `WriteRow` calls, each with its sheet name and its record. -/
def writeCalls (be : Backend) (calls : List (String × Record)) (ew : ExcelWriter) :
    ExcelWriter :=
  calls.foldl (fun w c => (WriteRow be w c.1 c.2).1) ew

/-- The records a sequence of calls passes to the sheet `sheetName`, in order. -/
def recordsFor (sheetName : String) (calls : List (String × Record)) : List Record :=
  (calls.filter (fun c => c.1 = sheetName)).map Prod.snd

/-- The sheet `sheetName` of the writer has the headers `headers` and the batch size `b`; its
stream writer was handed the rows `tr` and then the rendered records `done` from
row `k` on; the records `pending` are in its buffer. -/
def SheetAt (ew : ExcelWriter) (sheetName : String) (headers : List String) (b k : Nat)
    (tr : List (Nat × List String)) (done pending : List Record) : Prop :=
  ∃ sheet, ew.currentSheets.lookup sheetName = some sheet
    ∧ sheet.headers = headers ∧ sheet.batchSize = b
    ∧ sheet.streamWriter.rows = tr ++ (done.map (renderRow headers)).enumFrom k
    ∧ sheet.rowIndex = k + done.length ∧ sheet.rowBuffer = pending

/-- A backend on which no call fails. -/
def Backend.accepting : Backend :=
  { newSheet := fun _ => none, newStreamWriter := fun _ => none, setHeader := fun _ _ => none,
    setRow := fun _ _ _ _ => none, flush := fun _ _ => none, saveAs := fun _ => none }

/-! ## Notions of the specification for the header sample -/

/-- The keys of a record. -/
def Record.keys (r : Record) : List String := r.map Prod.fst

/-! ## `internal/converter/converter.go`: the generic conversion -/

/-- Excel writer batch size: 2048 rows. -/
def DefaultBatchSize : Nat := 2048

/-- The type `Converter`. -/
structure Converter where
  bufferSize : Nat
  batchSize : Nat
  deriving DecidableEq, Repr

/-- The function `NewConverter`. -/
def NewConverter (bufferSize : Nat) : Converter :=
  { bufferSize := bufferSize, batchSize := DefaultBatchSize }

/-- The orders in which the `range` loops of a conversion visit their maps: the count map
of the detector, the keys of a row, the header set, and the sheets in the first
and the second loop of `Close`. -/
structure RangeOrders where
  counts : MapOrder Nat
  keys : MapOrder String
  headerSet : MapOrder Bool
  flushSheets : MapOrder SheetWriter
  flushStreams : MapOrder SheetWriter

/-- Every map is visited entry by entry, each entry once. -/
def RangeOrders.Valid (o : RangeOrders) : Prop :=
  o.counts.Valid ∧ o.keys.Valid ∧ o.headerSet.Valid ∧ o.flushSheets.Valid
    ∧ o.flushStreams.Valid

/-- The order of the entries as they are stored. -/
def RangeOrders.stored : RangeOrders :=
  { counts := id, keys := id, headerSet := id, flushSheets := id, flushStreams := id }

/-- What a conversion leaves: the error it returns, the writer after the deferred
`Close` (`none` when no writer was created), and the error that `Close` returned
to the `defer` statement. -/
structure ConvertResult where
  err : Option String
  writer : Option ExcelWriter
  closeErr : Option String
  deriving DecidableEq, Repr

/-- A loop of `Convert` over rows: `WriteRow` for each, and return at the first error. -/
def writeRows (be : Backend) (sheetName : String) :
    List Record → ExcelWriter → ExcelWriter × Option String
  | [], ew => (ew, none)
  | row :: rest, ew =>
    match WriteRow be ew sheetName row with
    | (ew1, some e) => (ew1, some ("failed to write row: " ++ e))
    | (ew1, none) => writeRows be sheetName rest ew1

/-- The body of `Convert` after the writer is created: `CreateSheet`, the loop over the
sampled rows, the loop over the rest of the channel, and the loop over the error
channel. -/
def convertBody (be : Backend) (ew : ExcelWriter) (headers : List String)
    (dataRows rest : List Record) (errChan : List String) : ExcelWriter × Option String :=
  match CreateSheet be ew "Sheet1" headers with
  | (ew1, some e) => (ew1, some ("failed to create sheet: " ++ e))
  | (ew1, none) =>
    match writeRows be "Sheet1" dataRows ew1 with
    | (ew2, some e) => (ew2, some e)
    | (ew2, none) =>
      match writeRows be "Sheet1" rest ew2 with
      | (ew3, some e) => (ew3, some e)
      | (ew3, none) => (ew3, errChan.head?)

/-- The function `Converter.Convert` from the point where the two channels of the
parser are at hand, with the header sample size `sampleSize` in the place of the
constant `config.HeaderSampleSize`. The deferred `Close` runs at every return after
the writer is created; its error is not returned. -/
def convertStream (sampleSize : Nat) (c : Converter) (be : Backend) (o : RangeOrders)
    (parsed : ParseResult) (outputFile : String) : ConvertResult :=
  let collected := collectHeadersAndData o.keys o.headerSet parsed.dataChan sampleSize
  if collected.headers.length = 0 then
    { err := some "no data columns found", writer := none, closeErr := none }
  else
    let body := convertBody be (NewExcelWriter outputFile c.batchSize) collected.headers
      collected.dataRows collected.rest parsed.errChan
    let closed := Close be o.flushSheets o.flushStreams body.1
    { err := body.2, writer := some closed.1, closeErr := closed.2 }

/-- The function `Converter.Convert` with the header sample size `sampleSize` in the place
of the constant `config.HeaderSampleSize`. -/
def convertSampled (sampleSize : Nat) (c : Converter) (be : Backend) (o : RangeOrders)
    (file : Except String Decoder) (seek : Option String) (outputFile : String) :
    ConvertResult :=
  convertStream sampleSize c be o (ParseToRows o.counts file seek) outputFile

/-- The function `Converter.Convert`. -/
def Convert (c : Converter) (be : Backend) (o : RangeOrders)
    (file : Except String Decoder) (seek : Option String) (outputFile : String) :
    ConvertResult :=
  convertSampled HeaderSampleSize c be o file seek outputFile

/-- The document `<rows><row><a>1</a></row><row><b>2</b></row></rows>`. -/
def twoKeysDoc : Forest :=
  .elem "rows"
    (.elem "row" (.elem "a" (.text "1" .nil) .nil)
      (.elem "row" (.elem "b" (.text "2" .nil) .nil) .nil))
    .nil

/-- The document `<r><a></a><b></b></r>`, in which no name repeats. -/
def noRepeatDoc : Forest := .elem "r" (.elem "a" .nil (.elem "b" .nil .nil)) .nil

/-- A backend on which only `File.SaveAs` fails. -/
def Backend.failingSave : Backend :=
  { Backend.accepting with saveAs := fun _ => some "disk full" }

/-- A backend on which only the data rows are refused. -/
def Backend.failingRows : Backend :=
  { Backend.accepting with setRow := fun _ _ _ _ => some "write failed" }

/-- What the stream writer of a sheet was handed: the header row and the data rows. -/
def sheetContent (ew : ExcelWriter) (sheetName : String) :
    Option (List String × List (Nat × List String)) :=
  (ew.currentSheets.lookup sheetName).map
    (fun sheet => (sheet.streamWriter.header, sheet.streamWriter.rows))

/-! ## `internal/converter/svc_converter.go`: the SVD conversion -/

/-- A Go channel with a buffer: the values queued, the capacity, and whether the
channel is closed. -/
structure Chan (α : Type) where
  queue : List α
  capacity : Nat
  closed : Bool
  deriving DecidableEq, Repr

/-- A channel made by `make(chan T, capacity)`. -/
def Chan.make {α : Type} (capacity : Nat) : Chan α :=
  { queue := [], capacity := capacity, closed := false }

/-- What a send does: the value is queued, or the sender waits for room, or the channel
is closed and the program panics. -/
inductive SendOutcome (α : Type) where
  | sent (c : Chan α)
  | blocked
  | panics
  deriving DecidableEq, Repr

/-- The statement `c <- v`. -/
def Chan.send {α : Type} (c : Chan α) (v : α) : SendOutcome α :=
  if c.closed then .panics
  else if c.queue.length < c.capacity then .sent { c with queue := c.queue ++ [v] }
  else .blocked

/-- What a receive of a `range` loop does: it takes the first queued value, or the
channel is closed and empty and the loop is over, or the receiver waits. -/
inductive RecvOutcome (α : Type) where
  | value (v : α) (c : Chan α)
  | finished
  | blocked
  deriving DecidableEq, Repr

/-- One receive of `for v := range c`. -/
def Chan.recv {α : Type} (c : Chan α) : RecvOutcome α :=
  match c.queue with
  | v :: q => .value v { c with queue := q }
  | [] => if c.closed then .finished else .blocked

/-- Capacity of the record channels of the parsers. -/
def channelBufferSize : Nat := 100

/-- What the goroutine of `ParseSVD` does to its channels: a record sent, the error sent,
and the deferred closes. -/
inductive ProducerOp where
  | send (k : Kind) (r : Record)
  | sendErr (e : String)
  | closeErr
  | closeData (k : Kind)
  deriving DecidableEq, Repr

/-- The channel operations of the goroutine of `ParseSVD`, in order: the records as
they are sent, the error if there is one, then the deferred closes, last deferred
first: `errChan`, `fieldChan`, `registerChan`, `peripheralChan`. -/
def producerOps (r : SVDResult) : List ProducerOp :=
  r.sent.map (fun e => ProducerOp.send e.1 e.2) ++ r.errChan.map ProducerOp.sendErr
    ++ [ProducerOp.closeErr, ProducerOp.closeData Kind.Field,
        ProducerOp.closeData Kind.Register, ProducerOp.closeData Kind.Peripheral]

/-- Where a goroutine of `ConvertSVD` that reads a channel stands: at the receive of its
`range` loop, at the send of an error to `errors`, or at its end. -/
inductive Task where
  | receiving
  | sending (e : String)
  | finished
  deriving DecidableEq, Repr

/-- Where `ConvertSVD` itself stands after it started its goroutines: at `wg.Wait()`, at
`close(errors)`, in the loop over `errors`, or returned, with the error it returned
and the error the deferred `Close` returned. -/
inductive Orchestrator where
  | waiting
  | closing
  | draining
  | returned (err : Option String) (closeErr : Option String)
  deriving DecidableEq, Repr

/-- The goroutines of an SVD conversion. -/
inductive Actor where
  | producer
  | consumer (k : Kind)
  | forwarder
  | orchestrator
  deriving DecidableEq, Repr

/-- The state of an SVD conversion while its goroutines run. -/
structure SVDRun where
  producer : List ProducerOp
  peripheralChan : Chan Record
  registerChan : Chan Record
  fieldChan : Chan Record
  errChan : Chan String
  errors : Chan String
  peripherals : Task
  registers : Task
  fields : Task
  forwarder : Task
  orchestrator : Orchestrator
  writer : ExcelWriter
  panicked : Bool
  deriving DecidableEq, Repr

/-- The record channel of a kind. -/
def SVDRun.dataChan (s : SVDRun) : Kind → Chan Record
  | .Peripheral => s.peripheralChan
  | .Register => s.registerChan
  | .Field => s.fieldChan

/-- The state with the record channel of a kind replaced. -/
def SVDRun.setDataChan (s : SVDRun) (k : Kind) (c : Chan Record) : SVDRun :=
  match k with
  | .Peripheral => { s with peripheralChan := c }
  | .Register => { s with registerChan := c }
  | .Field => { s with fieldChan := c }

/-- The consumer goroutine of a kind. -/
def SVDRun.task (s : SVDRun) : Kind → Task
  | .Peripheral => s.peripherals
  | .Register => s.registers
  | .Field => s.fields

/-- The state with the consumer goroutine of a kind replaced. -/
def SVDRun.setTask (s : SVDRun) (k : Kind) (t : Task) : SVDRun :=
  match k with
  | .Peripheral => { s with peripherals := t }
  | .Register => { s with registers := t }
  | .Field => { s with fields := t }

/-- The sheet of a kind. -/
def Kind.sheet : Kind → String
  | .Peripheral => "Peripherals"
  | .Register => "Registers"
  | .Field => "Fields"

/-- The text a consumer puts before the error of `WriteRow`. -/
def Kind.writeError : Kind → String
  | .Peripheral => "failed to write peripheral: "
  | .Register => "failed to write register: "
  | .Field => "failed to write field: "

/-- The type `SVDConverter`. -/
structure SVDConverter where
  bufferSize : Nat
  batchSize : Nat
  deriving DecidableEq, Repr

/-- The function `NewSVDConverter`. -/
def NewSVDConverter (bufferSize : Nat) : SVDConverter :=
  { bufferSize := bufferSize, batchSize := DefaultBatchSize }

/-- The headers of the sheet `Peripherals`. -/
def peripheralHeaders : List String :=
  ["_id", "name", "description", "groupName", "baseAddress", "size", "access", "resetValue"]

/-- The headers of the sheet `Registers`. -/
def registerHeaders : List String :=
  ["_id", "_peripheral_id", "_peripheral_name", "name", "displayName", "description",
   "addressOffset", "size", "access", "resetValue"]

/-- The headers of the sheet `Fields`. -/
def fieldHeaders : List String :=
  ["_id", "_register_id", "_register_name", "_peripheral_id", "_peripheral_name", "name",
   "description", "bitOffset", "bitWidth", "access"]

/-- One step of the goroutine of `ParseSVD`: its next channel operation. -/
def SVDRun.stepProducer (s : SVDRun) : Option SVDRun :=
  match s.producer with
  | [] => none
  | ProducerOp.send k r :: ops =>
    match (s.dataChan k).send r with
    | .sent c => some { s.setDataChan k c with producer := ops }
    | .blocked => none
    | .panics => some { s with panicked := true }
  | ProducerOp.sendErr e :: ops =>
    match s.errChan.send e with
    | .sent c => some { s with errChan := c, producer := ops }
    | .blocked => none
    | .panics => some { s with panicked := true }
  | ProducerOp.closeErr :: ops =>
    if s.errChan.closed then some { s with panicked := true }
    else some { s with errChan := { s.errChan with closed := true }, producer := ops }
  | ProducerOp.closeData k :: ops =>
    if (s.dataChan k).closed then some { s with panicked := true }
    else some { s.setDataChan k { s.dataChan k with closed := true } with producer := ops }

/-- One step of the consumer goroutine of a kind: a receive from its channel followed
by `WriteRow`, or the send of the error of `WriteRow` to `errors`, after which the
goroutine ends (`defer wg.Done()`). -/
def SVDRun.stepConsumer (be : Backend) (k : Kind) (s : SVDRun) : Option SVDRun :=
  match s.task k with
  | .receiving =>
    match (s.dataChan k).recv with
    | .value data c =>
      match WriteRow be s.writer k.sheet data with
      | (w, some e) =>
        some (({ s.setDataChan k c with writer := w }).setTask k (.sending (k.writeError ++ e)))
      | (w, none) => some { s.setDataChan k c with writer := w }
    | .finished => some (s.setTask k .finished)
    | .blocked => none
  | .sending e =>
    match s.errors.send e with
    | .sent c => some (({ s with errors := c }).setTask k .finished)
    | .blocked => none
    | .panics => some { s with panicked := true }
  | .finished => none

/-- One step of the goroutine that forwards the errors of the parser: a receive from
`errChan`, or the send of the error received to `errors`. It is not counted in the
wait group. -/
def SVDRun.stepForwarder (s : SVDRun) : Option SVDRun :=
  match s.forwarder with
  | .receiving =>
    match s.errChan.recv with
    | .value e c => some { s with errChan := c, forwarder := .sending e }
    | .finished => some { s with forwarder := .finished }
    | .blocked => none
  | .sending e =>
    match s.errors.send e with
    | .sent c => some { s with errors := c, forwarder := .receiving }
    | .blocked => none
    | .panics => some { s with panicked := true }
  | .finished => none

/-- One step of `ConvertSVD` itself: `wg.Wait()` returns once the three consumers have
ended, then `close(errors)`, then the loop over `errors`, which returns the first
error, or nil when the channel is drained. At the return the deferred `Close`
runs. -/
def SVDRun.stepOrchestrator (be : Backend) (o : RangeOrders) (s : SVDRun) : Option SVDRun :=
  match s.orchestrator with
  | .waiting =>
    if s.peripherals = .finished ∧ s.registers = .finished ∧ s.fields = .finished then
      some { s with orchestrator := .closing }
    else none
  | .closing =>
    if s.errors.closed then some { s with panicked := true }
    else some { s with errors := { s.errors with closed := true }, orchestrator := .draining }
  | .draining =>
    match s.errors.recv with
    | .value e c =>
      let closed := Close be o.flushSheets o.flushStreams s.writer
      some { s with errors := c, writer := closed.1,
                    orchestrator := .returned (some e) closed.2 }
    | .finished =>
      let closed := Close be o.flushSheets o.flushStreams s.writer
      some { s with writer := closed.1, orchestrator := .returned none closed.2 }
    | .blocked => none
  | .returned _ _ => none

/-- One step of the goroutine `a`; `none` when it cannot move: it waits on a channel or
on the wait group, it has ended, or the program has panicked. -/
def SVDRun.step (be : Backend) (o : RangeOrders) (a : Actor) (s : SVDRun) : Option SVDRun :=
  if s.panicked then none
  else
    match a with
    | .producer => s.stepProducer
    | .consumer k => s.stepConsumer be k
    | .forwarder => s.stepForwarder
    | .orchestrator => s.stepOrchestrator be o

/-- The run of a schedule, the list of the goroutines in the order in which they move;
`none` when a goroutine of the schedule cannot move at its turn. -/
def SVDRun.run (be : Backend) (o : RangeOrders) : List Actor → SVDRun → Option SVDRun
  | [], s => some s
  | a :: rest, s =>
    match s.step be o a with
    | some s1 => SVDRun.run be o rest s1
    | none => none

/-- The start of `ConvertSVD`: the parser is started, the writer and the three sheets are
created, the goroutines are started. When a sheet cannot be created the function
returns at once, with the deferred `Close`. -/
def svdStart (c : SVDConverter) (be : Backend) (o : RangeOrders)
    (file : Except String Decoder) (outputFile : String) : ConvertResult ⊕ SVDRun :=
  let early := fun (ew : ExcelWriter) (e : String) =>
    let closed := Close be o.flushSheets o.flushStreams ew
    ({ err := some e, writer := some closed.1, closeErr := closed.2 } : ConvertResult)
  match CreateSheet be (NewExcelWriter outputFile c.batchSize) "Peripherals"
      peripheralHeaders with
  | (ew1, some e) => .inl (early ew1 ("failed to create Peripherals sheet: " ++ e))
  | (ew1, none) =>
    match CreateSheet be ew1 "Registers" registerHeaders with
    | (ew2, some e) => .inl (early ew2 ("failed to create Registers sheet: " ++ e))
    | (ew2, none) =>
      match CreateSheet be ew2 "Fields" fieldHeaders with
      | (ew3, some e) => .inl (early ew3 ("failed to create Fields sheet: " ++ e))
      | (ew3, none) =>
        .inr { producer := producerOps (ParseSVD file),
               peripheralChan := Chan.make channelBufferSize,
               registerChan := Chan.make channelBufferSize,
               fieldChan := Chan.make channelBufferSize,
               errChan := Chan.make 1, errors := Chan.make 3,
               peripherals := .receiving, registers := .receiving, fields := .receiving,
               forwarder := .receiving, orchestrator := .waiting, writer := ew3,
               panicked := false }

/-- The state the goroutines of `ConvertSVD` reach under a schedule; `none` when a sheet
could not be created or the schedule cannot run. -/
def svdAfter (c : SVDConverter) (be : Backend) (o : RangeOrders)
    (file : Except String Decoder) (outputFile : String) (schedule : List Actor) :
    Option SVDRun :=
  match svdStart c be o file outputFile with
  | .inl _ => none
  | .inr s => s.run be o schedule

/-- The function `SVDConverter.ConvertSVD` under a schedule of its goroutines: what it
leaves once it has returned, `none` when it has not returned at the end of the
schedule. -/
def ConvertSVD (c : SVDConverter) (be : Backend) (o : RangeOrders)
    (file : Except String Decoder) (outputFile : String) (schedule : List Actor) :
    Option ConvertResult :=
  match svdStart c be o file outputFile with
  | .inl r => some r
  | .inr s =>
    match s.run be o schedule with
    | some s1 =>
      match s1.orchestrator with
      | .returned err closeErr => some { err := err, writer := some s1.writer, closeErr := closeErr }
      | _ => none
    | none => none

/-- The document `<device><peripherals><peripheral><name>TIM</name></peripheral>`
`</peripherals></device>`. -/
def onePeripheralDoc : Forest :=
  .elem "device"
    (.elem "peripherals" (.elem "peripheral" (.elem "name" (.text "TIM" .nil) .nil) .nil) .nil)
    .nil

/-- A file that ends inside the element `device`: the decoder reports an error after the
start tag. -/
def truncatedSVD : Decoder :=
  { tokens := [Token.StartElement "device"], err := some "unexpected EOF" }

/-- A schedule in which the forwarding goroutine moves last: the parser sends its error
and closes its channels, the three consumers find their channels closed, then
`ConvertSVD` passes `wg.Wait()`, closes `errors` and reads it. -/
def lateForwarder : List Actor :=
  [.producer, .producer, .producer, .producer, .producer,
   .consumer .Peripheral, .consumer .Register, .consumer .Field,
   .orchestrator, .orchestrator, .orchestrator]

/-- A schedule in which the forwarding goroutine moves as soon as the error is sent. -/
def earlyForwarder : List Actor :=
  [.producer, .forwarder, .forwarder, .producer, .producer, .producer, .producer, .forwarder,
   .consumer .Peripheral, .consumer .Register, .consumer .Field,
   .orchestrator, .orchestrator, .orchestrator]

/-- A schedule for the document with one peripheral and no error: the parser sends the
record and closes its channels, the consumers and the forwarding goroutine read
their channels to the end, then `ConvertSVD` passes `wg.Wait()`, closes `errors`
and reads it. -/
def plainSchedule : List Actor :=
  [.producer, .producer, .producer, .producer, .producer,
   .consumer .Peripheral, .consumer .Peripheral, .consumer .Register, .consumer .Field,
   .forwarder, .orchestrator, .orchestrator, .orchestrator]

/-! ## Notions of the specification for ties in the detection -/

/-- The names in the order in which the selection loop of the detector visits them. -/
def visitOrder (ord : MapOrder Nat) (ts : List Token) : List String :=
  (ord (ts.foldl detectStep { elementCounts := [], pathStack := [] }).elementCounts).map
    Prod.fst

/-- The name `n` has the maximum count: it has at least 2 start tags at depth > 1, and no
name has more. -/
def HasMaxCount (ts : List Token) (n : String) : Prop :=
  2 ≤ deepCount n 0 ts ∧ ∀ m, deepCount m 0 ts ≤ deepCount n 0 ts

/-- The names of the start tags at depth > 1, in document order, in a token stream read
with `d` elements already open. -/
def seenOrder : Nat → List Token → List String
  | _, [] => []
  | d, Token.StartElement m :: ts => (if d ≥ 1 then [m] else []) ++ seenOrder (d + 1) ts
  | d, Token.EndElement _ :: ts => seenOrder (d - 1) ts
  | d, _ :: ts => seenOrder d ts

/-! ## Notions of the specification for the buffer of the writer -/

/-- A call of the writer: `CreateSheet` or `WriteRow`. -/
inductive WriterCall where
  | create (sheetName : String) (headers : List String)
  | write (sheetName : String) (data : Record)
  deriving DecidableEq, Repr

/-- The writer after a sequence of calls in which every `WriteRow` returns nil; `none` when
a `WriteRow` of the sequence returns an error. A `CreateSheet` that returns an error
leaves the writer as it was. -/
def applyCalls (be : Backend) : List WriterCall → ExcelWriter → Option ExcelWriter
  | [], ew => some ew
  | WriterCall.create sheetName headers :: rest, ew =>
    applyCalls be rest (CreateSheet be ew sheetName headers).1
  | WriterCall.write sheetName data :: rest, ew =>
    match WriteRow be ew sheetName data with
    | (ew1, none) => applyCalls be rest ew1
    | (_, some _) => none

/-- The row index of a sheet is 2 plus the number of rows handed to its stream writer,
and these rows have the indices 2, 3, ... in order. -/
def SheetWriter.Indexed (sheet : SheetWriter) : Prop :=
  sheet.rowIndex = 2 + sheet.streamWriter.rows.length
    ∧ sheet.streamWriter.rows.map Prod.fst = List.range' 2 sheet.streamWriter.rows.length

/-- The buffer invariant of a writer with batch size `b`: every sheet has the batch size
`b`, fewer than `b` records in its buffer, and is indexed. -/
def BufferInv (b : Nat) (ew : ExcelWriter) : Prop :=
  ew.batchSize = b
    ∧ ∀ sheetName sheet, ew.currentSheets.lookup sheetName = some sheet →
        sheet.batchSize = b ∧ sheet.rowBuffer.length < b ∧ sheet.Indexed

/-! # Theorems -/

/-! ## Well-formed documents -/

/-- The tokens of a forest leave the open elements as they were. -/
theorem balanced_tokens (f : Forest) : ∀ (path : List String) (ts : List Token),
    balanced path (f.tokens ++ ts) = balanced path ts := by
  induction f with
  | nil => intro path ts; rfl
  | elem n c rest ihc ihr =>
    intro path ts
    have e : (Forest.elem n c rest).tokens ++ ts
        = Token.StartElement n :: (c.tokens ++ Token.EndElement n :: (rest.tokens ++ ts)) := by
      simp [Forest.tokens]
    rw [e]
    show balanced (path ++ [n]) (c.tokens ++ Token.EndElement n :: (rest.tokens ++ ts)) = _
    rw [ihc]
    show ((path ++ [n]).getLast? == some n && balanced (path ++ [n]).dropLast (rest.tokens ++ ts))
      = _
    rw [ihr]
    simp
  | text s rest ih =>
    intro path ts
    show balanced path (rest.tokens ++ ts) = _
    exact ih path ts
  | other rest ih =>
    intro path ts
    show balanced path (rest.tokens ++ ts) = _
    exact ih path ts

/-- A balanced token stream splits at the end tag of the innermost open element, and
a balanced stream with no open element is the stream of a forest. -/
theorem balanced_split : ∀ (k : Nat) (ts : List Token), ts.length ≤ k →
    (∀ path n, balanced (path ++ [n]) ts = true →
      ∃ (f : Forest) (ts' : List Token), ts = f.tokens ++ Token.EndElement n :: ts' ∧ balanced path ts' = true
        ∧ ts'.length < ts.length)
    ∧ (balanced [] ts = true → ∃ f : Forest, f.tokens = ts) := by
  intro k
  induction k with
  | zero =>
    intro ts hk
    have : ts = [] := List.eq_nil_of_length_eq_zero (Nat.le_zero.mp hk)
    subst this
    refine ⟨?_, fun _ => ⟨.nil, rfl⟩⟩
    intro path n h
    simp [balanced] at h
  | succ k ih =>
    intro ts hk
    match ts, hk with
    | [], _ =>
      refine ⟨?_, fun _ => ⟨.nil, rfl⟩⟩
      intro path n h
      simp [balanced] at h
    | Token.StartElement m :: t, hk =>
      have hk' : t.length ≤ k := by simpa using hk
      refine ⟨?_, ?_⟩
      · intro path n h
        simp only [balanced] at h
        obtain ⟨c, t', e1, b1, l1⟩ := (ih t hk').1 (path ++ [n]) m h
        obtain ⟨r, t'', e2, b2, l2⟩ := (ih t' (by omega)).1 path n b1
        refine ⟨.elem m c r, t'', ?_, b2, ?_⟩
        · rw [e1, e2]; simp [Forest.tokens]
        · simp only [List.length_cons]; omega
      · intro h
        simp only [balanced] at h
        obtain ⟨c, t', e1, b1, l1⟩ := (ih t hk').1 [] m h
        obtain ⟨r, e2⟩ := (ih t' (by omega)).2 b1
        refine ⟨.elem m c r, ?_⟩
        rw [e1, ← e2]; simp [Forest.tokens]
    | Token.EndElement m :: t, hk =>
      refine ⟨?_, ?_⟩
      · intro path n h
        simp only [balanced, List.getLast?_append, List.getLast?_singleton,
          List.dropLast_concat] at h
        simp at h
        obtain ⟨h1, h2⟩ := h
        subst h1
        exact ⟨.nil, t, rfl, h2, by simp⟩
      · intro h
        simp [balanced] at h
    | Token.CharData s :: t, hk =>
      have hk' : t.length ≤ k := by simpa using hk
      refine ⟨?_, ?_⟩
      · intro path n h
        simp only [balanced] at h
        obtain ⟨f, t', e1, b1, l1⟩ := (ih t hk').1 path n h
        refine ⟨.text s f, t', ?_, b1, ?_⟩
        · rw [e1]; simp [Forest.tokens]
        · simp only [List.length_cons]; omega
      · intro h
        simp only [balanced] at h
        obtain ⟨f, e⟩ := (ih t hk').2 h
        exact ⟨.text s f, by rw [← e]; simp [Forest.tokens]⟩
    | Token.Other :: t, hk =>
      have hk' : t.length ≤ k := by simpa using hk
      refine ⟨?_, ?_⟩
      · intro path n h
        simp only [balanced] at h
        obtain ⟨f, t', e1, b1, l1⟩ := (ih t hk').1 path n h
        refine ⟨.other f, t', ?_, b1, ?_⟩
        · rw [e1]; simp [Forest.tokens]
        · simp only [List.length_cons]; omega
      · intro h
        simp only [balanced] at h
        obtain ⟨f, e⟩ := (ih t hk').2 h
        exact ⟨.other f, by rw [← e]; simp [Forest.tokens]⟩

/-- The well-formed token streams are exactly the token streams of forests. -/
theorem wellFormed_iff_forest (ts : List Token) : WellFormed ts ↔ ∃ f : Forest, f.tokens = ts := by
  constructor
  · intro h
    exact (balanced_split ts.length ts (le_refl _)).2 h
  · rintro ⟨f, rfl⟩
    have := balanced_tokens f [] []
    simpa [WellFormed, balanced] using this

/-! ## Lemmas on Go maps -/

theorem GoMap.lookup_set {α : Type} (m : GoMap α) (k k' : String) (v : α) :
    (GoMap.set m k v).lookup k' = if k = k' then some v else m.lookup k' := by
  induction m with
  | nil => simp [GoMap.set, GoMap.lookup]
  | cons e rest ih =>
    obtain ⟨a, b⟩ := e
    by_cases h : a = k
    · subst h
      by_cases h2 : a = k' <;> simp [GoMap.set, GoMap.lookup, h2]
    · by_cases h2 : a = k'
      · subst h2
        have h3 : ¬ k = a := fun e => h e.symm
        simp [GoMap.set, GoMap.lookup, h, h3]
      · simp [GoMap.set, GoMap.lookup, h, h2, ih]

theorem GoMap.lookup_set_self {α : Type} (m : GoMap α) (k : String) (v : α) :
    (GoMap.set m k v).lookup k = some v := by
  simp [GoMap.lookup_set]

theorem GoMap.lookup_set_ne {α : Type} (m : GoMap α) (k k' : String) (v : α) (h : k ≠ k') :
    (GoMap.set m k v).lookup k' = m.lookup k' := by
  simp [GoMap.lookup_set, h]

theorem GoMap.mem_of_lookup {α : Type} (m : GoMap α) (k : String) (v : α)
    (h : m.lookup k = some v) : (k, v) ∈ m := by
  induction m with
  | nil => simp [GoMap.lookup] at h
  | cons e rest ih =>
    obtain ⟨a, b⟩ := e
    by_cases h2 : a = k
    · subst h2
      simp [GoMap.lookup] at h
      simp [h]
    · simp [GoMap.lookup, h2] at h
      exact List.mem_cons_of_mem _ (ih h)

theorem GoMap.lookup_isSome_of_mem {α : Type} (m : GoMap α) (k : String) (v : α)
    (h : (k, v) ∈ m) : (m.lookup k).isSome = true := by
  induction m with
  | nil => simp at h
  | cons e rest ih =>
    obtain ⟨a, b⟩ := e
    by_cases h2 : a = k
    · simp [GoMap.lookup, h2]
    · simp only [List.mem_cons, Prod.mk.injEq] at h
      rcases h with ⟨h3, _⟩ | h3
      · exact absurd h3.symm h2
      · simp [GoMap.lookup, h2, ih h3]

theorem GoMap.keys_set {α : Type} (m : GoMap α) (k : String) (v : α) (x : String) :
    x ∈ (GoMap.set m k v).map Prod.fst ↔ x = k ∨ x ∈ m.map Prod.fst := by
  induction m with
  | nil => simp [GoMap.set]
  | cons e rest ih =>
    obtain ⟨a, b⟩ := e
    by_cases h : a = k
    · subst h
      simp [GoMap.set]
    · simp only [GoMap.set, h, if_false, List.map_cons, List.mem_cons, ih]
      tauto

theorem GoMap.nodup_set {α : Type} (m : GoMap α) (k : String) (v : α)
    (h : (m.map Prod.fst).Nodup) : ((GoMap.set m k v).map Prod.fst).Nodup := by
  induction m with
  | nil => simp [GoMap.set]
  | cons e rest ih =>
    obtain ⟨a, b⟩ := e
    simp only [List.map_cons, List.nodup_cons] at h
    by_cases h2 : a = k
    · subst h2
      simp only [GoMap.set, if_true, List.map_cons, List.nodup_cons]
      exact h
    · simp only [GoMap.set, h2, if_false, List.map_cons, List.nodup_cons]
      refine ⟨?_, ih h.2⟩
      intro hmem
      rcases (GoMap.keys_set rest k v a).1 hmem with h3 | h3
      · exact h2 h3
      · exact h.1 h3

theorem GoMap.lookup_of_mem {α : Type} (m : GoMap α) (k : String) (v : α)
    (hnd : (m.map Prod.fst).Nodup) (h : (k, v) ∈ m) : m.lookup k = some v := by
  induction m with
  | nil => simp at h
  | cons e rest ih =>
    obtain ⟨a, b⟩ := e
    simp only [List.map_cons, List.nodup_cons] at hnd
    simp only [List.mem_cons, Prod.mk.injEq] at h
    rcases h with ⟨h1, h2⟩ | h3
    · simp [GoMap.lookup, h1, h2]
    · have hk : k ∈ rest.map Prod.fst := List.mem_map.2 ⟨(k, v), h3, rfl⟩
      have hne : ¬ a = k := fun e => hnd.1 (e ▸ hk)
      simp [GoMap.lookup, hne, ih hnd.2 h3]

/-! ## The detector -/

/-- The path stack of the detector grows and shrinks with the depth, and the
counter of a name grows by the number of its start tags below the root. -/
theorem detect_fold_count (n : String) (ts : List Token) (s : DetectState) :
    (ts.foldl detectStep s).elementCounts.count n
      = s.elementCounts.count n + deepCount n s.pathStack.length ts := by
  induction ts generalizing s with
  | nil => simp [deepCount]
  | cons t ts ih =>
    cases t with
    | StartElement m =>
      simp only [List.foldl_cons, deepCount]
      rw [ih]
      by_cases hd : s.pathStack.length ≥ 1
      · have h1 : 0 < s.pathStack.length := hd
        by_cases hm : m = n
        · subst hm
          simp [detectStep, h1, GoMap.count, GoMap.lookup_set_self, hd]
          omega
        · simp [detectStep, h1, GoMap.count, GoMap.lookup_set_ne _ _ _ _ hm, hm]
      · have h0 : s.pathStack.length = 0 := by omega
        have h1 : ¬ (s.pathStack ++ [m]).length > 1 := by simp [h0]
        simp [detectStep, h1, h0]
    | EndElement m =>
      simp only [List.foldl_cons, deepCount]
      rw [ih]
      by_cases hd : s.pathStack.length > 0
      · simp [detectStep, hd]
      · have h0 : s.pathStack.length = 0 := by omega
        simp [detectStep, h0]
    | CharData c => simp only [List.foldl_cons, deepCount, detectStep]; rw [ih]
    | Other => simp only [List.foldl_cons, deepCount, detectStep]; rw [ih]

theorem detect_fold_nodup (ts : List Token) (s : DetectState)
    (h : (s.elementCounts.map Prod.fst).Nodup) :
    ((ts.foldl detectStep s).elementCounts.map Prod.fst).Nodup := by
  induction ts generalizing s with
  | nil => simpa using h
  | cons t ts ih =>
    simp only [List.foldl_cons]
    apply ih
    cases t with
    | StartElement m =>
      simp only [detectStep]
      split
      · exact GoMap.nodup_set _ _ _ h
      · exact h
    | EndElement m =>
      simp only [detectStep]
      split <;> exact h
    | CharData c => exact h
    | Other => exact h

/-- Every entry of the detector's count map carries the number of start tags of
its name below the root. -/
theorem detect_entries (ts : List Token) (k : String) (c : Nat)
    (h : (k, c) ∈ (ts.foldl detectStep { elementCounts := [], pathStack := [] }).elementCounts) :
    c = deepCount k 0 ts := by
  have hnd := detect_fold_nodup ts { elementCounts := [], pathStack := [] } (by simp)
  have hl := GoMap.lookup_of_mem _ k c hnd h
  have hc := detect_fold_count k ts { elementCounts := [], pathStack := [] }
  simp [GoMap.count, hl, GoMap.lookup] at hc
  exact hc

/-- A name with a start tag below the root has an entry in the count map. -/
theorem detect_entry_of_pos (ts : List Token) (k : String) (h : 0 < deepCount k 0 ts) :
    (k, deepCount k 0 ts)
      ∈ (ts.foldl detectStep { elementCounts := [], pathStack := [] }).elementCounts := by
  have hc := detect_fold_count k ts { elementCounts := [], pathStack := [] }
  simp only [GoMap.count, GoMap.lookup, Option.getD_none, List.length_nil, zero_add] at hc
  apply GoMap.mem_of_lookup
  cases hl : GoMap.lookup (ts.foldl detectStep { elementCounts := [], pathStack := [] }).elementCounts k with
  | none => rw [hl] at hc; simp at hc; omega
  | some v => rw [hl] at hc; simp at hc; rw [hc]

theorem select_none (l : List (String × Nat)) (acc : Nat × String)
    (h : ∀ e ∈ l, e.2 ≤ 1) : l.foldl selectStep acc = acc := by
  induction l generalizing acc with
  | nil => rfl
  | cons e l ih =>
    have he : ¬ (e.2 > acc.1 ∧ e.2 > 1) := by
      have := h e (List.mem_cons_self _ _)
      omega
    simp only [List.foldl_cons, selectStep, he, if_false]
    exact ih acc (fun e' he' => h e' (List.mem_cons_of_mem _ he'))

theorem select_keep (n : String) (l : List (String × Nat)) (acc : Nat × String)
    (h : ∀ e ∈ l, e.2 > 1 → e.1 = n) (hacc : acc.2 = n) :
    (l.foldl selectStep acc).2 = n := by
  induction l generalizing acc with
  | nil => exact hacc
  | cons e l ih =>
    simp only [List.foldl_cons]
    apply ih _ (fun e' he' => h e' (List.mem_cons_of_mem _ he'))
    simp only [selectStep]
    split
    · rename_i hc
      exact h e (List.mem_cons_self _ _) hc.2
    · exact hacc

theorem select_first (n : String) (l : List (String × Nat)) (acc : Nat × String)
    (h : ∀ e ∈ l, e.2 > 1 → e.1 = n) (hacc : acc.1 = 0) (hex : ∃ e ∈ l, e.2 > 1) :
    (l.foldl selectStep acc).2 = n := by
  induction l generalizing acc with
  | nil => simp at hex
  | cons e l ih =>
    simp only [List.foldl_cons]
    have hl : ∀ e' ∈ l, e'.2 > 1 → e'.1 = n := fun e' he' => h e' (List.mem_cons_of_mem _ he')
    by_cases hc : e.2 > 1
    · apply select_keep n l _ hl
      have hc2 : e.2 > acc.1 ∧ e.2 > 1 := ⟨by omega, hc⟩
      simp only [selectStep, hc2, and_self, if_true]
      exact h e (List.mem_cons_self _ _) hc
    · have hc2 : ¬ (e.2 > acc.1 ∧ e.2 > 1) := fun x => hc x.2
      simp only [selectStep, hc2, if_false]
      apply ih acc hl hacc
      obtain ⟨e', he', hgt⟩ := hex
      rcases List.mem_cons.1 he' with rfl | hmem
      · exact absurd hgt hc
      · exact ⟨e', hmem, hgt⟩

/-- The detector returns the only name that has 2 or more start tags below the root. -/
theorem detect_unique (ord : MapOrder Nat) (hord : ord.Valid) (ts : List Token)
    (n : String) (hn : 2 ≤ deepCount n 0 ts)
    (hothers : ∀ m, m ≠ n → deepCount m 0 ts ≤ 1) :
    detectRepeatingElementFromDecoder ord { tokens := ts, err := none } = n := by
  simp only [detectRepeatingElementFromDecoder]
  apply select_first n _ (0, "") _ rfl
  · refine ⟨(n, deepCount n 0 ts), ?_, hn⟩
    exact (hord _).mem_iff.2 (detect_entry_of_pos ts n (by omega))
  · intro e he hgt
    have hmem := (hord _).mem_iff.1 he
    have hc := detect_entries ts e.1 e.2 hmem
    by_contra hne
    have := hothers e.1 hne
    omega

/-- C1. When exactly one element name has 2 or more start tags at depth > 1 and
every other name has at most 1, `detectRepeatingElementFromDecoder` returns that
name, in whatever order the count map is visited. It holds for every token
stream the decoder reads to `io.EOF`, the well-formed ones in particular. -/
theorem C1_detect_single_repeating (ord : MapOrder Nat) (hord : ord.Valid) (ts : List Token)
    (n : String) (hn : 2 ≤ deepCount n 0 ts)
    (hothers : ∀ m, m ≠ n → deepCount m 0 ts ≤ 1) :
    detectRepeatingElementFromDecoder ord { tokens := ts, err := none } = n :=
  detect_unique ord hord ts n hn hothers

/-- A concrete instance of C1: in `<r><a/><b/><a/></r>` only `a` repeats. -/
theorem C1_detect_single_repeating_witness :
    detectRepeatingElementFromDecoder id
      { tokens := (Forest.elem "r" (.elem "a" .nil (.elem "b" .nil (.elem "a" .nil .nil)))
          .nil).tokens, err := none } = "a" :=
  C1_detect_single_repeating id (fun _ => List.Perm.refl _) _ "a" (by decide)
    (by
      intro m hm
      have hb : m = "b" ∨ m ≠ "b" := by tauto
      rcases hb with rfl | hb
      · decide
      · have hm2 : ¬ "a" = m := fun e => hm e.symm
        have hb2 : ¬ "b" = m := fun e => hb e.symm
        simp [Forest.tokens, deepCount, hm2, hb2])

/-- C2. When no element name has 2 or more start tags at depth > 1, the detector
returns the empty name in whatever order the count map is visited, and
`ParseToRows` sends no row and exactly one error, "failed to detect repeating
XML element". It holds for every token stream the decoder reads to `io.EOF`. -/
theorem C2_detect_failure (ord : MapOrder Nat) (hord : ord.Valid) (ts : List Token)
    (seek : Option String) (hnone : ∀ m, deepCount m 0 ts ≤ 1) :
    detectRepeatingElementFromDecoder ord { tokens := ts, err := none } = ""
    ∧ ParseToRows ord (.ok { tokens := ts, err := none }) seek
        = { dataChan := [], errChan := ["failed to detect repeating XML element"] } := by
  have hd : detectRepeatingElementFromDecoder ord { tokens := ts, err := none } = "" := by
    simp only [detectRepeatingElementFromDecoder]
    rw [select_none]
    intro e he
    have hmem := (hord _).mem_iff.1 he
    rw [detect_entries ts e.1 e.2 hmem]
    exact hnone e.1
  refine ⟨hd, ?_⟩
  simp [ParseToRows, hd, errDetect]

/-- A concrete instance of C2: in `<r><a/><b/></r>` no name repeats. -/
theorem C2_detect_failure_witness :
    detectRepeatingElementFromDecoder id
      { tokens := (Forest.elem "r" (.elem "a" .nil (.elem "b" .nil .nil)) .nil).tokens,
        err := none } = ""
    ∧ ParseToRows id
        (.ok { tokens := (Forest.elem "r" (.elem "a" .nil (.elem "b" .nil .nil)) .nil).tokens,
               err := none }) none
        = { dataChan := [], errChan := ["failed to detect repeating XML element"] } :=
  C2_detect_failure id (fun _ => List.Perm.refl _) _ none
    (by
      intro m
      simp only [Forest.tokens, deepCount, List.nil_append]
      by_cases ha : "a" = m
      · subst ha; decide
      · by_cases hb : "b" = m
        · subst hb; decide
        · simp [ha, hb])

/-! ## The flattener -/

/-- C3. On `<rows><row><a>1</a><b></b></row><row/><row/></rows>` the detector finds
`row` and the second pass of `ParseToRows` sends, for the first `row`, a record
that maps `a` to "1" and that has the key `b`, mapped to the empty string: the
child with empty content is stored, not omitted. -/
theorem C3_empty_child_is_stored :
    ParseToRows id (.ok { tokens := emptyChildDoc.tokens, err := none }) none
      = { dataChan := [[("a", "1"), ("b", "")], [], []], errChan := [] }
    ∧ GoMap.lookup [("a", "1"), ("b", "")] "a" = some "1"
    ∧ GoMap.lookup [("a", "1"), ("b", "")] "b" = some "" := by
  decide

theorem parentElement_concat (st : List String) (n : String) :
    parentElement (st ++ [n]) = st.getLast? := by
  unfold parentElement
  by_cases h : st = []
  · subst h; simp
  · have hlen : 0 < st.length := List.length_pos.2 h
    have h2 : (st ++ [n]).length ≥ 2 := by simp; omega
    rw [if_pos h2]
    have h3 : (st ++ [n]).length - 2 = st.length - 1 := by simp
    rw [h3, List.get?_eq_getElem?, List.getElem?_append_left (by omega), List.getLast?_eq_getElem?]

theorem rowRun_append (r : String) (s : RowState) (a b : List Token) :
    rowRun r s (a ++ b) = rowRun r (rowRun r s a) b := by
  simp [rowRun, List.foldl_append]

theorem rowRun_cons (r : String) (s : RowState) (t : Token) (ts : List Token) :
    rowRun r s (t :: ts) = rowRun r (rowStep r s t) ts := rfl

theorem rowRun_nil (r : String) (s : RowState) : rowRun r s [] = s := rfl

theorem rowRun_elem (r : String) (s : RowState) (n : String) (c rest : Forest) :
    rowRun r s (Forest.elem n c rest).tokens
      = rowRun r (rowStep r (rowRun r (rowStep r s (Token.StartElement n)) c.tokens)
          (Token.EndElement n)) rest.tokens := by
  simp [Forest.tokens, rowRun_cons, rowRun_append]

theorem rowStep_start_ne (r n : String) (s : RowState) (h : n ≠ r) :
    rowStep r s (Token.StartElement n)
      = { s with pathStack := s.pathStack ++ [n], currentText := "" } := by
  simp [rowStep, h]

theorem rowStep_start_eq (r : String) (s : RowState) :
    rowStep r s (Token.StartElement r)
      = { s with pathStack := s.pathStack ++ [r], currentText := "",
                 inTargetElement := true, currentRow := some [] } := by
  simp [rowStep]

theorem rowStep_end_ne (r n : String) (s : RowState) (h : n ≠ r) :
    rowStep r s (Token.EndElement n)
      = { s with pathStack := s.pathStack.dropLast, currentText := "",
                 currentRow :=
                   if s.inTargetElement = true ∧ parentElement s.pathStack = some r then
                     s.currentRow.map (fun row => GoMap.set row n (TrimSpace s.currentText))
                   else s.currentRow } := by
  simp only [rowStep, h, false_and, if_false, ne_eq, not_false_eq_true, and_true]
  split <;> rfl

theorem rowStep_end_eq (r : String) (s : RowState) :
    rowStep r s (Token.EndElement r)
      = if s.inTargetElement = true then
          { s with pathStack := s.pathStack.dropLast, currentText := "",
                   dataChan := s.dataChan ++ [s.currentRow.getD []],
                   rowCount := s.rowCount + 1, inTargetElement := false, currentRow := none }
        else { s with pathStack := s.pathStack.dropLast, currentText := "" } := by
  simp only [rowStep, ne_eq, not_true_eq_false, and_false, if_false, true_and]
  split <;> rfl

/-- Inside an element named `r` whose content has no `r`: the path stack is
restored, the row stays open and nothing is sent. -/
theorem row_inside_frame (r : String) (c : Forest) (hc : r ∉ c.names) (s : RowState)
    (hin : s.inTargetElement = true) :
    (rowRun r s c.tokens).pathStack = s.pathStack
    ∧ (rowRun r s c.tokens).inTargetElement = true
    ∧ (rowRun r s c.tokens).dataChan = s.dataChan := by
  induction c generalizing s with
  | nil => simp [Forest.tokens, rowRun_nil, hin]
  | elem n c rest ihc ihr =>
    simp only [Forest.names, List.mem_cons, List.mem_append, not_or] at hc
    obtain ⟨hn, hcc, hcr⟩ := hc
    have hn2 : n ≠ r := fun e => hn e.symm
    rw [rowRun_elem, rowStep_start_ne r n s hn2]
    obtain ⟨h1a, h1b, h1c⟩ := ihc hcc { s with pathStack := s.pathStack ++ [n], currentText := "" } hin
    generalize rowRun r { s with pathStack := s.pathStack ++ [n], currentText := "" } c.tokens
      = s2 at h1a h1b h1c ⊢
    rw [rowStep_end_ne r n s2 hn2]
    obtain ⟨h3a, h3b, h3c⟩ := ihr hcr
      { s2 with pathStack := s2.pathStack.dropLast, currentText := "",
                currentRow :=
                   if s2.inTargetElement = true ∧ parentElement s2.pathStack = some r then
                     s2.currentRow.map (fun row => GoMap.set row n (TrimSpace s2.currentText))
                   else s2.currentRow } h1b
    refine ⟨?_, h3b, ?_⟩
    · rw [h3a]; simp [h1a]
    · rw [h3c]; simp [h1c]
  | text t rest ih =>
    simp only [Forest.names] at hc
    simp only [Forest.tokens, rowRun_cons]
    have := ih hc (rowStep r s (Token.CharData t)) (by simp [rowStep, hin])
    simpa [rowStep] using this
  | other rest ih =>
    simp only [Forest.names] at hc
    simp only [Forest.tokens, rowRun_cons]
    have := ih hc (rowStep r s Token.Other) (by simp [rowStep, hin])
    simpa [rowStep] using this

/-- Inside an element named `r` whose content has no `r`, the row and the pending
text depend on the path stack only through whether its top is `r`. -/
theorem row_inside_sim (r : String) (c : Forest) (hc : r ∉ c.names) (s1 s2 : RowState)
    (hin1 : s1.inTargetElement = true) (hin2 : s2.inTargetElement = true)
    (hrow : s1.currentRow = s2.currentRow) (htext : s1.currentText = s2.currentText)
    (hpar : s1.pathStack.getLast? = some r ↔ s2.pathStack.getLast? = some r) :
    (rowRun r s1 c.tokens).currentRow = (rowRun r s2 c.tokens).currentRow
    ∧ (rowRun r s1 c.tokens).currentText = (rowRun r s2 c.tokens).currentText := by
  induction c generalizing s1 s2 with
  | nil => simp [Forest.tokens, rowRun_nil, hrow, htext]
  | elem n c rest ihc ihr =>
    simp only [Forest.names, List.mem_cons, List.mem_append, not_or] at hc
    obtain ⟨hn, hcc, hcr⟩ := hc
    have hn2 : n ≠ r := fun e => hn e.symm
    rw [rowRun_elem, rowRun_elem, rowStep_start_ne r n s1 hn2, rowStep_start_ne r n s2 hn2]
    obtain ⟨ha, hb⟩ := ihc hcc { s1 with pathStack := s1.pathStack ++ [n], currentText := "" }
      { s2 with pathStack := s2.pathStack ++ [n], currentText := "" } hin1 hin2 hrow rfl
      (by simp)
    obtain ⟨f1a, f1b, _⟩ := row_inside_frame r c hcc
      { s1 with pathStack := s1.pathStack ++ [n], currentText := "" } hin1
    obtain ⟨f2a, f2b, _⟩ := row_inside_frame r c hcc
      { s2 with pathStack := s2.pathStack ++ [n], currentText := "" } hin2
    generalize rowRun r { s1 with pathStack := s1.pathStack ++ [n], currentText := "" } c.tokens
      = t1 at ha hb f1a f1b ⊢
    generalize rowRun r { s2 with pathStack := s2.pathStack ++ [n], currentText := "" } c.tokens
      = t2 at ha hb f2a f2b ⊢
    rw [rowStep_end_ne r n t1 hn2, rowStep_end_ne r n t2 hn2]
    apply ihr hcr
    · exact f1b
    · exact f2b
    · simp only [f1a, f2a, f1b, f2b, parentElement_concat, true_and, ha, hb]
      by_cases h : s1.pathStack.getLast? = some r
      · rw [if_pos h, if_pos (hpar.1 h)]
      · rw [if_neg h, if_neg (fun x => h (hpar.2 x))]
    · rfl
    · simp only [f1a, f2a, List.dropLast_concat]
      exact hpar
  | text t rest ih =>
    simp only [Forest.names] at hc
    simp only [Forest.tokens, rowRun_cons]
    apply ih hc
    · simpa [rowStep] using hin1
    · simpa [rowStep] using hin2
    · simpa [rowStep] using hrow
    · simp [rowStep, htext]
    · simpa [rowStep] using hpar
  | other rest ih =>
    simp only [Forest.names] at hc
    simp only [Forest.tokens, rowRun_cons]
    exact ih hc _ _ (by simpa [rowStep] using hin1) (by simpa [rowStep] using hin2)
      (by simpa [rowStep] using hrow) (by simpa [rowStep] using htext)
      (by simpa [rowStep] using hpar)

/-- An element named `r` without an `r` inside it, flattened alone, gives one row:
the row that is open when its end tag is read. -/
theorem flatten_single (r : String) (c : Forest) (hc : r ∉ c.names) :
    flatten r (Forest.elem r c .nil).tokens
      = [(rowRun r (rowOpen r) c.tokens).currentRow.getD []] := by
  have hrun : flatten r (Forest.elem r c .nil).tokens
      = (rowRun r RowState.init (Forest.elem r c .nil).tokens).dataChan := rfl
  have hopen : rowStep r RowState.init (Token.StartElement r) = rowOpen r := by
    simp [rowStep, RowState.init, rowOpen]
  rw [hrun, rowRun_elem, hopen]
  obtain ⟨_, fb, fc⟩ := row_inside_frame r c hc (rowOpen r) rfl
  generalize rowRun r (rowOpen r) c.tokens = t at fb fc ⊢
  rw [rowStep_end_eq, if_pos fb]
  simp [Forest.tokens, rowRun_nil, fc, rowOpen]

theorem occurrences_eq_nil (r : String) (f : Forest) (h : r ∉ f.names) :
    f.occurrences r = [] := by
  induction f with
  | nil => rfl
  | elem n c rest ihc ihr =>
    simp only [Forest.names, List.mem_cons, List.mem_append, not_or] at h
    have hn : ¬ n = r := fun e => h.1 e.symm
    simp [Forest.occurrences, hn, ihc h.2.1, ihr h.2.2]
  | text t rest ih => exact ih h
  | other rest ih => exact ih h

theorem nestFree_elem (r n : String) (c rest : Forest)
    (h : (Forest.elem n c rest).nestFree r = true) :
    (n = r → r ∉ c.names) ∧ c.nestFree r = true ∧ rest.nestFree r = true := by
  simp only [Forest.nestFree, Bool.and_eq_true, Bool.or_eq_true, bne_iff_ne, ne_eq] at h
  obtain ⟨⟨h1, h2⟩, h3⟩ := h
  refine ⟨?_, h2, h3⟩
  intro hn
  rcases h1 with h1 | h1
  · exact absurd hn h1
  · simpa using h1

/-- Outside the elements named `r`, in a document without an `r` inside an `r`:
the path stack is restored, no row is left open, and the rows sent are those
of the elements named `r`, each flattened alone, in document order. -/
theorem row_outside (r : String) (f : Forest) (hf : f.nestFree r = true) (s : RowState)
    (hin : s.inTargetElement = false) :
    (rowRun r s f.tokens).pathStack = s.pathStack
    ∧ (rowRun r s f.tokens).inTargetElement = false
    ∧ (rowRun r s f.tokens).dataChan
        = s.dataChan ++ (f.occurrences r).flatMap
            (fun c => flatten r (Forest.elem r c .nil).tokens) := by
  induction f generalizing s with
  | nil => simp [Forest.tokens, rowRun_nil, hin, Forest.occurrences]
  | elem n c rest ihc ihr =>
    obtain ⟨hnest, hfc, hfr⟩ := nestFree_elem r n c rest hf
    by_cases hn : n = r
    · subst hn
      have hc : n ∉ c.names := hnest rfl
      rw [rowRun_elem, rowStep_start_eq]
      obtain ⟨fa, fb, fc⟩ := row_inside_frame n c hc
        { s with pathStack := s.pathStack ++ [n], currentText := "",
                 inTargetElement := true, currentRow := some [] } rfl
      obtain ⟨ga, _⟩ := row_inside_sim n c hc
        { s with pathStack := s.pathStack ++ [n], currentText := "",
                 inTargetElement := true, currentRow := some [] } (rowOpen n) rfl rfl rfl rfl
        (by simp [rowOpen])
      generalize rowRun n { s with pathStack := s.pathStack ++ [n], currentText := "", inTargetElement := true, currentRow := some [] } c.tokens
        = t at fa fb fc ga ⊢
      rw [rowStep_end_eq, if_pos fb]
      obtain ⟨ha, hb, hc2⟩ := ihr hfr
        { t with pathStack := t.pathStack.dropLast, currentText := "",
                 dataChan := t.dataChan ++ [t.currentRow.getD []],
                 rowCount := t.rowCount + 1, inTargetElement := false, currentRow := none } rfl
      refine ⟨?_, hb, ?_⟩
      · rw [ha]; simp [fa]
      · rw [hc2]
        simp [Forest.occurrences, occurrences_eq_nil n c hc, flatten_single n c hc, fc, ga]
    · rw [rowRun_elem, rowStep_start_ne r n s hn]
      obtain ⟨fa, fb, fc⟩ := ihc hfc { s with pathStack := s.pathStack ++ [n], currentText := "" } hin
      generalize rowRun r { s with pathStack := s.pathStack ++ [n], currentText := "" } c.tokens
        = t at fa fb fc ⊢
      rw [rowStep_end_ne r n t hn]
      obtain ⟨ha, hb, hc2⟩ := ihr hfr
        { t with pathStack := t.pathStack.dropLast, currentText := "",
                 currentRow :=
                   if t.inTargetElement = true ∧ parentElement t.pathStack = some r then
                     t.currentRow.map (fun row => GoMap.set row n (TrimSpace t.currentText))
                   else t.currentRow } fb
      refine ⟨?_, hb, ?_⟩
      · rw [ha]; simp [fa]
      · rw [hc2]
        simp [Forest.occurrences, hn, fc]
  | text t rest ih =>
    simp only [Forest.nestFree] at hf
    simp only [Forest.tokens, rowRun_cons, Forest.occurrences]
    have := ih hf (rowStep r s (Token.CharData t)) (by simp [rowStep, hin])
    simpa [rowStep] using this
  | other rest ih =>
    simp only [Forest.nestFree] at hf
    simp only [Forest.tokens, rowRun_cons, Forest.occurrences]
    have := ih hf (rowStep r s Token.Other) (by simp [rowStep, hin])
    simpa [rowStep] using this

theorem occurrences_nestFree (r : String) (f : Forest) (hf : f.nestFree r = true) :
    ∀ c ∈ f.occurrences r, r ∉ c.names := by
  induction f with
  | nil => simp [Forest.occurrences]
  | elem n c rest ihc ihr =>
    obtain ⟨hnest, hfc, hfr⟩ := nestFree_elem r n c rest hf
    intro c' hc'
    simp only [Forest.occurrences, List.mem_append] at hc'
    rcases hc' with h | h | h
    · by_cases hn : n = r
      · simp only [hn, if_true, List.mem_singleton] at h
        subst h
        exact hnest hn
      · simp [hn] at h
    · exact ihc hfc c' h
    · exact ihr hfr c' h
  | text t rest ih => exact ih hf
  | other rest ih => exact ih hf

theorem startCount_tokens (r : String) (f : Forest) :
    startCount r f.tokens = (f.occurrences r).length := by
  induction f with
  | nil => rfl
  | elem n c rest ihc ihr =>
    simp only [startCount] at ihc ihr
    simp only [startCount, Forest.tokens, Forest.occurrences, List.count_cons, List.count_append,
      List.length_append, ihc, ihr]
    by_cases hn : n = r
    · subst hn; simp; omega
    · simp [hn]
  | text t rest ih =>
    simp only [startCount] at ih
    simp [startCount, Forest.tokens, Forest.occurrences, List.count_cons, ih]
  | other rest ih =>
    simp only [startCount] at ih
    simp [startCount, Forest.tokens, Forest.occurrences, List.count_cons, ih]

/-- C4, as stated, fails: `<r><r></r><r></r></r>` is well formed and has three start tags
named `r`, two of them below the root, so the detector returns `r` in whatever
order it visits the count map; the second pass of `ParseToRows` then sends two
rows only: the start tag of the first inner `r` reopens the row of the outer one,
and the end tag of the outer `r` finds no open row. -/
theorem C4_nested_counterexample :
    WellFormed nestedDoc.tokens
    ∧ (∀ ord : MapOrder Nat, ord.Valid →
        detectRepeatingElementFromDecoder ord { tokens := nestedDoc.tokens, err := none } = "r")
    ∧ ParseToRows id (.ok { tokens := nestedDoc.tokens, err := none }) none
        = { dataChan := [[], []], errChan := [] }
    ∧ startCount "r" nestedDoc.tokens = 3
    ∧ (flatten "r" nestedDoc.tokens).length = 2
    ∧ ¬ ((flatten "r" nestedDoc.tokens).length = startCount "r" nestedDoc.tokens) := by
  refine ⟨by decide, ?_, by decide, by decide, by decide, by decide⟩
  intro ord hord
  apply detect_unique ord hord nestedDoc.tokens "r" (by decide)
  intro m hm
  have hm2 : ¬ "r" = m := fun e => hm e.symm
  simp [nestedDoc, Forest.tokens, deepCount, hm2]

/-- C4, amended. In a well-formed document in which no element named `r` lies inside
another element named `r`, the second pass of `ParseToRows` sends exactly one row
per start tag named `r` (an `r` that is the document root included), and the rows
come in document order: the rows sent are those of the elements named `r`, each
flattened on its own, one after the other in document order. -/
theorem C4_one_row_per_element (r : String) (f : Forest) (hf : f.nestFree r = true) :
    (flatten r f.tokens).length = startCount r f.tokens
    ∧ flatten r f.tokens
        = (f.occurrences r).flatMap (fun c => flatten r (Forest.elem r c .nil).tokens)
    ∧ ∀ c ∈ f.occurrences r, (flatten r (Forest.elem r c .nil).tokens).length = 1 := by
  have hout := (row_outside r f hf RowState.init rfl).2.2
  have hflat : flatten r f.tokens
      = (f.occurrences r).flatMap (fun c => flatten r (Forest.elem r c .nil).tokens) := by
    have : flatten r f.tokens = (rowRun r RowState.init f.tokens).dataChan := rfl
    rw [this, hout]
    simp [RowState.init]
  have hone : ∀ c ∈ f.occurrences r, (flatten r (Forest.elem r c .nil).tokens).length = 1 := by
    intro c hc
    rw [flatten_single r c (occurrences_nestFree r f hf c hc)]
    rfl
  refine ⟨?_, hflat, hone⟩
  rw [hflat, startCount_tokens]
  generalize f.occurrences r = l at hone
  induction l with
  | nil => rfl
  | cons c l ih =>
    simp only [List.flatMap_cons, List.length_append, List.length_cons]
    rw [hone c (List.mem_cons_self _ _), ih (fun c' hc' => hone c' (List.mem_cons_of_mem _ hc'))]
    omega

/-- A concrete instance of C4: the three `row` elements of
`<rows><row><a>1</a><b></b></row><row/><row/></rows>` give three rows. -/
theorem C4_one_row_per_element_witness :
    (flatten "row" emptyChildDoc.tokens).length = startCount "row" emptyChildDoc.tokens
    ∧ flatten "row" emptyChildDoc.tokens
        = (emptyChildDoc.occurrences "row").flatMap
            (fun c => flatten "row" (Forest.elem "row" c .nil).tokens)
    ∧ ∀ c ∈ emptyChildDoc.occurrences "row",
        (flatten "row" (Forest.elem "row" c .nil).tokens).length = 1 :=
  C4_one_row_per_element "row" emptyChildDoc (by decide)

/-! ## Headers and scenario A -/

theorem headerSet_keys (l : List (String × String)) (hs : GoMap Bool) (x : String) :
    x ∈ (l.foldl (fun hs kv => GoMap.set hs kv.1 true) hs).map Prod.fst
      ↔ x ∈ hs.map Prod.fst ∨ x ∈ l.map Prod.fst := by
  induction l generalizing hs with
  | nil => simp
  | cons e l ih =>
    simp only [List.foldl_cons, List.map_cons, List.mem_cons]
    rw [ih, GoMap.keys_set]
    tauto

theorem headerSet_nodup (l : List (String × String)) (hs : GoMap Bool)
    (h : (hs.map Prod.fst).Nodup) :
    ((l.foldl (fun hs kv => GoMap.set hs kv.1 true) hs).map Prod.fst).Nodup := by
  induction l generalizing hs with
  | nil => simpa using h
  | cons e l ih =>
    simp only [List.foldl_cons]
    exact ih _ (GoMap.nodup_set hs e.1 true h)

/-- Sorting gives the sorted arrangement of the strings, whatever their order. -/
theorem sortStrings_eq (l l' : List String) (hp : l.Perm l') (hs : l'.Sorted (· ≤ ·)) :
    sortStrings l = l' :=
  List.eq_of_perm_of_sorted ((List.perm_insertionSort _ l).trans hp)
    (List.sorted_insertionSort _ l) hs

theorem select_saturated (l : List (String × Nat)) (acc : Nat × String)
    (h : ∀ e ∈ l, e.2 ≤ acc.1) : l.foldl selectStep acc = acc := by
  induction l generalizing acc with
  | nil => rfl
  | cons e l ih =>
    have he : ¬ (e.2 > acc.1 ∧ e.2 > 1) := by
      have := h e (List.mem_cons_self _ _)
      omega
    simp only [List.foldl_cons, selectStep, he, if_false]
    exact ih acc (fun e' he' => h e' (List.mem_cons_of_mem _ he'))

/-- The rows of scenario A have the headers `name` and `qty`, in whatever order the
keys of the rows and the header set are visited. -/
theorem scenarioA_collect (ordK : MapOrder String) (hK : ordK.Valid) (ordH : MapOrder Bool)
    (hH : ordH.Valid) :
    collectHeadersAndData ordK ordH
        [[("name", "X"), ("qty", "3")], [("name", "Y"), ("qty", "5")]] HeaderSampleSize
      = { headers := ["name", "qty"],
          dataRows := [[("name", "X"), ("qty", "3")], [("name", "Y"), ("qty", "5")]],
          rest := [] } := by
  have h1 : ¬ (0 + 1 ≥ HeaderSampleSize) := by decide
  have h2 : ¬ (0 + 1 + 1 ≥ HeaderSampleSize) := by decide
  simp only [collectHeadersAndData, collectLoop, h1, h2, if_false, List.nil_append,
    List.cons_append]
  congr 1
  apply sortStrings_eq
  · refine ((hH _).map Prod.fst).trans ?_
    rw [List.perm_ext_iff_of_nodup (headerSet_nodup _ _ (headerSet_nodup _ _ (by simp)))
      (by decide)]
    intro x
    rw [headerSet_keys, headerSet_keys]
    have e1 : ∀ y, y ∈ (ordK [("name", "X"), ("qty", "3")]).map Prod.fst
        ↔ y = "name" ∨ y = "qty" := by
      intro y
      rw [((hK _).map Prod.fst).mem_iff]
      simp
    have e2 : ∀ y, y ∈ (ordK [("name", "Y"), ("qty", "5")]).map Prod.fst
        ↔ y = "name" ∨ y = "qty" := by
      intro y
      rw [((hK _).map Prod.fst).mem_iff]
      simp
    rw [e1, e2]
    simp
  · simp only [List.Sorted, List.pairwise_cons, List.mem_singleton, forall_eq,
      List.not_mem_nil, false_implies, implies_true, List.Pairwise.nil, and_true,
      String.le_iff_toList_le]
    decide

/-- C5, as stated, fails: in scenario A the names `item`, `name` and `qty` all have
two start tags below the root, so the visiting order of the count map decides.
Visited in the order `qty`, `name`, `item` (a permutation of the entries), the
detector returns `qty`, the rows are two empty records and there is no header. -/
theorem C5_scenarioA_counterexample :
    MapOrder.Valid (List.reverse : MapOrder Nat)
    ∧ detectRepeatingElementFromDecoder List.reverse
        { tokens := scenarioA.tokens, err := none } = "qty"
    ∧ ParseToRows List.reverse (.ok { tokens := scenarioA.tokens, err := none }) none
        = { dataChan := [[], []], errChan := [] }
    ∧ (collectHeadersAndData id id [[], []] HeaderSampleSize).headers = []
    ∧ ¬ ((collectHeadersAndData id id
          (ParseToRows List.reverse (.ok { tokens := scenarioA.tokens, err := none })
            none).dataChan HeaderSampleSize).headers = ["name", "qty"]) := by
  refine ⟨fun m => List.reverse_perm m, by decide, by decide, by decide, by decide⟩

/-- C5, amended. For scenario A and every visiting order of the detector's count map
under which the detector returns `item` (the order visits `item` before `name` and
`qty`, the three being tied at 2), the pipeline of `ParseToRows`,
`collectHeadersAndData` and the row rendering of the writer reports no error and
yields the headers `["name","qty"]` and exactly the rows `("X","3")`, `("Y","5")`,
in that order, whatever the visiting orders of the other maps. -/
theorem C5_scenarioA (ord : MapOrder Nat) (ordK : MapOrder String) (hK : ordK.Valid)
    (ordH : MapOrder Bool) (hH : ordH.Valid)
    (hitem : detectRepeatingElementFromDecoder ord
      { tokens := scenarioA.tokens, err := none } = "item") :
    (ParseToRows ord (.ok { tokens := scenarioA.tokens, err := none }) none).errChan = []
    ∧ (collectHeadersAndData ordK ordH
        (ParseToRows ord (.ok { tokens := scenarioA.tokens, err := none }) none).dataChan
        HeaderSampleSize).headers = ["name", "qty"]
    ∧ (let c := collectHeadersAndData ordK ordH
        (ParseToRows ord (.ok { tokens := scenarioA.tokens, err := none }) none).dataChan
        HeaderSampleSize
       (c.dataRows ++ c.rest).map (renderRow c.headers)) = [["X", "3"], ["Y", "5"]] := by
  have hrows : flatten "item" scenarioA.tokens
      = [[("name", "X"), ("qty", "3")], [("name", "Y"), ("qty", "5")]] := by decide
  have hne : ¬ ("item" = "") := by decide
  have hparse : ParseToRows ord (.ok { tokens := scenarioA.tokens, err := none }) none
      = { dataChan := [[("name", "X"), ("qty", "3")], [("name", "Y"), ("qty", "5")]],
          errChan := [] } := by
    simp only [ParseToRows, hitem, hne, if_false, hrows]
  rw [hparse, scenarioA_collect ordK hK ordH hH]
  refine ⟨rfl, rfl, ?_⟩
  decide

/-- A concrete instance of C5: the count map visited in insertion order, `item`
first. -/
theorem C5_scenarioA_witness :
    (ParseToRows id (.ok { tokens := scenarioA.tokens, err := none }) none).errChan = []
    ∧ (collectHeadersAndData id id
        (ParseToRows id (.ok { tokens := scenarioA.tokens, err := none }) none).dataChan
        HeaderSampleSize).headers = ["name", "qty"]
    ∧ (let c := collectHeadersAndData id id
        (ParseToRows id (.ok { tokens := scenarioA.tokens, err := none }) none).dataChan
        HeaderSampleSize
       (c.dataRows ++ c.rest).map (renderRow c.headers)) = [["X", "3"], ["Y", "5"]] :=
  C5_scenarioA id id (fun _ => List.Perm.refl _) id (fun _ => List.Perm.refl _) (by decide)

/-! ## The SVD extractor: one step -/

theorem isInPath_iff (stack : List String) (target : String) :
    isInPath stack target = true ↔ target ∈ stack := by
  induction stack with
  | nil => simp [isInPath]
  | cons a stack ih =>
    by_cases h : a = target
    · simp [isInPath, h]
    · have h2 : ¬ target = a := fun e => h e.symm
      simp [isInPath, h, h2, ih]

theorem svdRun_cons (s : SVDState) (t : Token) (ts : List Token) :
    svdRun s (t :: ts) = svdRun (svdStep s t) ts := rfl

theorem svdRun_nil (s : SVDState) : svdRun s [] = s := rfl

theorem svdRun_append (s : SVDState) (a b : List Token) :
    svdRun s (a ++ b) = svdRun (svdRun s a) b := by
  simp [svdRun, List.foldl_append]

theorem svdRun_elem (s : SVDState) (n : String) (c rest : Forest) :
    svdRun s (Forest.elem n c rest).tokens
      = svdRun (svdStep (svdRun (svdStep s (Token.StartElement n)) c.tokens)
          (Token.EndElement n)) rest.tokens := by
  simp [Forest.tokens, svdRun_cons, svdRun_append]

theorem svdStep_start_pathStack (s : SVDState) (n : String) :
    (svdStep s (Token.StartElement n)).pathStack = s.pathStack ++ [n] := by
  simp only [svdStep, openField, openRegister, openPeripheral]
  repeat' split
  all_goals rfl

theorem svdStep_start_sent (s : SVDState) (n : String) :
    (svdStep s (Token.StartElement n)).sent = s.sent := by
  simp only [svdStep, openField, openRegister, openPeripheral]
  repeat' split
  all_goals rfl

theorem svdStep_start_textBuilder (s : SVDState) (n : String) :
    (svdStep s (Token.StartElement n)).textBuilder = "" := by
  simp only [svdStep, openField, openRegister, openPeripheral]
  repeat' split
  all_goals rfl

theorem svdStep_start_peripheral (s : SVDState) (n : String) :
    (svdStep s (Token.StartElement n)).currentPeripheral
      = (if n = "peripheral" ∧ "peripherals" ∈ s.pathStack ++ [n] then
          some [("_id", formatID peripheralIDPrefix s.peripheralCount)]
        else s.currentPeripheral)
    ∧ (svdStep s (Token.StartElement n)).peripheralCount
      = (if n = "peripheral" ∧ "peripherals" ∈ s.pathStack ++ [n] then s.peripheralCount + 1
        else s.peripheralCount) := by
  simp only [svdStep, openField, openRegister, openPeripheral, isInPath_iff]
  repeat' split
  all_goals simp_all [GoMap.set]

theorem svdStep_start_register (s : SVDState) (n : String) :
    (svdStep s (Token.StartElement n)).currentRegister
      = (match s.currentPeripheral with
        | some p =>
          if n = "register" ∧ "registers" ∈ s.pathStack ++ [n] then
            some [("_id", formatID registerIDPrefix s.registerCount),
                  ("_peripheral_id", Record.get p "_id"),
                  ("_peripheral_name", Record.get p "name")]
          else s.currentRegister
        | none => s.currentRegister)
    ∧ (svdStep s (Token.StartElement n)).registerCount
      = (match s.currentPeripheral with
        | some _ =>
          if n = "register" ∧ "registers" ∈ s.pathStack ++ [n] then s.registerCount + 1
          else s.registerCount
        | none => s.registerCount) := by
  simp only [svdStep, openField, openRegister, openPeripheral, isInPath_iff]
  repeat' split
  all_goals simp_all [GoMap.set]

theorem svdStep_start_field (s : SVDState) (n : String) :
    (svdStep s (Token.StartElement n)).currentField
      = (match s.currentRegister with
        | some r =>
          if n = "field" ∧ "fields" ∈ s.pathStack ++ [n] then
            some [("_id", formatID fieldIDPrefix s.fieldCount),
                  ("_register_id", Record.get r "_id"),
                  ("_register_name", Record.get r "name"),
                  ("_peripheral_id", Record.get r "_peripheral_id"),
                  ("_peripheral_name", Record.get r "_peripheral_name")]
          else s.currentField
        | none => s.currentField)
    ∧ (svdStep s (Token.StartElement n)).fieldCount
      = (match s.currentRegister with
        | some _ =>
          if n = "field" ∧ "fields" ∈ s.pathStack ++ [n] then s.fieldCount + 1
          else s.fieldCount
        | none => s.fieldCount) := by
  simp only [svdStep, openField, openRegister, openPeripheral, isInPath_iff]
  repeat' split
  all_goals simp_all [GoMap.set]

theorem savePeripheral_eq (n t : String) (s : SVDState) :
    savePeripheral n t s
      = { s with currentPeripheral :=
            match s.currentPeripheral with
            | none => none
            | some p =>
              if parentElement s.pathStack = some "peripheral" ∧ n ≠ "peripheral"
                  ∧ n ≠ "registers" ∧ t ≠ "" then some (GoMap.set p n t) else some p } := by
  unfold savePeripheral
  cases h : s.currentPeripheral with
  | none => simp only; rw [← h]
  | some p => simp only; split <;> simp [← h]

theorem saveRegister_eq (n t : String) (s : SVDState) :
    saveRegister n t s
      = { s with currentRegister :=
            match s.currentRegister with
            | none => none
            | some r =>
              if parentElement s.pathStack = some "register" ∧ n ≠ "register"
                  ∧ n ≠ "fields" ∧ t ≠ "" then some (GoMap.set r n t) else some r } := by
  unfold saveRegister
  cases h : s.currentRegister with
  | none => simp only; rw [← h]
  | some p => simp only; split <;> simp [← h]

theorem saveField_eq (n t : String) (s : SVDState) :
    saveField n t s
      = { s with currentField :=
            match s.currentField with
            | none => none
            | some x =>
              if parentElement s.pathStack = some "field" ∧ t ≠ "" then
                some (GoMap.set x n t) else some x } := by
  unfold saveField
  cases h : s.currentField with
  | none => simp only; rw [← h]
  | some p => simp only; split <;> simp [← h]

theorem sendPeripheral_eq (n : String) (s : SVDState) :
    sendPeripheral n s
      = { s with
          sent := s.sent ++ (match s.currentPeripheral with
            | some p => if n = "peripheral" then [(Kind.Peripheral, p)] else []
            | none => []),
          currentPeripheral :=
            match s.currentPeripheral with
            | some p => if n = "peripheral" then none else some p
            | none => none } := by
  unfold sendPeripheral
  cases h : s.currentPeripheral with
  | none => simp [← h]
  | some p => simp only; split <;> simp [← h]

theorem sendRegister_eq (n : String) (s : SVDState) :
    sendRegister n s
      = { s with
          sent := s.sent ++ (match s.currentRegister with
            | some r => if n = "register" then [(Kind.Register, r)] else []
            | none => []),
          currentRegister :=
            match s.currentRegister with
            | some r => if n = "register" then none else some r
            | none => none } := by
  unfold sendRegister
  cases h : s.currentRegister with
  | none => simp [← h]
  | some p => simp only; split <;> simp [← h]

theorem sendField_eq (n : String) (s : SVDState) :
    sendField n s
      = { s with
          sent := s.sent ++ (match s.currentField with
            | some x => if n = "field" then [(Kind.Field, x)] else []
            | none => []),
          currentField :=
            match s.currentField with
            | some x => if n = "field" then none else some x
            | none => none } := by
  unfold sendField
  cases h : s.currentField with
  | none => simp [← h]
  | some p => simp only; split <;> simp [← h]

theorem svdStep_end_pathStack (s : SVDState) (n : String) :
    (svdStep s (Token.EndElement n)).pathStack = s.pathStack.dropLast := by
  simp only [svdStep, sendField_eq, sendRegister_eq, sendPeripheral_eq, saveField_eq,
    saveRegister_eq, savePeripheral_eq]

theorem svdStep_end_counts (s : SVDState) (n : String) :
    (svdStep s (Token.EndElement n)).peripheralCount = s.peripheralCount
    ∧ (svdStep s (Token.EndElement n)).registerCount = s.registerCount
    ∧ (svdStep s (Token.EndElement n)).fieldCount = s.fieldCount := by
  simp only [svdStep, sendField_eq, sendRegister_eq, sendPeripheral_eq, saveField_eq,
    saveRegister_eq, savePeripheral_eq, and_self]

theorem svdStep_end_peripheral (s : SVDState) (n : String) :
    (svdStep s (Token.EndElement n)).currentPeripheral
      = (match s.currentPeripheral with
        | none => none
        | some p =>
          if n = "peripheral" then none
          else if parentElement s.pathStack = some "peripheral" ∧ n ≠ "registers"
              ∧ TrimSpace s.textBuilder ≠ "" then
            some (GoMap.set p n (TrimSpace s.textBuilder))
          else some p) := by
  simp only [svdStep, sendField_eq, sendRegister_eq, sendPeripheral_eq, saveField_eq,
    saveRegister_eq, savePeripheral_eq]
  cases s.currentPeripheral with
  | none => rfl
  | some p =>
    dsimp only
    by_cases hn : n = "peripheral"
    · simp [hn]
    · by_cases hc : parentElement s.pathStack = some "peripheral" ∧ n ≠ "registers"
          ∧ TrimSpace s.textBuilder ≠ ""
      · have hc2 : parentElement s.pathStack = some "peripheral" ∧ n ≠ "peripheral"
            ∧ n ≠ "registers" ∧ TrimSpace s.textBuilder ≠ "" := ⟨hc.1, hn, hc.2⟩
        rw [if_pos hc2, if_neg hn, if_pos hc]
        simp only [hn, if_false]
      · have hc2 : ¬ (parentElement s.pathStack = some "peripheral" ∧ n ≠ "peripheral"
            ∧ n ≠ "registers" ∧ TrimSpace s.textBuilder ≠ "") := fun h => hc ⟨h.1, h.2.2⟩
        rw [if_neg hc2, if_neg hn, if_neg hc]
        simp only [hn, if_false]

theorem svdStep_end_register (s : SVDState) (n : String) :
    (svdStep s (Token.EndElement n)).currentRegister
      = (match s.currentRegister with
        | none => none
        | some r =>
          if n = "register" then none
          else if parentElement s.pathStack = some "register" ∧ n ≠ "fields"
              ∧ TrimSpace s.textBuilder ≠ "" then
            some (GoMap.set r n (TrimSpace s.textBuilder))
          else some r) := by
  simp only [svdStep, sendField_eq, sendRegister_eq, sendPeripheral_eq, saveField_eq,
    saveRegister_eq, savePeripheral_eq]
  cases s.currentRegister with
  | none => rfl
  | some p =>
    dsimp only
    by_cases hn : n = "register"
    · simp [hn]
    · by_cases hc : parentElement s.pathStack = some "register" ∧ n ≠ "fields"
          ∧ TrimSpace s.textBuilder ≠ ""
      · have hc2 : parentElement s.pathStack = some "register" ∧ n ≠ "register"
            ∧ n ≠ "fields" ∧ TrimSpace s.textBuilder ≠ "" := ⟨hc.1, hn, hc.2⟩
        rw [if_pos hc2, if_neg hn, if_pos hc]
        simp only [hn, if_false]
      · have hc2 : ¬ (parentElement s.pathStack = some "register" ∧ n ≠ "register"
            ∧ n ≠ "fields" ∧ TrimSpace s.textBuilder ≠ "") := fun h => hc ⟨h.1, h.2.2⟩
        rw [if_neg hc2, if_neg hn, if_neg hc]
        simp only [hn, if_false]

theorem svdStep_end_field (s : SVDState) (n : String) :
    (svdStep s (Token.EndElement n)).currentField
      = (match s.currentField with
        | none => none
        | some x =>
          if n = "field" then none
          else if parentElement s.pathStack = some "field"
              ∧ TrimSpace s.textBuilder ≠ "" then
            some (GoMap.set x n (TrimSpace s.textBuilder))
          else some x) := by
  simp only [svdStep, sendField_eq, sendRegister_eq, sendPeripheral_eq, saveField_eq,
    saveRegister_eq, savePeripheral_eq]
  cases s.currentField with
  | none => rfl
  | some p =>
    dsimp only
    by_cases hc : parentElement s.pathStack = some "field" ∧ TrimSpace s.textBuilder ≠ ""
    · rw [if_pos hc]
    · rw [if_neg hc]

/-- The records an end tag sends: the open entity of the tag's kind, if any. -/
theorem svdStep_end_sent (s : SVDState) (n : String) :
    (svdStep s (Token.EndElement n)).sent
      = s.sent
        ++ (match s.currentPeripheral with
            | some p => if n = "peripheral" then [(Kind.Peripheral, p)] else []
            | none => [])
        ++ (match s.currentRegister with
            | some r => if n = "register" then [(Kind.Register, r)] else []
            | none => [])
        ++ (match s.currentField with
            | some x =>
              if n = "field" then
                [(Kind.Field,
                  if parentElement s.pathStack = some "field" ∧ TrimSpace s.textBuilder ≠ "" then
                    GoMap.set x n (TrimSpace s.textBuilder)
                  else x)]
              else []
            | none => []) := by
  simp only [svdStep, sendField_eq, sendRegister_eq, sendPeripheral_eq, saveField_eq,
    saveRegister_eq, savePeripheral_eq]
  congr 1
  · congr 1
    · congr 1
      cases s.currentPeripheral with
      | none => rfl
      | some p =>
        dsimp only
        by_cases hn : n = "peripheral"
        · simp [hn]
        · by_cases hc : parentElement s.pathStack = some "peripheral" ∧ n ≠ "peripheral"
              ∧ n ≠ "registers" ∧ TrimSpace s.textBuilder ≠ ""
          · rw [if_pos hc]; simp only [hn, if_false]
          · rw [if_neg hc]
    · cases s.currentRegister with
      | none => rfl
      | some p =>
        dsimp only
        by_cases hn : n = "register"
        · simp [hn]
        · by_cases hc : parentElement s.pathStack = some "register" ∧ n ≠ "register"
              ∧ n ≠ "fields" ∧ TrimSpace s.textBuilder ≠ ""
          · rw [if_pos hc]; simp only [hn, if_false]
          · rw [if_neg hc]
  · cases s.currentField with
    | none => rfl
    | some p =>
      dsimp only
      by_cases hc : parentElement s.pathStack = some "field" ∧ TrimSpace s.textBuilder ≠ ""
      · rw [if_pos hc]
        by_cases hn : n = "field"
        · simp only [hn, if_true, if_pos hc]
        · simp only [hn, if_false]
      · rw [if_neg hc]
        by_cases hn : n = "field"
        · simp only [hn, if_true, if_neg hc]
        · simp only [hn, if_false]

theorem chanOf_append (k : Kind) (a b : List (Kind × Record)) :
    chanOf k (a ++ b) = chanOf k a ++ chanOf k b := by
  simp [chanOf]

theorem mem_concat_of_ne (stack : List String) (n t : String) (h : t ≠ n) :
    t ∈ stack ++ [n] ↔ t ∈ stack := by
  simp [h]

theorem svdStep_start_peripheral_isSome (s : SVDState) (n : String) :
    (svdStep s (Token.StartElement n)).currentPeripheral.isSome
      = (s.currentPeripheral.isSome || nestedPeripheral s.pathStack n) := by
  rw [(svdStep_start_peripheral s n).1]
  by_cases hn : n = "peripheral"
  · subst hn
    by_cases hin : "peripherals" ∈ s.pathStack
    · simp [nestedPeripheral, hin]
    · simp [nestedPeripheral, hin]
  · simp [nestedPeripheral, hn]

theorem svdStep_start_register_isSome (s : SVDState) (n : String) :
    (svdStep s (Token.StartElement n)).currentRegister.isSome
      = (s.currentRegister.isSome
          || nestedRegister s.pathStack s.currentPeripheral.isSome n) := by
  rw [(svdStep_start_register s n).1]
  cases s.currentPeripheral with
  | none => simp [nestedRegister]
  | some p =>
    by_cases hn : n = "register"
    · subst hn
      by_cases hin : "registers" ∈ s.pathStack
      · simp [nestedRegister, hin]
      · simp [nestedRegister, hin]
    · simp [nestedRegister, hn]

theorem svdStep_start_field_isSome (s : SVDState) (n : String) :
    (svdStep s (Token.StartElement n)).currentField.isSome
      = (s.currentField.isSome || nestedField s.pathStack s.currentRegister.isSome n) := by
  rw [(svdStep_start_field s n).1]
  cases s.currentRegister with
  | none => simp [nestedField]
  | some p =>
    by_cases hn : n = "field"
    · subst hn
      by_cases hin : "fields" ∈ s.pathStack
      · simp [nestedField, hin]
      · simp [nestedField, hin]
    · simp [nestedField, hn]

theorem svdStep_end_peripheral_isSome (s : SVDState) (n : String) :
    (svdStep s (Token.EndElement n)).currentPeripheral.isSome
      = (s.currentPeripheral.isSome && n != "peripheral") := by
  rw [svdStep_end_peripheral]
  cases s.currentPeripheral with
  | none => rfl
  | some p =>
    by_cases hn : n = "peripheral"
    · simp [hn]
    · simp only [hn, if_false]
      split <;> simp [hn]

theorem svdStep_end_register_isSome (s : SVDState) (n : String) :
    (svdStep s (Token.EndElement n)).currentRegister.isSome
      = (s.currentRegister.isSome && n != "register") := by
  rw [svdStep_end_register]
  cases s.currentRegister with
  | none => rfl
  | some p =>
    by_cases hn : n = "register"
    · simp [hn]
    · simp only [hn, if_false]
      split <;> simp [hn]

theorem svdStep_end_field_isSome (s : SVDState) (n : String) :
    (svdStep s (Token.EndElement n)).currentField.isSome
      = (s.currentField.isSome && n != "field") := by
  rw [svdStep_end_field]
  cases s.currentField with
  | none => rfl
  | some p =>
    by_cases hn : n = "field"
    · simp [hn]
    · simp only [hn, if_false]
      split <;> simp [hn]

/-- An end tag sends one record on the channel of its kind when an entity of that
kind is open, and nothing else. -/
theorem svdStep_end_sent_length (s : SVDState) (n : String) :
    (chanOf Kind.Peripheral (svdStep s (Token.EndElement n)).sent).length
      = (chanOf Kind.Peripheral s.sent).length
        + (if s.currentPeripheral.isSome = true ∧ n = "peripheral" then 1 else 0)
    ∧ (chanOf Kind.Register (svdStep s (Token.EndElement n)).sent).length
      = (chanOf Kind.Register s.sent).length
        + (if s.currentRegister.isSome = true ∧ n = "register" then 1 else 0)
    ∧ (chanOf Kind.Field (svdStep s (Token.EndElement n)).sent).length
      = (chanOf Kind.Field s.sent).length
        + (if s.currentField.isSome = true ∧ n = "field" then 1 else 0) := by
  rw [svdStep_end_sent]
  simp only [chanOf_append, List.length_append]
  refine ⟨?_, ?_, ?_⟩
  · cases s.currentPeripheral <;> cases s.currentRegister <;> cases s.currentField <;>
      by_cases h1 : n = "peripheral" <;> by_cases h2 : n = "register" <;>
      by_cases h3 : n = "field" <;> simp_all [chanOf]
  · cases s.currentPeripheral <;> cases s.currentRegister <;> cases s.currentField <;>
      by_cases h1 : n = "peripheral" <;> by_cases h2 : n = "register" <;>
      by_cases h3 : n = "field" <;> simp_all [chanOf]
  · cases s.currentPeripheral <;> cases s.currentRegister <;> cases s.currentField <;>
      by_cases h1 : n = "peripheral" <;> by_cases h2 : n = "register" <;>
      by_cases h3 : n = "field" <;> simp_all [chanOf]

/-! ## The SVD extractor on a valid document: counts -/

theorem names_elem_not_mem (k n : String) (c rest : Forest)
    (h : k ∉ (Forest.elem n c rest).names) : k ≠ n ∧ k ∉ c.names ∧ k ∉ rest.names := by
  simp only [Forest.names, List.mem_cons, List.mem_append, not_or] at h
  exact ⟨h.1, h.2.1, h.2.2⟩

/-- Run over a forest in which the entity elements are not nested in themselves,
from a state whose open entities have no element of their own name in the forest:
the path stack and the open entities' slots are restored, and each channel
receives as many records as the forest has correctly nested elements of its
kind. -/
theorem svd_counts (f : Forest) (s : SVDState)
    (hP : f.nestFree "peripheral" = true) (hR : f.nestFree "register" = true)
    (hF : f.nestFree "field" = true)
    (cP : s.currentPeripheral.isSome = true → "peripheral" ∉ f.names)
    (cR : s.currentRegister.isSome = true → "register" ∉ f.names)
    (cF : s.currentField.isSome = true → "field" ∉ f.names) :
    (svdRun s f.tokens).pathStack = s.pathStack
    ∧ (svdRun s f.tokens).currentPeripheral.isSome = s.currentPeripheral.isSome
    ∧ (svdRun s f.tokens).currentRegister.isSome = s.currentRegister.isSome
    ∧ (svdRun s f.tokens).currentField.isSome = s.currentField.isSome
    ∧ (chanOf Kind.Peripheral (svdRun s f.tokens).sent).length
        = (chanOf Kind.Peripheral s.sent).length + correctPeripherals s.pathStack f
    ∧ (chanOf Kind.Register (svdRun s f.tokens).sent).length
        = (chanOf Kind.Register s.sent).length
          + correctRegisters s.pathStack s.currentPeripheral.isSome f
    ∧ (chanOf Kind.Field (svdRun s f.tokens).sent).length
        = (chanOf Kind.Field s.sent).length
          + correctFields s.pathStack s.currentPeripheral.isSome s.currentRegister.isSome f := by
  induction f generalizing s with
  | nil => simp [Forest.tokens, svdRun_nil, correctPeripherals, correctRegisters, correctFields]
  | elem n c rest ihc ihr =>
    obtain ⟨nP, hPc, hPr⟩ := nestFree_elem "peripheral" n c rest hP
    obtain ⟨nR, hRc, hRr⟩ := nestFree_elem "register" n c rest hR
    obtain ⟨nF, hFc, hFr⟩ := nestFree_elem "field" n c rest hF
    rw [svdRun_elem]
    -- the state after the start tag
    have a1 := svdStep_start_pathStack s n
    have a2 := svdStep_start_sent s n
    have a3 := svdStep_start_peripheral_isSome s n
    have a4 := svdStep_start_register_isSome s n
    have a5 := svdStep_start_field_isSome s n
    generalize svdStep s (Token.StartElement n) = s1 at a1 a2 a3 a4 a5 ⊢
    have c1P : s1.currentPeripheral.isSome = true → "peripheral" ∉ c.names := by
      intro h
      rw [a3, Bool.or_eq_true] at h
      rcases h with h | h
      · exact (names_elem_not_mem _ _ _ _ (cP h)).2.1
      · simp only [nestedPeripheral, Bool.and_eq_true, beq_iff_eq] at h
        exact nP h.1
    have c1R : s1.currentRegister.isSome = true → "register" ∉ c.names := by
      intro h
      rw [a4, Bool.or_eq_true] at h
      rcases h with h | h
      · exact (names_elem_not_mem _ _ _ _ (cR h)).2.1
      · simp only [nestedRegister, Bool.and_eq_true, beq_iff_eq] at h
        exact nR h.1.1
    have c1F : s1.currentField.isSome = true → "field" ∉ c.names := by
      intro h
      rw [a5, Bool.or_eq_true] at h
      rcases h with h | h
      · exact (names_elem_not_mem _ _ _ _ (cF h)).2.1
      · simp only [nestedField, Bool.and_eq_true, beq_iff_eq] at h
        exact nF h.1.1
    obtain ⟨b1, b2, b3, b4, b5, b6, b7⟩ := ihc s1 hPc hRc hFc c1P c1R c1F
    generalize svdRun s1 c.tokens = s2 at b1 b2 b3 b4 b5 b6 b7 ⊢
    -- the state after the end tag
    have d1 := svdStep_end_pathStack s2 n
    have d2 := svdStep_end_peripheral_isSome s2 n
    have d3 := svdStep_end_register_isSome s2 n
    have d4 := svdStep_end_field_isSome s2 n
    obtain ⟨d5, d6, d7⟩ := svdStep_end_sent_length s2 n
    generalize svdStep s2 (Token.EndElement n) = s3 at d1 d2 d3 d4 d5 d6 d7 ⊢
    have e1 : s3.pathStack = s.pathStack := by
      rw [d1, b1, a1, List.dropLast_concat]
    have e2 : s3.currentPeripheral.isSome = s.currentPeripheral.isSome := by
      rw [d2, b2, a3]
      by_cases hn : n = "peripheral"
      · have : s.currentPeripheral.isSome = false := by
          cases h : s.currentPeripheral.isSome with
          | false => rfl
          | true => exact absurd hn.symm (names_elem_not_mem _ _ _ _ (cP h)).1
        simp [hn, this]
      · have hb : (n == "peripheral") = false := by simp [hn]
        have hb2 : (n != "peripheral") = true := by simp [hn]
        simp [hb, hb2, nestedPeripheral]
    have e3 : s3.currentRegister.isSome = s.currentRegister.isSome := by
      rw [d3, b3, a4]
      by_cases hn : n = "register"
      · have : s.currentRegister.isSome = false := by
          cases h : s.currentRegister.isSome with
          | false => rfl
          | true => exact absurd hn.symm (names_elem_not_mem _ _ _ _ (cR h)).1
        simp [hn, this]
      · have hb : (n == "register") = false := by simp [hn]
        have hb2 : (n != "register") = true := by simp [hn]
        simp [hb, hb2, nestedRegister]
    have e4 : s3.currentField.isSome = s.currentField.isSome := by
      rw [d4, b4, a5]
      by_cases hn : n = "field"
      · have : s.currentField.isSome = false := by
          cases h : s.currentField.isSome with
          | false => rfl
          | true => exact absurd hn.symm (names_elem_not_mem _ _ _ _ (cF h)).1
        simp [hn, this]
      · have hb : (n == "field") = false := by simp [hn]
        have hb2 : (n != "field") = true := by simp [hn]
        simp [hb, hb2, nestedField]
    obtain ⟨g1, g2, g3, g4, g5, g6, g7⟩ := ihr s3 hPr hRr hFr
      (fun h => (names_elem_not_mem _ _ _ _ (cP (e2 ▸ h))).2.2)
      (fun h => (names_elem_not_mem _ _ _ _ (cR (e3 ▸ h))).2.2)
      (fun h => (names_elem_not_mem _ _ _ _ (cF (e4 ▸ h))).2.2)
    refine ⟨g1.trans e1, g2.trans e2, g3.trans e3, g4.trans e4, ?_, ?_, ?_⟩
    · rw [g5, d5, b5, a2, e1, b2, a3, a1]
      simp only [correctPeripherals]
      by_cases hn : n = "peripheral"
      · have : s.currentPeripheral.isSome = false := by
          cases h : s.currentPeripheral.isSome with
          | false => rfl
          | true => exact absurd hn.symm (names_elem_not_mem _ _ _ _ (cP h)).1
        by_cases hp : nestedPeripheral s.pathStack n = true
        · simp [hn, this, hp]; try omega
        · simp [hn, this, hp]; try omega
      · have hp : nestedPeripheral s.pathStack n = false := by simp [nestedPeripheral, hn]
        simp [hn, hp]; try omega
    · rw [g6, d6, b6, a2, e1, e2, b3, a4, a1, a3]
      simp only [correctRegisters]
      by_cases hn : n = "register"
      · have : s.currentRegister.isSome = false := by
          cases h : s.currentRegister.isSome with
          | false => rfl
          | true => exact absurd hn.symm (names_elem_not_mem _ _ _ _ (cR h)).1
        by_cases hp : nestedRegister s.pathStack s.currentPeripheral.isSome n = true
        · simp [hn, this, hp]; try omega
        · simp [hn, this, hp]; try omega
      · have hp : nestedRegister s.pathStack s.currentPeripheral.isSome n = false := by
          simp [nestedRegister, hn]
        simp [hn, hp]; try omega
    · rw [g7, d7, b7, a2, e1, e2, e3, b4, a5, a1, a3, a4]
      simp only [correctFields]
      by_cases hn : n = "field"
      · have : s.currentField.isSome = false := by
          cases h : s.currentField.isSome with
          | false => rfl
          | true => exact absurd hn.symm (names_elem_not_mem _ _ _ _ (cF h)).1
        by_cases hp : nestedField s.pathStack s.currentRegister.isSome n = true
        · simp [hn, this, hp]; try omega
        · simp [hn, this, hp]; try omega
      · have hp : nestedField s.pathStack s.currentRegister.isSome n = false := by
          simp [nestedField, hn]
        simp [hn, hp]; try omega
  | text t rest ih =>
    simp only [Forest.nestFree] at hP hR hF
    simp only [Forest.names] at cP cR cF
    simp only [Forest.tokens, svdRun_cons, correctPeripherals, correctRegisters, correctFields]
    exact ih (svdStep s (Token.CharData t)) hP hR hF cP cR cF
  | other rest ih =>
    simp only [Forest.nestFree] at hP hR hF
    simp only [Forest.names] at cP cR cF
    simp only [Forest.tokens, svdRun_cons, correctPeripherals, correctRegisters, correctFields]
    exact ih (svdStep s Token.Other) hP hR hF cP cR cF

/-- C6. For every valid SVD document, `ParseSVD` reports no error and sends on the
Peripheral, Register and Field channels exactly as many records as the document
has correctly nested `peripheral` elements (inside a `peripherals` container),
`register` elements (inside a `registers` container and within a correctly
nested peripheral) and `field` elements (inside a `fields` container and within
a correctly nested register); an element that is not correctly nested is not
counted, so it gives no record. -/
theorem C6_record_counts (f : Forest) (hv : ValidSVD f) :
    (ParseSVD (.ok { tokens := f.tokens, err := none })).peripheralChan.length
      = correctPeripherals [] f
    ∧ (ParseSVD (.ok { tokens := f.tokens, err := none })).registerChan.length
      = correctRegisters [] false f
    ∧ (ParseSVD (.ok { tokens := f.tokens, err := none })).fieldChan.length
      = correctFields [] false false f
    ∧ (ParseSVD (.ok { tokens := f.tokens, err := none })).errChan = [] := by
  obtain ⟨hP, hR, hF, _⟩ := hv
  obtain ⟨_, _, _, _, h5, h6, h7⟩ := svd_counts f SVDState.init hP hR hF
    (fun h => by simp [SVDState.init] at h) (fun h => by simp [SVDState.init] at h)
    (fun h => by simp [SVDState.init] at h)
  refine ⟨?_, ?_, ?_, rfl⟩
  · simpa [ParseSVD, SVDResult.peripheralChan, SVDState.init, chanOf] using h5
  · simpa [ParseSVD, SVDResult.registerChan, SVDState.init, chanOf] using h6
  · simpa [ParseSVD, SVDResult.fieldChan, SVDState.init, chanOf] using h7

/-- A concrete instance of C6: one peripheral, two registers, one field in a register
and one `field` outside any register, which gives no record. -/
theorem C6_record_counts_witness :
    (ParseSVD (.ok { tokens := svdDoc.tokens, err := none })).peripheralChan.length
      = correctPeripherals [] svdDoc
    ∧ (ParseSVD (.ok { tokens := svdDoc.tokens, err := none })).registerChan.length
      = correctRegisters [] false svdDoc
    ∧ (ParseSVD (.ok { tokens := svdDoc.tokens, err := none })).fieldChan.length
      = correctFields [] false false svdDoc
    ∧ (ParseSVD (.ok { tokens := svdDoc.tokens, err := none })).errChan = [] :=
  C6_record_counts svdDoc (by decide)

/-! ## The format of the ids -/

theorem toDigitsCore_append (fuel n : Nat) (ds : List Char) :
    Nat.toDigitsCore 10 fuel n ds = Nat.toDigitsCore 10 fuel n [] ++ ds := by
  induction fuel generalizing n ds with
  | zero => simp [Nat.toDigitsCore]
  | succ fuel ih =>
    simp only [Nat.toDigitsCore]
    split
    · simp
    · rw [ih, ih (n / 10) [_]]
      simp

theorem toDigitsCore_fuel (fuel fuel2 n : Nat) (h1 : n < fuel) (h2 : n < fuel2) :
    Nat.toDigitsCore 10 fuel n [] = Nat.toDigitsCore 10 fuel2 n [] := by
  induction fuel generalizing n fuel2 with
  | zero => omega
  | succ fuel ih =>
    cases fuel2 with
    | zero => omega
    | succ fuel2 =>
      simp only [Nat.toDigitsCore]
      split
      · rfl
      · have : n / 10 < n := Nat.div_lt_self (by omega) (by omega)
        rw [toDigitsCore_append fuel, toDigitsCore_append fuel2,
          ih fuel2 (n / 10) (by omega) (by omega)]

theorem toDigits_small (n : Nat) (h : n < 10) : Nat.toDigits 10 n = [Nat.digitChar n] := by
  have h0 : n / 10 = 0 := Nat.div_eq_of_lt h
  have h1 : n % 10 = n := Nat.mod_eq_of_lt h
  simp [Nat.toDigits, Nat.toDigitsCore, h0, h1]

theorem toDigits_step (n : Nat) (h : 10 ≤ n) :
    Nat.toDigits 10 n = Nat.toDigits 10 (n / 10) ++ [Nat.digitChar (n % 10)] := by
  have h0 : n / 10 ≠ 0 := by omega
  have : n / 10 < n := Nat.div_lt_self (by omega) (by omega)
  have e : Nat.toDigitsCore 10 (n + 1) n []
      = Nat.toDigitsCore 10 n (n / 10) [Nat.digitChar (n % 10)] := by
    simp [Nat.toDigitsCore, h0]
  unfold Nat.toDigits
  rw [e, toDigitsCore_append, toDigitsCore_fuel n (n / 10 + 1) (n / 10) (by omega) (by omega)]

theorem toDigits_length_pos (n : Nat) : 1 ≤ (Nat.toDigits 10 n).length := by
  by_cases h : n < 10
  · simp [toDigits_small n h]
  · rw [toDigits_step n (by omega)]
    simp

theorem digitChar_toNat (d : Nat) (h : d < 10) : (Nat.digitChar d).toNat - 48 = d := by
  interval_cases d <;> rfl

theorem digitsValue_concat (ds : List Char) (c : Char) :
    digitsValue (ds ++ [c]) = 10 * digitsValue ds + (c.toNat - 48) := by
  simp [digitsValue, List.foldl_append]

theorem digitsValue_toDigits (n : Nat) : digitsValue (Nat.toDigits 10 n) = n := by
  induction n using Nat.strong_induction_on with
  | _ n ih =>
    by_cases h : n < 10
    · rw [toDigits_small n h]
      simp [digitsValue, digitChar_toNat n h]
    · have hlt : n / 10 < n := Nat.div_lt_self (by omega) (by omega)
      rw [toDigits_step n (by omega), digitsValue_concat, ih _ hlt,
        digitChar_toNat _ (Nat.mod_lt _ (by omega))]
      omega

theorem digitsValue_zeros (k : Nat) (ds : List Char) :
    digitsValue (List.replicate k '0' ++ ds) = digitsValue ds := by
  induction k with
  | zero => simp
  | succ k ih =>
    simp only [List.replicate_succ, List.cons_append]
    have : digitsValue ('0' :: (List.replicate k '0' ++ ds))
        = digitsValue (List.replicate k '0' ++ ds) := by
      simp [digitsValue]
    rw [this, ih]

/-- The digits of an id denote its sequence number. -/
theorem digitsValue_zeroPad (w n : Nat) : digitsValue (zeroPad w n) = n := by
  rw [zeroPad, digitsValue_zeros, digitsValue_toDigits]

theorem formatID_injective (pfx : String) (a b : Nat)
    (h : formatID pfx a = formatID pfx b) : a = b := by
  have h1 : (formatID pfx a).data = (formatID pfx b).data := by rw [h]
  simp only [formatID, String.data_append, List.append_cancel_left_eq] at h1
  have h2 := congrArg digitsValue h1
  simpa [digitsValue_zeroPad] using h2

/-- Below 10000 the sequence number is written with exactly four digits. -/
theorem zeroPad_four (k : Nat) (h : k < 10000) :
    zeroPad idFormatWidth k
      = [Nat.digitChar (k / 1000), Nat.digitChar (k / 100 % 10),
         Nat.digitChar (k / 10 % 10), Nat.digitChar (k % 10)] := by
  have hz : Nat.digitChar 0 = '0' := rfl
  unfold zeroPad idFormatWidth
  by_cases h1 : k < 10
  · have e1 : k / 1000 = 0 := by omega
    have e2 : k / 100 % 10 = 0 := by omega
    have e3 : k / 10 % 10 = 0 := by omega
    have e4 : k % 10 = k := by omega
    rw [toDigits_small k h1, e1, e2, e3, e4, hz]
    rfl
  · rw [toDigits_step k (by omega)]
    by_cases h2 : k / 10 < 10
    · have e1 : k / 1000 = 0 := by omega
      have e2 : k / 100 % 10 = 0 := by omega
      have e3 : k / 10 % 10 = k / 10 := by omega
      rw [toDigits_small _ h2, e1, e2, e3, hz]
      rfl
    · rw [toDigits_step _ (by omega)]
      by_cases h3 : k / 10 / 10 < 10
      · have e1 : k / 1000 = 0 := by omega
        have e2 : k / 100 % 10 = k / 10 / 10 := by omega
        rw [toDigits_small _ h3, e1, e2, hz]
        rfl
      · rw [toDigits_step _ (by omega)]
        have h4 : k / 10 / 10 / 10 < 10 := by omega
        have e1 : k / 1000 = k / 10 / 10 / 10 := by omega
        have e2 : k / 100 % 10 = k / 10 / 10 % 10 := by omega
        rw [toDigits_small _ h4, e1, e2]
        rfl

/-- From 10000 on the sequence number is written without padding, with five digits
or more. -/
theorem zeroPad_long (k : Nat) (h : 10000 ≤ k) :
    zeroPad idFormatWidth k = Nat.toDigits 10 k ∧ 5 ≤ (zeroPad idFormatWidth k).length := by
  have hlen : 5 ≤ (Nat.toDigits 10 k).length := by
    rw [toDigits_step k (by omega), toDigits_step (k / 10) (by omega),
      toDigits_step (k / 10 / 10) (by omega), toDigits_step (k / 10 / 10 / 10) (by omega)]
    have := toDigits_length_pos (k / 10 / 10 / 10 / 10)
    simp only [List.length_append, List.length_singleton]
    omega
  have hz : idFormatWidth - (Nat.toDigits 10 k).length = 0 := by
    unfold idFormatWidth
    omega
  have e : zeroPad idFormatWidth k = Nat.toDigits 10 k := by
    simp [zeroPad, hz]
  exact ⟨e, e ▸ hlen⟩

/-! ## The ids assigned at opening -/

theorem svdStep_other_counts (s : SVDState) (t : Token)
    (h : ∀ n, t ≠ Token.StartElement n) :
    (svdStep s t).peripheralCount = s.peripheralCount
    ∧ (svdStep s t).registerCount = s.registerCount
    ∧ (svdStep s t).fieldCount = s.fieldCount := by
  cases t with
  | StartElement n => exact absurd rfl (h n)
  | EndElement n => exact svdStep_end_counts s n
  | CharData c => exact ⟨rfl, rfl, rfl⟩
  | Other => exact ⟨rfl, rfl, rfl⟩

theorem filter_kind_append (k : Kind) (a b : List (Kind × String)) :
    ((a ++ b).filter (fun e => e.1 = k)).map Prod.snd
      = (a.filter (fun e => e.1 = k)).map Prod.snd
        ++ (b.filter (fun e => e.1 = k)).map Prod.snd := by
  simp

/-- One step assigns at most one id per kind, the formatted value of the counter,
and the counter then grows by one. -/
theorem openedBy_peripheral (s : SVDState) (t : Token) :
    ∃ m, ((openedBy s t).filter (fun e => e.1 = Kind.Peripheral)).map Prod.snd
        = (List.range' s.peripheralCount m).map (formatID peripheralIDPrefix)
      ∧ (svdStep s t).peripheralCount = s.peripheralCount + m := by
  cases t with
  | StartElement n =>
    obtain ⟨h1, h2⟩ := svdStep_start_peripheral s n
    by_cases hc : n = "peripheral" ∧ "peripherals" ∈ s.pathStack ++ [n]
    · refine ⟨1, ?_, ?_⟩
      · rw [if_pos hc] at h1 h2
        simp [openedBy, h1, h2, Record.get, GoMap.lookup]
      · rw [h2, if_pos hc]
    · refine ⟨0, ?_, ?_⟩
      · rw [if_neg hc] at h2
        simp [openedBy, h2]
      · rw [h2, if_neg hc]; rfl
  | EndElement n =>
    obtain ⟨h1, _, _⟩ := svdStep_end_counts s n
    exact ⟨0, by simp [openedBy, h1], by rw [h1]; rfl⟩
  | CharData c => exact ⟨0, by simp [openedBy, svdStep], rfl⟩
  | Other => exact ⟨0, by simp [openedBy, svdStep], rfl⟩

theorem openedBy_register (s : SVDState) (t : Token) :
    ∃ m, ((openedBy s t).filter (fun e => e.1 = Kind.Register)).map Prod.snd
        = (List.range' s.registerCount m).map (formatID registerIDPrefix)
      ∧ (svdStep s t).registerCount = s.registerCount + m := by
  cases t with
  | StartElement n =>
    obtain ⟨h1, h2⟩ := svdStep_start_register s n
    cases hp : s.currentPeripheral with
    | none =>
      rw [hp] at h1 h2
      exact ⟨0, by simp [openedBy, h2], by rw [h2]; rfl⟩
    | some p =>
      rw [hp] at h1 h2
      by_cases hc : n = "register" ∧ "registers" ∈ s.pathStack ++ [n]
      · refine ⟨1, ?_, ?_⟩
        · simp only [if_pos hc] at h1 h2
          simp [openedBy, h1, h2, Record.get, GoMap.lookup]
          split_ifs <;> simp
        · rw [h2]; simp only [if_pos hc]
      · refine ⟨0, ?_, ?_⟩
        · simp only [if_neg hc] at h2
          simp [openedBy, h2]
        · rw [h2]; simp only [if_neg hc]; rfl
  | EndElement n =>
    obtain ⟨_, h1, _⟩ := svdStep_end_counts s n
    exact ⟨0, by simp [openedBy, h1], by rw [h1]; rfl⟩
  | CharData c => exact ⟨0, by simp [openedBy, svdStep], rfl⟩
  | Other => exact ⟨0, by simp [openedBy, svdStep], rfl⟩

theorem openedBy_field (s : SVDState) (t : Token) :
    ∃ m, ((openedBy s t).filter (fun e => e.1 = Kind.Field)).map Prod.snd
        = (List.range' s.fieldCount m).map (formatID fieldIDPrefix)
      ∧ (svdStep s t).fieldCount = s.fieldCount + m := by
  cases t with
  | StartElement n =>
    obtain ⟨h1, h2⟩ := svdStep_start_field s n
    cases hp : s.currentRegister with
    | none =>
      rw [hp] at h1 h2
      exact ⟨0, by simp [openedBy, h2], by rw [h2]; rfl⟩
    | some p =>
      rw [hp] at h1 h2
      by_cases hc : n = "field" ∧ "fields" ∈ s.pathStack ++ [n]
      · refine ⟨1, ?_, ?_⟩
        · simp only [if_pos hc] at h1 h2
          simp [openedBy, h1, h2, Record.get, GoMap.lookup]
          split_ifs <;> simp
        · rw [h2]; simp only [if_pos hc]
      · refine ⟨0, ?_, ?_⟩
        · simp only [if_neg hc] at h2
          simp [openedBy, h2]
        · rw [h2]; simp only [if_neg hc]; rfl
  | EndElement n =>
    obtain ⟨_, _, h1⟩ := svdStep_end_counts s n
    exact ⟨0, by simp [openedBy, h1], by rw [h1]; rfl⟩
  | CharData c => exact ⟨0, by simp [openedBy, svdStep], rfl⟩
  | Other => exact ⟨0, by simp [openedBy, svdStep], rfl⟩

/-- The ids assigned to the entities of one kind are the formatted values of
consecutive sequence numbers, from the value of the kind's counter on. -/
theorem openedIds_kind (k : Kind) (count : SVDState → Nat)
    (hstep : ∀ s t, ∃ m, ((openedBy s t).filter (fun e => e.1 = k)).map Prod.snd
        = (List.range' (count s) m).map (formatID k.idPrefix)
      ∧ count (svdStep s t) = count s + m)
    (ts : List Token) (s : SVDState) :
    ∃ m, ((openedIds s ts).filter (fun e => e.1 = k)).map Prod.snd
        = (List.range' (count s) m).map (formatID k.idPrefix)
      ∧ count (svdRun s ts) = count s + m := by
  induction ts generalizing s with
  | nil => exact ⟨0, by simp [openedIds], by simp [svdRun_nil]⟩
  | cons t ts ih =>
    obtain ⟨m1, h1, h2⟩ := hstep s t
    obtain ⟨m2, h3, h4⟩ := ih (svdStep s t)
    refine ⟨m1 + m2, ?_, ?_⟩
    · simp only [openedIds]
      rw [filter_kind_append, h1, h3, h2, ← List.map_append, List.range'_append_1,
        Nat.add_comm m2 m1]
    · rw [svdRun_cons, h4, h2]; omega

/-- The ids assigned to the entities of kind `k` opened by `ParseSVD` are the
formatted numbers 0, 1, 2, ... in the order of opening. -/
theorem assignedIds_eq (k : Kind) (ts : List Token) :
    assignedIds k ts
      = (List.range (assignedIds k ts).length).map (formatID k.idPrefix) := by
  have key : ∃ m, assignedIds k ts = (List.range' 0 m).map (formatID k.idPrefix) := by
    cases k with
    | Peripheral =>
      obtain ⟨m, h, _⟩ := openedIds_kind Kind.Peripheral (fun s => s.peripheralCount)
        openedBy_peripheral ts SVDState.init
      exact ⟨m, h⟩
    | Register =>
      obtain ⟨m, h, _⟩ := openedIds_kind Kind.Register (fun s => s.registerCount)
        openedBy_register ts SVDState.init
      exact ⟨m, h⟩
    | Field =>
      obtain ⟨m, h, _⟩ := openedIds_kind Kind.Field (fun s => s.fieldCount)
        openedBy_field ts SVDState.init
      exact ⟨m, h⟩
  obtain ⟨m, hm⟩ := key
  have hlen : (assignedIds k ts).length = m := by rw [hm]; simp
  rw [hlen, hm, List.range_eq_range']

theorem assignedIds_peripheral_length (ts : List Token) :
    (assignedIds Kind.Peripheral ts).length = (svdRun SVDState.init ts).peripheralCount := by
  obtain ⟨m, h1, h2⟩ := openedIds_kind Kind.Peripheral (fun s => s.peripheralCount)
    openedBy_peripheral ts SVDState.init
  have h3 : assignedIds Kind.Peripheral ts
      = (List.range' SVDState.init.peripheralCount m).map
          (formatID Kind.Peripheral.idPrefix) := h1
  rw [h3]
  simp only [List.length_map, List.length_range']
  simp only [SVDState.init] at h2 ⊢
  omega

theorem svdRun_peripheralList (n : Nat) (s : SVDState) (h : "peripherals" ∈ s.pathStack) :
    (svdRun s (peripheralList n).tokens).peripheralCount = s.peripheralCount + n
    ∧ (svdRun s (peripheralList n).tokens).pathStack = s.pathStack := by
  induction n generalizing s with
  | zero => simp [peripheralList, Forest.tokens, svdRun_nil]
  | succ n ih =>
    simp only [peripheralList]
    rw [svdRun_elem]
    simp only [Forest.tokens, svdRun_nil]
    have a1 := svdStep_start_pathStack s "peripheral"
    have a2 := (svdStep_start_peripheral s "peripheral").2
    have hin : "peripheral" = "peripheral" ∧ "peripherals" ∈ s.pathStack ++ ["peripheral"] :=
      ⟨rfl, List.mem_append_left _ h⟩
    rw [if_pos hin] at a2
    generalize svdStep s (Token.StartElement "peripheral") = s1 at a1 a2 ⊢
    have b1 := svdStep_end_pathStack s1 "peripheral"
    have b2 := (svdStep_end_counts s1 "peripheral").1
    generalize svdStep s1 (Token.EndElement "peripheral") = s2 at b1 b2 ⊢
    have hp : s2.pathStack = s.pathStack := by rw [b1, a1, List.dropLast_concat]
    obtain ⟨c1, c2⟩ := ih s2 (hp ▸ h)
    refine ⟨?_, c2.trans hp⟩
    rw [c1, b2, a2]; omega

theorem manyPeripherals_count (n : Nat) :
    (svdRun SVDState.init (manyPeripherals n).tokens).peripheralCount = n := by
  simp only [manyPeripherals]
  rw [svdRun_elem]
  simp only [Forest.tokens, svdRun_nil]
  have a1 := svdStep_start_pathStack SVDState.init "peripherals"
  have a2 := (svdStep_start_peripheral SVDState.init "peripherals").2
  have hne : ¬ ("peripherals" = "peripheral"
      ∧ "peripherals" ∈ SVDState.init.pathStack ++ ["peripherals"]) :=
    fun h => absurd h.1 (by decide)
  rw [if_neg hne] at a2
  generalize svdStep SVDState.init (Token.StartElement "peripherals") = s1 at a1 a2 ⊢
  obtain ⟨c1, _⟩ := svdRun_peripheralList n s1 (by rw [a1]; simp [SVDState.init])
  generalize svdRun s1 (peripheralList n).tokens = s2 at c1 ⊢
  rw [(svdStep_end_counts s2 "peripherals").1, c1, a2]
  simp [SVDState.init]

/-- C9, as stated, fails from the 10000th entity of a kind on: in a document with
10001 peripherals the last one is assigned the id `P10000`, the prefix followed
by five digits, not four. -/
theorem C9_long_id_counterexample :
    (assignedIds Kind.Peripheral (manyPeripherals 10001).tokens).length = 10001
    ∧ (assignedIds Kind.Peripheral (manyPeripherals 10001).tokens)[10000]? = some "P10000"
    ∧ "P10000".length = 6 := by
  have hlen : (assignedIds Kind.Peripheral (manyPeripherals 10001).tokens).length = 10001 := by
    rw [assignedIds_peripheral_length, manyPeripherals_count]
  refine ⟨hlen, ?_, by decide⟩
  rw [assignedIds_eq, hlen, List.getElem?_map, List.getElem?_range (by decide)]
  decide

/-- C9, amended. The k-th entity (counting from 0) of a kind opened by `ParseSVD`, on
any token stream, is assigned the id made of the kind's prefix (`P`, `R` or `F`)
and the decimal value of k padded with zeros to at least 4 digits: exactly 4
digits for k below 10000 (`P0000`, `P0001`, ...), the 5 or more digits of k from
10000 on. Each kind has its own sequence, whatever entities of the other kinds
are opened in between. -/
theorem C9_id_format (k : Kind) (ts : List Token) :
    assignedIds k ts = (List.range (assignedIds k ts).length).map (formatID k.idPrefix)
    ∧ (∀ n, n < 10000 → formatID k.idPrefix n
        = k.idPrefix ++ String.mk [Nat.digitChar (n / 1000), Nat.digitChar (n / 100 % 10),
            Nat.digitChar (n / 10 % 10), Nat.digitChar (n % 10)])
    ∧ (∀ n, 10000 ≤ n → formatID k.idPrefix n = k.idPrefix ++ String.mk (Nat.toDigits 10 n)
        ∧ 5 ≤ (Nat.toDigits 10 n).length)
    ∧ Kind.Peripheral.idPrefix = "P" ∧ Kind.Register.idPrefix = "R"
    ∧ Kind.Field.idPrefix = "F" := by
  refine ⟨assignedIds_eq k ts, ?_, ?_, rfl, rfl, rfl⟩
  · intro n hn
    rw [formatID, zeroPad_four n hn]
  · intro n hn
    obtain ⟨h1, h2⟩ := zeroPad_long n hn
    rw [formatID, h1]
    exact ⟨rfl, h1 ▸ h2⟩

/-- A concrete instance of C9: the registers of the sample document are assigned
`R0000` and `R0001`, and the number 1 is written `0001`. -/
theorem C9_id_format_witness :
    assignedIds Kind.Register svdDoc.tokens = ["R0000", "R0001"]
    ∧ formatID Kind.Register.idPrefix 1
        = Kind.Register.idPrefix ++ String.mk [Nat.digitChar (1 / 1000),
            Nat.digitChar (1 / 100 % 10), Nat.digitChar (1 / 10 % 10), Nat.digitChar (1 % 10)]
    ∧ 10000 ≤ 12345
    ∧ formatID Kind.Register.idPrefix 12345
        = Kind.Register.idPrefix ++ String.mk (Nat.toDigits 10 12345) :=
  ⟨by decide, (C9_id_format Kind.Register svdDoc.tokens).2.1 1 (by decide), by decide,
    ((C9_id_format Kind.Register svdDoc.tokens).2.2.1 12345 (by decide)).1⟩

/-! ## The ids of the records sent -/

theorem Record.get_set_ne (r : Record) (n k t : String) (h : n ≠ k) :
    Record.get (GoMap.set r n t) k = Record.get r k := by
  simp [Record.get, GoMap.lookup_set_ne r n k t h]

theorem Record.get_set_self (r : Record) (n t : String) :
    Record.get (GoMap.set r n t) n = t := by
  simp [Record.get, GoMap.lookup_set_self]

theorem IdInv_open (pfx : String) (ids : List String) (cur : Option Record) (count : Nat)
    (h : IdInv pfx ids cur count) (r : Record)
    (hr : Record.get r "_id" = formatID pfx count) :
    IdInv pfx ids (some r) (count + 1) := by
  obtain ⟨ks, h1, h2, h3, _⟩ := h
  refine ⟨ks, h1, h2, fun k hk => Nat.lt_succ_of_lt (h3 k hk), ?_⟩
  intro p hp
  cases hp
  exact ⟨count, hr, Nat.lt_succ_self _, h3⟩

theorem IdInv_store (pfx : String) (ids : List String) (p : Record) (count : Nat)
    (h : IdInv pfx ids (some p) count) (n t : String) (hn : n ≠ "_id") :
    IdInv pfx ids (some (GoMap.set p n t)) count := by
  obtain ⟨ks, h1, h2, h3, h4⟩ := h
  refine ⟨ks, h1, h2, h3, ?_⟩
  intro q hq
  cases hq
  obtain ⟨k0, e1, e2, e3⟩ := h4 p rfl
  exact ⟨k0, by rw [Record.get_set_ne p n "_id" t hn, e1], e2, e3⟩

theorem IdInv_send (pfx : String) (ids : List String) (p : Record) (count : Nat)
    (h : IdInv pfx ids (some p) count) :
    IdInv pfx (ids ++ [Record.get p "_id"]) none count := by
  obtain ⟨ks, h1, h2, h3, h4⟩ := h
  obtain ⟨k0, e1, e2, e3⟩ := h4 p rfl
  refine ⟨ks ++ [k0], ?_, ?_, ?_, ?_⟩
  · simp [h1, e1]
  · rw [List.Sorted, List.pairwise_append]
    refine ⟨h2, List.pairwise_singleton _ _, ?_⟩
    intro a ha b hb
    rw [List.mem_singleton] at hb
    subst hb
    exact e3 a ha
  · intro k hk
    rcases List.mem_append.1 hk with hk | hk
    · exact h3 k hk
    · rw [List.mem_singleton] at hk
      subst hk
      exact e2
  · intro q hq
    cases hq

theorem IdInv_drop (pfx : String) (ids : List String) (cur : Option Record) (count : Nat)
    (h : IdInv pfx ids cur count) : IdInv pfx ids none count := by
  obtain ⟨ks, h1, h2, h3, _⟩ := h
  exact ⟨ks, h1, h2, h3, fun q hq => by cases hq⟩

theorem idsOf_append (k : Kind) (a b : List (Kind × Record)) :
    idsOf k (a ++ b) = idsOf k a ++ idsOf k b := by
  simp [idsOf, chanOf_append]

/-- The ids of the records sent on one channel are distinct. -/
theorem IdInv_nodup (pfx : String) (ids : List String) (cur : Option Record) (count : Nat)
    (h : IdInv pfx ids cur count) : ids.Nodup := by
  obtain ⟨ks, h1, h2, _, _⟩ := h
  rw [h1]
  have hnd : ks.Nodup := h2.imp (fun hab => Nat.ne_of_lt hab)
  exact hnd.map (fun a b hab => formatID_injective pfx a b hab)

/-- The ids an end tag adds to the channels. -/
theorem idsOf_end (s : SVDState) (n : String) :
    idsOf Kind.Peripheral (svdStep s (Token.EndElement n)).sent
      = idsOf Kind.Peripheral s.sent
        ++ (match s.currentPeripheral with
            | some p => if n = "peripheral" then [Record.get p "_id"] else []
            | none => [])
    ∧ idsOf Kind.Register (svdStep s (Token.EndElement n)).sent
      = idsOf Kind.Register s.sent
        ++ (match s.currentRegister with
            | some r => if n = "register" then [Record.get r "_id"] else []
            | none => [])
    ∧ idsOf Kind.Field (svdStep s (Token.EndElement n)).sent
      = idsOf Kind.Field s.sent
        ++ (match s.currentField with
            | some x => if n = "field" then [Record.get x "_id"] else []
            | none => []) := by
  rw [svdStep_end_sent]
  simp only [idsOf_append]
  have hf : ∀ (x : Record) (t : String),
      Record.get (GoMap.set x "field" t) "_id" = Record.get x "_id" :=
    fun x t => Record.get_set_ne x "field" "_id" t (by decide)
  refine ⟨?_, ?_, ?_⟩
  · cases s.currentPeripheral <;> cases s.currentRegister <;> cases s.currentField <;>
      by_cases h1 : n = "peripheral" <;> by_cases h2 : n = "register" <;>
      by_cases h3 : n = "field" <;> simp_all [idsOf, chanOf]
  · cases s.currentPeripheral <;> cases s.currentRegister <;> cases s.currentField <;>
      by_cases h1 : n = "peripheral" <;> by_cases h2 : n = "register" <;>
      by_cases h3 : n = "field" <;> simp_all [idsOf, chanOf]
  · cases s.currentPeripheral <;> cases s.currentRegister <;> cases s.currentField <;>
      by_cases h1 : n = "peripheral" <;> by_cases h2 : n = "register" <;>
      by_cases h3 : n = "field" <;> simp_all [idsOf, chanOf] <;> split <;> simp_all

theorem SvdIdInv_start (s : SVDState) (n : String) (h : SvdIdInv s) :
    SvdIdInv (svdStep s (Token.StartElement n)) := by
  obtain ⟨hP, hR, hF⟩ := h
  obtain ⟨p1, p2⟩ := svdStep_start_peripheral s n
  obtain ⟨r1, r2⟩ := svdStep_start_register s n
  obtain ⟨f1, f2⟩ := svdStep_start_field s n
  have hs := svdStep_start_sent s n
  refine ⟨?_, ?_, ?_⟩
  · rw [hs, p1, p2]
    by_cases hc : n = "peripheral" ∧ "peripherals" ∈ s.pathStack ++ [n]
    · rw [if_pos hc, if_pos hc]
      exact IdInv_open _ _ _ _ hP _ (by simp [Record.get, GoMap.lookup])
    · rw [if_neg hc, if_neg hc]
      exact hP
  · rw [hs, r1, r2]
    cases s.currentPeripheral with
    | none => exact hR
    | some p =>
      by_cases hc : n = "register" ∧ "registers" ∈ s.pathStack ++ [n]
      · simp only [if_pos hc]
        exact IdInv_open _ _ _ _ hR _ (by simp [Record.get, GoMap.lookup])
      · simp only [if_neg hc]
        exact hR
  · rw [hs, f1, f2]
    cases s.currentRegister with
    | none => exact hF
    | some p =>
      by_cases hc : n = "field" ∧ "fields" ∈ s.pathStack ++ [n]
      · simp only [if_pos hc]
        exact IdInv_open _ _ _ _ hF _ (by simp [Record.get, GoMap.lookup])
      · simp only [if_neg hc]
        exact hF

theorem SvdIdInv_end (s : SVDState) (n : String) (h : SvdIdInv s)
    (hid : ¬ (n = "_id" ∧ (parentElement s.pathStack = some "peripheral"
      ∨ parentElement s.pathStack = some "register"
      ∨ parentElement s.pathStack = some "field"))) :
    SvdIdInv (svdStep s (Token.EndElement n)) := by
  obtain ⟨hP, hR, hF⟩ := h
  obtain ⟨i1, i2, i3⟩ := idsOf_end s n
  obtain ⟨c1, c2, c3⟩ := svdStep_end_counts s n
  refine ⟨?_, ?_, ?_⟩
  · rw [i1, c1, svdStep_end_peripheral]
    cases hp : s.currentPeripheral with
    | none => rw [hp] at hP; simpa using hP
    | some p =>
      rw [hp] at hP
      by_cases hn : n = "peripheral"
      · simp only [hn, if_true]
        exact IdInv_send _ _ _ _ hP
      · simp only [hn, if_false, List.append_nil]
        split
        · rename_i hc
          exact IdInv_store _ _ _ _ hP _ _ (fun e => hid ⟨e, Or.inl hc.1⟩)
        · exact hP
  · rw [i2, c2, svdStep_end_register]
    cases hp : s.currentRegister with
    | none => rw [hp] at hR; simpa using hR
    | some p =>
      rw [hp] at hR
      by_cases hn : n = "register"
      · simp only [hn, if_true]
        exact IdInv_send _ _ _ _ hR
      · simp only [hn, if_false, List.append_nil]
        split
        · rename_i hc
          exact IdInv_store _ _ _ _ hR _ _ (fun e => hid ⟨e, Or.inr (Or.inl hc.1)⟩)
        · exact hR
  · rw [i3, c3, svdStep_end_field]
    cases hp : s.currentField with
    | none => rw [hp] at hF; simpa using hF
    | some p =>
      rw [hp] at hF
      by_cases hn : n = "field"
      · simp only [hn, if_true]
        exact IdInv_send _ _ _ _ hF
      · simp only [hn, if_false, List.append_nil]
        split
        · rename_i hc
          exact IdInv_store _ _ _ _ hF _ _ (fun e => hid ⟨e, Or.inr (Or.inr hc.1)⟩)
        · exact hF

theorem svdRun_pathStack_step (s : SVDState) (t : Token) :
    (svdStep s t).pathStack
      = (match t with
        | Token.StartElement n => s.pathStack ++ [n]
        | Token.EndElement _ => s.pathStack.dropLast
        | _ => s.pathStack) := by
  cases t with
  | StartElement n => exact svdStep_start_pathStack s n
  | EndElement n => exact svdStep_end_pathStack s n
  | CharData c => rfl
  | Other => rfl

/-- The id invariant holds throughout a stream in which no entity has a direct
child named `_id`. -/
theorem SvdIdInv_run (ts : List Token) (s : SVDState)
    (hfree : idChildFree s.pathStack ts = true) (h : SvdIdInv s) :
    SvdIdInv (svdRun s ts) := by
  induction ts generalizing s with
  | nil => exact h
  | cons t ts ih =>
    rw [svdRun_cons]
    cases t with
    | StartElement n =>
      apply ih
      · rw [svdStep_start_pathStack]; simpa [idChildFree] using hfree
      · exact SvdIdInv_start s n h
    | EndElement n =>
      simp only [idChildFree, Bool.and_eq_true] at hfree
      apply ih
      · rw [svdStep_end_pathStack]; exact hfree.2
      · apply SvdIdInv_end s n h
        rintro ⟨e1, e2⟩
        have hb : (n == "_id" && (parentElement s.pathStack == some "peripheral"
            || parentElement s.pathStack == some "register"
            || parentElement s.pathStack == some "field")) = true := by
          rcases e2 with e | e | e <;> simp [e1, e]
        have h1 := hfree.1
        rw [hb] at h1
        exact absurd h1 (by decide)
    | CharData c =>
      apply ih
      · simpa [idChildFree, svdStep] using hfree
      · exact h
    | Other =>
      apply ih
      · simpa [idChildFree, svdStep] using hfree
      · exact h

theorem SvdIdInv_init : SvdIdInv SVDState.init := by
  refine ⟨⟨[], ?_⟩, ⟨[], ?_⟩, ⟨[], ?_⟩⟩ <;>
    simp [SVDState.init, idsOf, chanOf]

theorem ParseSVD_sent (d : Decoder) :
    (ParseSVD (.ok d)).sent = (svdRun SVDState.init d.tokens).sent := by
  simp only [ParseSVD]
  split <;> rfl

/-- C8, as stated, fails: when two peripherals have a child `<_id>X</_id>`, the
child's text replaces the synthetic id and both records carry the `_id` "X". -/
theorem C8_id_child_counterexample :
    idsOf Kind.Peripheral (ParseSVD (.ok { tokens := sameIdDoc.tokens, err := none })).sent
      = ["X", "X"]
    ∧ ¬ (idsOf Kind.Peripheral
          (ParseSVD (.ok { tokens := sameIdDoc.tokens, err := none })).sent).Nodup := by
  decide

/-- C8, amended. For every SVD token stream (ended by `io.EOF` or by an error) in
which no element named `_id` is a direct child of an element named `peripheral`,
`register` or `field`, the `_id` values of the records sent on one channel are
pairwise distinct and are the formatted values of strictly increasing sequence
numbers, in the order of sending. -/
theorem C8_ids_increasing (d : Decoder) (k : Kind) (hfree : idChildFree [] d.tokens = true) :
    ∃ ks : List Nat,
      idsOf k (ParseSVD (.ok d)).sent = ks.map (formatID k.idPrefix)
      ∧ ks.Sorted (· < ·)
      ∧ (idsOf k (ParseSVD (.ok d)).sent).Nodup := by
  have hinv := SvdIdInv_run d.tokens SVDState.init hfree SvdIdInv_init
  rw [ParseSVD_sent]
  obtain ⟨hP, hR, hF⟩ := hinv
  cases k with
  | Peripheral =>
    have hnd := IdInv_nodup _ _ _ _ hP
    obtain ⟨ks, h1, h2, _⟩ := hP
    exact ⟨ks, h1, h2, hnd⟩
  | Register =>
    have hnd := IdInv_nodup _ _ _ _ hR
    obtain ⟨ks, h1, h2, _⟩ := hR
    exact ⟨ks, h1, h2, hnd⟩
  | Field =>
    have hnd := IdInv_nodup _ _ _ _ hF
    obtain ⟨ks, h1, h2, _⟩ := hF
    exact ⟨ks, h1, h2, hnd⟩

/-- A concrete instance of C8: the registers of the sample document. -/
theorem C8_ids_increasing_witness :
    ∃ ks : List Nat,
      idsOf Kind.Register (ParseSVD (.ok { tokens := svdDoc.tokens, err := none })).sent
        = ks.map (formatID Kind.Register.idPrefix)
      ∧ ks.Sorted (· < ·)
      ∧ (idsOf Kind.Register
          (ParseSVD (.ok { tokens := svdDoc.tokens, err := none })).sent).Nodup :=
  C8_ids_increasing { tokens := svdDoc.tokens, err := none } Kind.Register (by decide)

/-! ## The SVD extractor on a valid document: context of a run -/

theorem Ctx.ne_peripheral {s : SVDState} {n : String} {c rest : Forest}
    (h : Ctx s (Forest.elem n c rest)) (hs : s.currentPeripheral.isSome = true) :
    n ≠ "peripheral" :=
  fun e => (names_elem_not_mem _ _ _ _ (h.cP hs)).1 e.symm

theorem Ctx.ne_register {s : SVDState} {n : String} {c rest : Forest}
    (h : Ctx s (Forest.elem n c rest)) (hs : s.currentRegister.isSome = true) :
    n ≠ "register" :=
  fun e => (names_elem_not_mem _ _ _ _ (h.cR hs)).1 e.symm

theorem Ctx.ne_field {s : SVDState} {n : String} {c rest : Forest}
    (h : Ctx s (Forest.elem n c rest)) (hs : s.currentField.isSome = true) :
    n ≠ "field" :=
  fun e => (names_elem_not_mem _ _ _ _ (h.cF hs)).1 e.symm

theorem Ctx.start {s : SVDState} {n : String} {c rest : Forest}
    (h : Ctx s (Forest.elem n c rest)) : Ctx (svdStep s (Token.StartElement n)) c := by
  obtain ⟨nP, hPc, _⟩ := nestFree_elem "peripheral" n c rest h.hP
  obtain ⟨nR, hRc, _⟩ := nestFree_elem "register" n c rest h.hR
  obtain ⟨nF, hFc, _⟩ := nestFree_elem "field" n c rest h.hF
  refine ⟨hPc, hRc, hFc, ?_, ?_, ?_⟩
  · intro hs
    rw [svdStep_start_peripheral_isSome, Bool.or_eq_true] at hs
    rcases hs with hs | hs
    · exact (names_elem_not_mem _ _ _ _ (h.cP hs)).2.1
    · simp only [nestedPeripheral, Bool.and_eq_true, beq_iff_eq] at hs
      exact nP hs.1
  · intro hs
    rw [svdStep_start_register_isSome, Bool.or_eq_true] at hs
    rcases hs with hs | hs
    · exact (names_elem_not_mem _ _ _ _ (h.cR hs)).2.1
    · simp only [nestedRegister, Bool.and_eq_true, beq_iff_eq] at hs
      exact nR hs.1.1
  · intro hs
    rw [svdStep_start_field_isSome, Bool.or_eq_true] at hs
    rcases hs with hs | hs
    · exact (names_elem_not_mem _ _ _ _ (h.cF hs)).2.1
    · simp only [nestedField, Bool.and_eq_true, beq_iff_eq] at hs
      exact nF hs.1.1

theorem Ctx.frames {s : SVDState} {f : Forest} (h : Ctx s f) :
    (svdRun s f.tokens).pathStack = s.pathStack
    ∧ (svdRun s f.tokens).currentPeripheral.isSome = s.currentPeripheral.isSome
    ∧ (svdRun s f.tokens).currentRegister.isSome = s.currentRegister.isSome
    ∧ (svdRun s f.tokens).currentField.isSome = s.currentField.isSome := by
  obtain ⟨h1, h2, h3, h4, _⟩ := svd_counts f s h.hP h.hR h.hF h.cP h.cR h.cF
  exact ⟨h1, h2, h3, h4⟩

/-- After an element has been read, the slots are open or not as before it. -/
theorem Ctx.stop {s : SVDState} {n : String} {c rest : Forest}
    (h : Ctx s (Forest.elem n c rest)) :
    (svdStep (svdRun (svdStep s (Token.StartElement n)) c.tokens)
        (Token.EndElement n)).pathStack = s.pathStack
    ∧ (svdStep (svdRun (svdStep s (Token.StartElement n)) c.tokens)
        (Token.EndElement n)).currentPeripheral.isSome = s.currentPeripheral.isSome
    ∧ (svdStep (svdRun (svdStep s (Token.StartElement n)) c.tokens)
        (Token.EndElement n)).currentRegister.isSome = s.currentRegister.isSome
    ∧ (svdStep (svdRun (svdStep s (Token.StartElement n)) c.tokens)
        (Token.EndElement n)).currentField.isSome = s.currentField.isSome
    ∧ Ctx (svdStep (svdRun (svdStep s (Token.StartElement n)) c.tokens)
        (Token.EndElement n)) rest := by
  obtain ⟨_, _, hPr⟩ := nestFree_elem "peripheral" n c rest h.hP
  obtain ⟨_, _, hRr⟩ := nestFree_elem "register" n c rest h.hR
  obtain ⟨_, _, hFr⟩ := nestFree_elem "field" n c rest h.hF
  obtain ⟨b1, b2, b3, b4⟩ := h.start.frames
  have a1 := svdStep_start_pathStack s n
  have a3 := svdStep_start_peripheral_isSome s n
  have a4 := svdStep_start_register_isSome s n
  have a5 := svdStep_start_field_isSome s n
  generalize svdStep s (Token.StartElement n) = s1 at a1 a3 a4 a5 b1 b2 b3 b4 ⊢
  generalize svdRun s1 c.tokens = s2 at b1 b2 b3 b4 ⊢
  have e1 : (svdStep s2 (Token.EndElement n)).pathStack = s.pathStack := by
    rw [svdStep_end_pathStack, b1, a1, List.dropLast_concat]
  have e2 : (svdStep s2 (Token.EndElement n)).currentPeripheral.isSome
      = s.currentPeripheral.isSome := by
    rw [svdStep_end_peripheral_isSome, b2, a3]
    by_cases hn : n = "peripheral"
    · have : s.currentPeripheral.isSome = false := by
        cases hs : s.currentPeripheral.isSome with
        | false => rfl
        | true => exact absurd hn (h.ne_peripheral hs)
      simp [hn, this]
    · have hb : (n == "peripheral") = false := by simp [hn]
      have hb2 : (n != "peripheral") = true := by simp [hn]
      simp [hb, hb2, nestedPeripheral]
  have e3 : (svdStep s2 (Token.EndElement n)).currentRegister.isSome
      = s.currentRegister.isSome := by
    rw [svdStep_end_register_isSome, b3, a4]
    by_cases hn : n = "register"
    · have : s.currentRegister.isSome = false := by
        cases hs : s.currentRegister.isSome with
        | false => rfl
        | true => exact absurd hn (h.ne_register hs)
      simp [hn, this]
    · have hb : (n == "register") = false := by simp [hn]
      have hb2 : (n != "register") = true := by simp [hn]
      simp [hb, hb2, nestedRegister]
  have e4 : (svdStep s2 (Token.EndElement n)).currentField.isSome
      = s.currentField.isSome := by
    rw [svdStep_end_field_isSome, b4, a5]
    by_cases hn : n = "field"
    · have : s.currentField.isSome = false := by
        cases hs : s.currentField.isSome with
        | false => rfl
        | true => exact absurd hn (h.ne_field hs)
      simp [hn, this]
    · have hb : (n == "field") = false := by simp [hn]
      have hb2 : (n != "field") = true := by simp [hn]
      simp [hb, hb2, nestedField]
  refine ⟨e1, e2, e3, e4, hPr, hRr, hFr, ?_, ?_, ?_⟩
  · intro hs
    exact (names_elem_not_mem _ _ _ _ (h.cP (e2 ▸ hs))).2.2
  · intro hs
    exact (names_elem_not_mem _ _ _ _ (h.cR (e3 ▸ hs))).2.2
  · intro hs
    exact (names_elem_not_mem _ _ _ _ (h.cF (e4 ▸ hs))).2.2

theorem Ctx.text {s : SVDState} {t : String} {rest : Forest}
    (h : Ctx s (Forest.text t rest)) : Ctx (svdStep s (Token.CharData t)) rest := by
  obtain ⟨hP, hR, hF, cP, cR, cF⟩ := h
  simp only [Forest.nestFree] at hP hR hF
  simp only [Forest.names] at cP cR cF
  exact ⟨hP, hR, hF, cP, cR, cF⟩

theorem Ctx.other {s : SVDState} {rest : Forest}
    (h : Ctx s (Forest.other rest)) : Ctx (svdStep s Token.Other) rest := by
  obtain ⟨hP, hR, hF, cP, cR, cF⟩ := h
  simp only [Forest.nestFree] at hP hR hF
  simp only [Forest.names] at cP cR cF
  exact ⟨hP, hR, hF, cP, cR, cF⟩

/-- The records sent only grow. -/
theorem svdRun_sent (ts : List Token) (s : SVDState) :
    ∃ new, (svdRun s ts).sent = s.sent ++ new := by
  induction ts generalizing s with
  | nil => exact ⟨[], by simp [svdRun_nil]⟩
  | cons t ts ih =>
    rw [svdRun_cons]
    obtain ⟨new, hnew⟩ := ih (svdStep s t)
    cases t with
    | StartElement n => exact ⟨new, by rw [hnew, svdStep_start_sent]⟩
    | EndElement n =>
      rw [svdStep_end_sent, List.append_assoc, List.append_assoc, List.append_assoc] at hnew
      exact ⟨_, hnew⟩
    | CharData c => exact ⟨new, hnew⟩
    | Other => exact ⟨new, hnew⟩

/-- A well-formed document leaves the path stack as it found it. -/
theorem svd_pathStack (f : Forest) (s : SVDState) :
    (svdRun s f.tokens).pathStack = s.pathStack := by
  induction f generalizing s with
  | nil => rfl
  | elem n c rest ihc ihr =>
    rw [svdRun_elem, ihr, svdStep_end_pathStack, ihc, svdStep_start_pathStack,
      List.dropLast_concat]
  | text t rest ih => simp only [Forest.tokens, svdRun_cons]; rw [ih]; rfl
  | other rest ih => simp only [Forest.tokens, svdRun_cons]; rw [ih]; rfl

theorem getLast?_concat_eq (st : List String) (n : String) :
    (st ++ [n]).getLast? = some n := by
  simp

/-- While a peripheral is open and the forest has no `peripheral` element, the
peripheral stays open and keeps the value of every key that is not the name of
a top-level element read as its direct child. -/
theorem stable_peripheral (f : Forest) (s : SVDState) (p : Record)
    (hs : s.currentPeripheral = some p) (hn : "peripheral" ∉ f.names) :
    ∃ q, (svdRun s f.tokens).currentPeripheral = some q
      ∧ ∀ k, (s.pathStack.getLast? = some "peripheral" → k ∉ f.topNames) →
          Record.get q k = Record.get p k := by
  induction f generalizing s p with
  | nil => exact ⟨p, hs, fun _ _ => rfl⟩
  | elem n c rest ihc ihr =>
    obtain ⟨h1, h2, h3⟩ := names_elem_not_mem _ _ _ _ hn
    have hne : ¬ (n = "peripheral" ∧ "peripherals" ∈ s.pathStack ++ [n]) :=
      fun e => h1 e.1.symm
    have a1 : (svdStep s (Token.StartElement n)).currentPeripheral = some p := by
      rw [(svdStep_start_peripheral s n).1, if_neg hne, hs]
    have a2 := svdStep_start_pathStack s n
    rw [svdRun_elem]
    obtain ⟨p2, b1, b2⟩ := ihc (svdStep s (Token.StartElement n)) p a1 h2
    have b3 := svd_pathStack c (svdStep s (Token.StartElement n))
    generalize svdStep s (Token.StartElement n) = s1 at a1 a2 b1 b2 b3 ⊢
    have b4 : ∀ k, Record.get p2 k = Record.get p k := by
      intro k
      apply b2 k
      intro htop
      rw [a2, getLast?_concat_eq] at htop
      exact absurd (Option.some.inj htop).symm h1
    generalize svdRun s1 c.tokens = s2 at b1 b3 ⊢
    have d1 := svdStep_end_peripheral s2 n
    rw [b1] at d1
    have hn' : ¬ n = "peripheral" := fun e => h1 e.symm
    simp only [hn', if_false] at d1
    have d2 : (svdStep s2 (Token.EndElement n)).pathStack = s.pathStack := by
      rw [svdStep_end_pathStack, b3, a2, List.dropLast_concat]
    have hpar : parentElement s2.pathStack = s.pathStack.getLast? := by
      rw [b3, a2, parentElement_concat]
    by_cases hc : parentElement s2.pathStack = some "peripheral" ∧ n ≠ "registers"
        ∧ TrimSpace s2.textBuilder ≠ ""
    · rw [if_pos hc] at d1
      obtain ⟨q, e1, e2⟩ := ihr (svdStep s2 (Token.EndElement n)) _ d1 h3
      refine ⟨q, e1, ?_⟩
      intro k hk
      have htop : s.pathStack.getLast? = some "peripheral" := hpar ▸ hc.1
      have hk' := hk htop
      simp only [Forest.topNames, List.mem_cons, not_or] at hk'
      rw [e2 k (fun _ => hk'.2), Record.get_set_ne _ _ _ _ (fun e => hk'.1 e.symm), b4]
    · rw [if_neg hc] at d1
      obtain ⟨q, e1, e2⟩ := ihr (svdStep s2 (Token.EndElement n)) _ d1 h3
      refine ⟨q, e1, ?_⟩
      intro k hk
      rw [e2 k, b4]
      intro htop
      rw [d2] at htop
      have hk' := hk htop
      simp only [Forest.topNames, List.mem_cons, not_or] at hk'
      exact hk'.2
  | text t rest ih =>
    simp only [Forest.tokens, svdRun_cons]
    exact ih (svdStep s (Token.CharData t)) p hs hn
  | other rest ih =>
    simp only [Forest.tokens, svdRun_cons]
    exact ih (svdStep s Token.Other) p hs hn

/-- While a register is open and the forest has no `register` element, the register
stays open and keeps the value of every key that is not the name of a top-level
element read as its direct child. -/
theorem stable_register (f : Forest) (s : SVDState) (r : Record)
    (hs : s.currentRegister = some r) (hn : "register" ∉ f.names) :
    ∃ q, (svdRun s f.tokens).currentRegister = some q
      ∧ ∀ k, (s.pathStack.getLast? = some "register" → k ∉ f.topNames) →
          Record.get q k = Record.get r k := by
  induction f generalizing s r with
  | nil => exact ⟨r, hs, fun _ _ => rfl⟩
  | elem n c rest ihc ihr =>
    obtain ⟨h1, h2, h3⟩ := names_elem_not_mem _ _ _ _ hn
    have a1 : (svdStep s (Token.StartElement n)).currentRegister = some r := by
      rw [(svdStep_start_register s n).1]
      have hne : ¬ (n = "register" ∧ "registers" ∈ s.pathStack ++ [n]) :=
        fun e => h1 e.1.symm
      cases s.currentPeripheral with
      | none => exact hs
      | some p => simp only [if_neg hne]; exact hs
    have a2 := svdStep_start_pathStack s n
    rw [svdRun_elem]
    obtain ⟨p2, b1, b2⟩ := ihc (svdStep s (Token.StartElement n)) r a1 h2
    have b3 := svd_pathStack c (svdStep s (Token.StartElement n))
    generalize svdStep s (Token.StartElement n) = s1 at a1 a2 b1 b2 b3 ⊢
    have b4 : ∀ k, Record.get p2 k = Record.get r k := by
      intro k
      apply b2 k
      intro htop
      rw [a2, getLast?_concat_eq] at htop
      exact absurd (Option.some.inj htop).symm h1
    generalize svdRun s1 c.tokens = s2 at b1 b3 ⊢
    have d1 := svdStep_end_register s2 n
    rw [b1] at d1
    have hn' : ¬ n = "register" := fun e => h1 e.symm
    simp only [hn', if_false] at d1
    have d2 : (svdStep s2 (Token.EndElement n)).pathStack = s.pathStack := by
      rw [svdStep_end_pathStack, b3, a2, List.dropLast_concat]
    have hpar : parentElement s2.pathStack = s.pathStack.getLast? := by
      rw [b3, a2, parentElement_concat]
    by_cases hc : parentElement s2.pathStack = some "register" ∧ n ≠ "fields"
        ∧ TrimSpace s2.textBuilder ≠ ""
    · rw [if_pos hc] at d1
      obtain ⟨q, e1, e2⟩ := ihr (svdStep s2 (Token.EndElement n)) _ d1 h3
      refine ⟨q, e1, ?_⟩
      intro k hk
      have htop : s.pathStack.getLast? = some "register" := hpar ▸ hc.1
      have hk' := hk htop
      simp only [Forest.topNames, List.mem_cons, not_or] at hk'
      rw [e2 k (fun _ => hk'.2), Record.get_set_ne _ _ _ _ (fun e => hk'.1 e.symm), b4]
    · rw [if_neg hc] at d1
      obtain ⟨q, e1, e2⟩ := ihr (svdStep s2 (Token.EndElement n)) _ d1 h3
      refine ⟨q, e1, ?_⟩
      intro k hk
      rw [e2 k, b4]
      intro htop
      rw [d2] at htop
      have hk' := hk htop
      simp only [Forest.topNames, List.mem_cons, not_or] at hk'
      exact hk'.2
  | text t rest ih =>
    simp only [Forest.tokens, svdRun_cons]
    exact ih (svdStep s (Token.CharData t)) r hs hn
  | other rest ih =>
    simp only [Forest.tokens, svdRun_cons]
    exact ih (svdStep s Token.Other) r hs hn

theorem correctRegisters_zero (f : Forest) (anc : List String) (inP : Bool)
    (h : "register" ∉ f.names) : correctRegisters anc inP f = 0 := by
  induction f generalizing anc inP with
  | nil => rfl
  | elem n c rest ihc ihr =>
    obtain ⟨h1, h2, h3⟩ := names_elem_not_mem _ _ _ _ h
    have hn' : ¬ n = "register" := fun e => h1 e.symm
    have hn : (n == "register") = false := by simp [hn']
    simp [correctRegisters, nestedRegister, hn, ihc _ _ h2, ihr _ _ h3]
  | text t rest ih => exact ih anc inP h
  | other rest ih => exact ih anc inP h

theorem correctFields_zero_of_register (f : Forest) (anc : List String) (inP : Bool)
    (h : "register" ∉ f.names) : correctFields anc inP false f = 0 := by
  induction f generalizing anc inP with
  | nil => rfl
  | elem n c rest ihc ihr =>
    obtain ⟨h1, h2, h3⟩ := names_elem_not_mem _ _ _ _ h
    have hn' : ¬ n = "register" := fun e => h1 e.symm
    have hn : (n == "register") = false := by simp [hn']
    simp [correctFields, nestedField, nestedRegister, hn, ihc _ _ h2, ihr _ _ h3]
  | text t rest ih => exact ih anc inP h
  | other rest ih => exact ih anc inP h

theorem correctFields_zero (f : Forest) (anc : List String) (inP inR : Bool)
    (h : "field" ∉ f.names) : correctFields anc inP inR f = 0 := by
  induction f generalizing anc inP inR with
  | nil => rfl
  | elem n c rest ihc ihr =>
    obtain ⟨h1, h2, h3⟩ := names_elem_not_mem _ _ _ _ h
    have hn' : ¬ n = "field" := fun e => h1 e.symm
    have hn : (n == "field") = false := by simp [hn']
    simp [correctFields, nestedField, hn, ihc _ _ _ h2, ihr _ _ _ h3]
  | text t rest ih => exact ih anc inP inR h
  | other rest ih => exact ih anc inP inR h

theorem chanOf_nil_of_length (k : Kind) (old new : List (Kind × Record))
    (h : (chanOf k (old ++ new)).length = (chanOf k old).length + 0) :
    ∀ e, (k, e) ∉ new := by
  rw [chanOf_append, List.length_append] at h
  have h0 : (chanOf k new).length = 0 := by omega
  intro e he
  have : e ∈ chanOf k new := by
    simp only [chanOf, List.mem_map, List.mem_filter]
    exact ⟨(k, e), ⟨he, by simp⟩, rfl⟩
  rw [List.length_eq_zero] at h0
  rw [h0] at this
  exact absurd this (List.not_mem_nil _)

/-- Without an open register or field and without a `register` element, a forest
gives records on the Peripheral channel only. -/
theorem only_peripherals (f : Forest) (s : SVDState) (h : Ctx s f)
    (hr : s.currentRegister = none) (hregister : "register" ∉ f.names)
    (new : List (Kind × Record)) (hnew : (svdRun s f.tokens).sent = s.sent ++ new) :
    ∀ k e, (k, e) ∈ new → k = Kind.Peripheral := by
  obtain ⟨_, _, _, _, _, h6, h7⟩ := svd_counts f s h.hP h.hR h.hF h.cP h.cR h.cF
  rw [hnew, correctRegisters_zero f _ _ hregister] at h6
  rw [hnew, hr] at h7
  simp only [Option.isSome_none] at h7
  rw [correctFields_zero_of_register f _ _ hregister] at h7
  intro k e he
  cases k with
  | Peripheral => rfl
  | Register => exact absurd he (chanOf_nil_of_length _ _ _ h6 e)
  | Field => exact absurd he (chanOf_nil_of_length _ _ _ h7 e)

/-- Without an open field and without a `field` element, a forest gives no record on
the Field channel. -/
theorem no_fields (f : Forest) (s : SVDState) (h : Ctx s f)
    (hfield : "field" ∉ f.names)
    (new : List (Kind × Record)) (hnew : (svdRun s f.tokens).sent = s.sent ++ new) :
    ∀ e, (Kind.Field, e) ∉ new := by
  obtain ⟨_, _, _, _, _, _, h7⟩ := svd_counts f s h.hP h.hR h.hF h.cP h.cR h.cF
  rw [hnew, correctFields_zero f _ _ _ hfield] at h7
  exact chanOf_nil_of_length _ _ _ h7

/-! ## The SVD extractor on a valid document: references to the parents -/

theorem RefersTo_set_child (strict : Bool) (ik nk : String) (e p : Record) (n t : String)
    (h : RefersTo strict ik nk e p) (h1 : n ≠ ik) (h2 : n ≠ nk) :
    RefersTo strict ik nk (GoMap.set e n t) p := by
  refine ⟨?_, ?_⟩
  · rw [Record.get_set_ne e n ik t h1]; exact h.1
  · intro hs
    rw [Record.get_set_ne e n nk t h2]; exact h.2 hs

theorem RefersTo_set_parent (strict : Bool) (ik nk : String) (e p : Record) (n t : String)
    (h : RefersTo strict ik nk e p) (h1 : n ≠ "_id") (h2 : strict = true → n ≠ "name") :
    RefersTo strict ik nk e (GoMap.set p n t) := by
  refine ⟨?_, ?_⟩
  · rw [Record.get_set_ne p n "_id" t h1]; exact h.1
  · intro hs
    rw [Record.get_set_ne p n "name" t (h2 hs)]; exact h.2 hs

theorem RefersTo_of_get (strict : Bool) (ik nk : String) (e p q : Record)
    (h : RefersTo strict ik nk e p) (h1 : Record.get q "_id" = Record.get p "_id")
    (h2 : strict = true → Record.get q "name" = Record.get p "name") :
    RefersTo strict ik nk e q :=
  ⟨h1.trans h.1, fun hs => (h2 hs).trans (h.2 hs)⟩

theorem sublist_pair {α : Type} (x y : α) (a b : List α) (hx : x ∈ a) (hy : y ∈ b) :
    [x, y].Sublist (a ++ b) :=
  (List.singleton_sublist.2 hx).append (List.singleton_sublist.2 hy)

theorem topNames_subset (f : Forest) : ∀ k, k ∈ f.topNames → k ∈ f.names := by
  induction f with
  | nil => intro k hk; exact hk
  | elem n c rest _ ihr =>
    intro k hk
    simp only [Forest.topNames, List.mem_cons] at hk
    simp only [Forest.names, List.mem_cons, List.mem_append]
    rcases hk with hk | hk
    · exact Or.inl hk
    · exact Or.inr (Or.inr (ihr k hk))
  | text t rest ih => exact ih
  | other rest ih => exact ih

theorem earlyNames_of_no_name (kid : String) (f : Forest) (h : "name" ∉ f.topNames) :
    f.earlyNames kid = true := by
  induction f with
  | nil => rfl
  | elem n c rest _ ihr =>
    simp only [Forest.topNames, List.mem_cons, not_or] at h
    have hn : n ≠ "name" := fun e => h.1 e.symm
    simp only [Forest.earlyNames]
    split
    · simp [hn, h.2]
    · exact ihr h.2
  | text t rest ih => exact ih h
  | other rest ih => exact ih h

theorem earlyNames_rest (kid n : String) (c rest : Forest)
    (h : (Forest.elem n c rest).earlyNames kid = true) : rest.earlyNames kid = true := by
  simp only [Forest.earlyNames] at h
  split at h
  · simp only [Bool.and_eq_true, Bool.not_eq_true', decide_eq_true_eq] at h
    exact earlyNames_of_no_name kid rest (by simpa using h.2)
  · exact h

theorem earlyNames_kid (kid n : String) (c rest : Forest)
    (h : (Forest.elem n c rest).earlyNames kid = true) (hk : n = kid ∨ kid ∈ c.names) :
    n ≠ "name" ∧ "name" ∉ rest.topNames := by
  simp only [Forest.earlyNames, if_pos hk, Bool.and_eq_true, Bool.not_eq_true',
    decide_eq_true_eq] at h
  exact ⟨h.1, by simpa using h.2⟩

theorem nameOrdered_elem (entity kid n : String) (c rest : Forest)
    (h : (Forest.elem n c rest).nameOrdered entity kid = true) :
    (n = entity → c.earlyNames kid = true) ∧ c.nameOrdered entity kid = true
      ∧ rest.nameOrdered entity kid = true := by
  simp only [Forest.nameOrdered, Bool.and_eq_true, Bool.or_eq_true, bne_iff_ne, ne_eq] at h
  refine ⟨?_, h.1.2, h.2⟩
  intro hn
  rcases h.1.1 with h1 | h1
  · exact absurd hn h1
  · exact h1

theorem isSome_of_eq_some {α : Type} {o : Option α} {a : α} (h : o = some a) :
    o.isSome = true := by
  rw [h]; rfl

/-- A start tag keeps the open register and field linked to the open peripheral. -/
theorem LinkedP_start (strict : Bool) (s : SVDState) (n : String)
    (hne : s.currentPeripheral.isSome = true → n ≠ "peripheral")
    (h : LinkedP strict s) : LinkedP strict (svdStep s (Token.StartElement n)) := by
  obtain ⟨hp1, _⟩ := svdStep_start_peripheral s n
  obtain ⟨hr1, _⟩ := svdStep_start_register s n
  obtain ⟨hf1, _⟩ := svdStep_start_field s n
  have keep : ∀ p, s.currentPeripheral = some p →
      (svdStep s (Token.StartElement n)).currentPeripheral = some p := by
    intro p hp
    have hn := hne (isSome_of_eq_some hp)
    rw [hp1, if_neg (fun e => hn e.1), hp]
  refine ⟨?_, ?_⟩
  · intro r hr
    rw [hr1] at hr
    cases hcp : s.currentPeripheral with
    | none =>
      rw [hcp] at hr
      obtain ⟨p, hp, _⟩ := h.1 r hr
      rw [hcp] at hp
      cases hp
    | some p =>
      rw [hcp] at hr
      by_cases hc : n = "register" ∧ "registers" ∈ s.pathStack ++ [n]
      · simp only [if_pos hc, Option.some.injEq] at hr
        refine ⟨p, keep p hcp, ?_⟩
        subst hr
        exact ⟨by simp [Record.get, GoMap.lookup], fun _ => by simp [Record.get, GoMap.lookup]⟩
      · simp only [if_neg hc] at hr
        obtain ⟨q, hq, href⟩ := h.1 r hr
        exact ⟨q, keep q hq, href⟩
  · intro x hx
    rw [hf1] at hx
    cases hcr : s.currentRegister with
    | none =>
      rw [hcr] at hx
      obtain ⟨q, hq, href⟩ := h.2 x hx
      exact ⟨q, keep q hq, href⟩
    | some r =>
      rw [hcr] at hx
      by_cases hc : n = "field" ∧ "fields" ∈ s.pathStack ++ [n]
      · simp only [if_pos hc, Option.some.injEq] at hx
        obtain ⟨q, hq, href⟩ := h.1 r hcr
        refine ⟨q, keep q hq, ?_⟩
        subst hx
        refine ⟨?_, ?_⟩
        · rw [href.1]; simp [Record.get, GoMap.lookup]
        · intro hs
          rw [href.2 hs]; simp [Record.get, GoMap.lookup]
      · simp only [if_neg hc] at hx
        obtain ⟨q, hq, href⟩ := h.2 x hx
        exact ⟨q, keep q hq, href⟩

/-- What an end tag leaves in a slot that stays open. -/
theorem end_peripheral_some (s : SVDState) (n : String) (p : Record)
    (hp : s.currentPeripheral = some p) (hn : n ≠ "peripheral") :
    (svdStep s (Token.EndElement n)).currentPeripheral = some p
    ∨ (parentElement s.pathStack = some "peripheral"
        ∧ (svdStep s (Token.EndElement n)).currentPeripheral
            = some (GoMap.set p n (TrimSpace s.textBuilder))) := by
  rw [svdStep_end_peripheral, hp]
  simp only [hn, if_false]
  split
  · rename_i hc
    exact Or.inr ⟨hc.1, rfl⟩
  · exact Or.inl rfl

theorem end_register_some (s : SVDState) (n : String) (r : Record)
    (hr : (svdStep s (Token.EndElement n)).currentRegister = some r) :
    n ≠ "register" ∧ ∃ r0, s.currentRegister = some r0
      ∧ (r = r0 ∨ (parentElement s.pathStack = some "register"
          ∧ r = GoMap.set r0 n (TrimSpace s.textBuilder))) := by
  rw [svdStep_end_register] at hr
  cases hcr : s.currentRegister with
  | none => rw [hcr] at hr; cases hr
  | some r0 =>
    rw [hcr] at hr
    by_cases hn : n = "register"
    · simp [hn] at hr
    · simp only [hn, if_false] at hr
      refine ⟨hn, r0, rfl, ?_⟩
      split at hr
      · rename_i hc
        exact Or.inr ⟨hc.1, (Option.some.inj hr).symm⟩
      · exact Or.inl (Option.some.inj hr).symm

theorem end_field_some (s : SVDState) (n : String) (x : Record)
    (hx : (svdStep s (Token.EndElement n)).currentField = some x) :
    n ≠ "field" ∧ ∃ x0, s.currentField = some x0
      ∧ (x = x0 ∨ (parentElement s.pathStack = some "field"
          ∧ x = GoMap.set x0 n (TrimSpace s.textBuilder))) := by
  rw [svdStep_end_field] at hx
  cases hcf : s.currentField with
  | none => rw [hcf] at hx; cases hx
  | some x0 =>
    rw [hcf] at hx
    by_cases hn : n = "field"
    · simp [hn] at hx
    · simp only [hn, if_false] at hx
      refine ⟨hn, x0, rfl, ?_⟩
      split at hx
      · rename_i hc
        exact Or.inr ⟨hc.1, (Option.some.inj hx).symm⟩
      · exact Or.inl (Option.some.inj hx).symm

/-- An end tag, other than that of the peripheral, keeps a record that refers to the
open peripheral referring to it, when the tag does not store a key the
reference reads. -/
theorem end_keeps_reference (strict : Bool) (s : SVDState) (n : String) (e p : Record)
    (hp : s.currentPeripheral = some p)
    (href : RefersTo strict "_peripheral_id" "_peripheral_name" e p)
    (hn : n ≠ "peripheral") (hid : n ≠ "_id")
    (hname : strict = true → parentElement s.pathStack = some "peripheral" → n ≠ "name") :
    ∃ q, (svdStep s (Token.EndElement n)).currentPeripheral = some q
      ∧ RefersTo strict "_peripheral_id" "_peripheral_name" e q := by
  rcases end_peripheral_some s n p hp hn with h | ⟨hpar, h⟩
  · exact ⟨p, h, href⟩
  · exact ⟨_, h, RefersTo_set_parent _ _ _ _ _ _ _ href hid (fun hs => hname hs hpar)⟩

/-- An end tag keeps the open register and field linked to the open peripheral. -/
theorem LinkedP_end (strict : Bool) (s : SVDState) (n : String)
    (hkeys : ∀ k ∈ syntheticKeys, n ≠ k)
    (hclosed : n = "peripheral" → s.currentRegister = none ∧ s.currentField = none)
    (hname : strict = true →
      (s.currentRegister.isSome = true ∨ s.currentField.isSome = true) →
      parentElement s.pathStack = some "peripheral" → n ≠ "name")
    (h : LinkedP strict s) : LinkedP strict (svdStep s (Token.EndElement n)) := by
  have k1 : n ≠ "_id" := hkeys _ (by simp [syntheticKeys])
  have k2 : n ≠ "_peripheral_id" := hkeys _ (by simp [syntheticKeys])
  have k3 : n ≠ "_peripheral_name" := hkeys _ (by simp [syntheticKeys])
  refine ⟨?_, ?_⟩
  · intro r hr
    obtain ⟨_, r0, hr0, hrr⟩ := end_register_some s n r hr
    obtain ⟨p, hp, href⟩ := h.1 r0 hr0
    have hn : n ≠ "peripheral" := by
      intro e
      have := (hclosed e).1
      rw [hr0] at this
      cases this
    have href2 : RefersTo strict "_peripheral_id" "_peripheral_name" r p := by
      rcases hrr with e | ⟨_, e⟩
      · rw [e]; exact href
      · rw [e]; exact RefersTo_set_child _ _ _ _ _ _ _ href k2 k3
    exact end_keeps_reference strict s n r p hp href2 hn k1
      (fun hs hpar => hname hs (Or.inl (isSome_of_eq_some hr0)) hpar)
  · intro x hx
    obtain ⟨_, x0, hx0, hxx⟩ := end_field_some s n x hx
    obtain ⟨p, hp, href⟩ := h.2 x0 hx0
    have hn : n ≠ "peripheral" := by
      intro e
      have := (hclosed e).2
      rw [hx0] at this
      cases this
    have href2 : RefersTo strict "_peripheral_id" "_peripheral_name" x p := by
      rcases hxx with e | ⟨_, e⟩
      · rw [e]; exact href
      · rw [e]; exact RefersTo_set_child _ _ _ _ _ _ _ href k2 k3
    exact end_keeps_reference strict s n x p hp href2 hn k1
      (fun hs hpar => hname hs (Or.inr (isSome_of_eq_some hx0)) hpar)

/-- The records an end tag sends, by kind. -/
theorem end_sent_cases (s : SVDState) (n : String) :
    ∃ ends, (svdStep s (Token.EndElement n)).sent = s.sent ++ ends
      ∧ (∀ k e, (k, e) ∈ ends →
          (k = Kind.Peripheral ∧ n = "peripheral" ∧ s.currentPeripheral = some e)
          ∨ (k = Kind.Register ∧ n = "register" ∧ s.currentRegister = some e)
          ∨ (k = Kind.Field ∧ n = "field" ∧ ∃ x0, s.currentField = some x0
              ∧ (e = x0 ∨ e = GoMap.set x0 n (TrimSpace s.textBuilder))))
      ∧ (∀ p, s.currentPeripheral = some p → n = "peripheral" → (Kind.Peripheral, p) ∈ ends)
      ∧ (∀ r, s.currentRegister = some r → n = "register" → (Kind.Register, r) ∈ ends) := by
  refine ⟨_, by rw [svdStep_end_sent, List.append_assoc, List.append_assoc], ?_, ?_, ?_⟩
  · intro k e he
    simp only [List.mem_append] at he
    rcases he with he | he | he
    · cases hcp : s.currentPeripheral with
      | none => rw [hcp] at he; simp at he
      | some p =>
        rw [hcp] at he
        by_cases hn : n = "peripheral"
        · simp only [hn, if_true, List.mem_singleton, Prod.mk.injEq] at he
          exact Or.inl ⟨he.1, hn, by rw [he.2]⟩
        · simp [hn] at he
    · cases hcr : s.currentRegister with
      | none => rw [hcr] at he; simp at he
      | some r =>
        rw [hcr] at he
        by_cases hn : n = "register"
        · simp only [hn, if_true, List.mem_singleton, Prod.mk.injEq] at he
          exact Or.inr (Or.inl ⟨he.1, hn, by rw [he.2]⟩)
        · simp [hn] at he
    · cases hcf : s.currentField with
      | none => rw [hcf] at he; simp at he
      | some x =>
        rw [hcf] at he
        by_cases hn : n = "field"
        · simp only [hn, if_true, List.mem_singleton, Prod.mk.injEq] at he
          refine Or.inr (Or.inr ⟨he.1, hn, x, rfl, ?_⟩)
          rw [he.2, hn]
          split
          · exact Or.inr rfl
          · exact Or.inl rfl
        · simp [hn] at he
  · intro p hp hn
    simp [hp, hn]
  · intro r hr hn
    simp [hr, hn]

/-- Run over a valid forest from a state whose open register and field refer to the
open peripheral: every register and field record sent refers to a peripheral
record sent later or to the peripheral still open at the end. With `strict`
the names are part of the reference, under the condition that names come
first. -/
theorem linked_peripheral (strict : Bool) (f : Forest) (s : SVDState)
    (hctx : Ctx s f) (hres : ∀ k ∈ syntheticKeys, k ∉ f.names)
    (hlink : LinkedP strict s)
    (hfrozen : strict = true →
      (s.currentRegister.isSome = true ∨ s.currentField.isSome = true) →
      s.pathStack.getLast? = some "peripheral" → "name" ∉ f.topNames)
    (hearly : strict = true → s.currentPeripheral.isSome = true →
      s.pathStack.getLast? = some "peripheral" → f.earlyNames "register" = true)
    (hord : strict = true → f.nameOrdered "peripheral" "register" = true) :
    ∃ new, (svdRun s f.tokens).sent = s.sent ++ new
      ∧ ResolvedP strict new (svdRun s f.tokens).currentPeripheral
      ∧ LinkedP strict (svdRun s f.tokens) := by
  induction f generalizing s with
  | nil =>
    refine ⟨[], by simp [Forest.tokens, svdRun_nil], ?_, hlink⟩
    intro k e he
    cases he
  | elem n c rest ihc ihr =>
    have rn : ∀ k ∈ syntheticKeys, n ≠ k :=
      fun k hk e => (names_elem_not_mem _ _ _ _ (hres k hk)).1 e.symm
    have rc : ∀ k ∈ syntheticKeys, k ∉ c.names :=
      fun k hk => (names_elem_not_mem _ _ _ _ (hres k hk)).2.1
    have rr : ∀ k ∈ syntheticKeys, k ∉ rest.names :=
      fun k hk => (names_elem_not_mem _ _ _ _ (hres k hk)).2.2
    have k1 : n ≠ "_id" := rn _ (by simp [syntheticKeys])
    -- when a record refers to the open peripheral, its name is settled
    have safe : strict = true → s.pathStack.getLast? = some "peripheral" →
        (s.currentRegister.isSome = true ∨ s.currentField.isSome = true
          ∨ ((n = "register" ∨ "register" ∈ c.names)
              ∧ s.currentPeripheral.isSome = true)) →
        n ≠ "name" ∧ "name" ∉ rest.topNames := by
      intro hs htop ht
      rcases ht with ht | ht | ⟨ht, hcp⟩
      · have := hfrozen hs (Or.inl ht) htop
        simp only [Forest.topNames, List.mem_cons, not_or] at this
        exact ⟨fun e => this.1 e.symm, this.2⟩
      · have := hfrozen hs (Or.inr ht) htop
        simp only [Forest.topNames, List.mem_cons, not_or] at this
        exact ⟨fun e => this.1 e.symm, this.2⟩
      · exact earlyNames_kid "register" n c rest (hearly hs hcp htop) ht
    have a1 := svdStep_start_pathStack s n
    have a3 := svdStep_start_peripheral_isSome s n
    have a4 := svdStep_start_register_isSome s n
    have a5 := svdStep_start_field_isSome s n
    have a6 := svdStep_start_sent s n
    have l1 := LinkedP_start strict s n (fun hs => hctx.ne_peripheral hs) hlink
    have c1 := hctx.start
    obtain ⟨e1, e2, e3, e4, c3⟩ := hctx.stop
    obtain ⟨b1, b2, b3, b4⟩ := c1.frames
    -- an open register or field at the start of the content was open before, or
    -- the element is a register in an open peripheral or a field in an open register
    have fromR : (svdStep s (Token.StartElement n)).currentRegister.isSome = true →
        s.currentRegister.isSome = true
          ∨ (n = "register" ∧ s.currentPeripheral.isSome = true) := by
      intro h
      rw [a4, Bool.or_eq_true] at h
      rcases h with h | h
      · exact Or.inl h
      · simp only [nestedRegister, Bool.and_eq_true, beq_iff_eq] at h
        exact Or.inr ⟨h.1.1, h.2⟩
    have fromF : (svdStep s (Token.StartElement n)).currentField.isSome = true →
        s.currentField.isSome = true ∨ s.currentRegister.isSome = true := by
      intro h
      rw [a5, Bool.or_eq_true] at h
      rcases h with h | h
      · exact Or.inl h
      · simp only [nestedField, Bool.and_eq_true, beq_iff_eq] at h
        exact Or.inr h.2
    have fromP : (svdStep s (Token.StartElement n)).currentPeripheral.isSome = true →
        n ≠ "peripheral" → s.currentPeripheral.isSome = true := by
      intro h hn
      rw [a3, Bool.or_eq_true] at h
      rcases h with h | h
      · exact h
      · simp only [nestedPeripheral, Bool.and_eq_true, beq_iff_eq] at h
        exact absurd h.1 hn
    have linkedSome : ∀ t : SVDState, LinkedP strict t →
        (t.currentRegister.isSome = true ∨ t.currentField.isSome = true) →
        t.currentPeripheral.isSome = true := by
      intro t ht h
      rcases h with h | h
      · obtain ⟨r, hr⟩ := Option.isSome_iff_exists.1 h
        obtain ⟨p, hp, _⟩ := ht.1 r hr
        exact isSome_of_eq_some hp
      · obtain ⟨x, hx⟩ := Option.isSome_iff_exists.1 h
        obtain ⟨p, hp, _⟩ := ht.2 x hx
        exact isSome_of_eq_some hp
    have frozen1 : strict = true →
        ((svdStep s (Token.StartElement n)).currentRegister.isSome = true
          ∨ (svdStep s (Token.StartElement n)).currentField.isSome = true) →
        (svdStep s (Token.StartElement n)).pathStack.getLast? = some "peripheral" →
        "name" ∉ c.topNames := by
      intro _ h htop
      rw [a1, getLast?_concat_eq] at htop
      have hn : n = "peripheral" := Option.some.inj htop
      exfalso
      have hcp : s.currentPeripheral.isSome = true := by
        rcases h with h | h
        · rcases fromR h with h | h
          · exact linkedSome s hlink (Or.inl h)
          · exact h.2
        · rcases fromF h with h | h
          · exact linkedSome s hlink (Or.inr h)
          · exact linkedSome s hlink (Or.inl h)
      exact hctx.ne_peripheral hcp hn
    have early1 : strict = true →
        (svdStep s (Token.StartElement n)).currentPeripheral.isSome = true →
        (svdStep s (Token.StartElement n)).pathStack.getLast? = some "peripheral" →
        c.earlyNames "register" = true := by
      intro hs _ htop
      rw [a1, getLast?_concat_eq] at htop
      exact (nameOrdered_elem _ _ _ _ _ (hord hs)).1 (Option.some.inj htop)
    rw [svdRun_elem]
    obtain ⟨newc, hc1, hc2, hc3⟩ := ihc (svdStep s (Token.StartElement n)) c1 rc l1 frozen1
      early1 (fun hs => (nameOrdered_elem _ _ _ _ _ (hord hs)).2.1)
    have trigger : ∀ k e, (k, e) ∈ newc → k ≠ Kind.Peripheral →
        (svdStep s (Token.StartElement n)).currentRegister.isSome = true
          ∨ "register" ∈ c.names := by
      intro k e he hk
      by_cases hreg : "register" ∈ c.names
      · exact Or.inr hreg
      · cases hcr : (svdStep s (Token.StartElement n)).currentRegister with
        | none =>
          exact absurd (only_peripherals c _ c1 hcr hreg newc hc1 k e he) hk
        | some r => exact Or.inl rfl
    generalize svdStep s (Token.StartElement n) = s1 at a1 a3 a4 a5 a6 l1 c1 e1 e2 e3 e4 c3 b1 b2 b3 b4 fromR fromF fromP hc1 hc2 hc3 trigger ⊢
    generalize svdRun s1 c.tokens = s2 at e1 e2 e3 e4 c3 b1 b2 b3 b4 hc1 hc2 hc3 ⊢
    obtain ⟨ends, d1, d2, d3, _⟩ := end_sent_cases s2 n
    have hpar : parentElement s2.pathStack = s.pathStack.getLast? := by
      rw [b1, a1, parentElement_concat]
    have triggerS : ((s2.currentRegister.isSome = true ∨ s2.currentField.isSome = true)
          ∨ ∃ k e, (k, e) ∈ newc ∧ k ≠ Kind.Peripheral) →
        s2.currentPeripheral.isSome = true → n ≠ "peripheral" →
        (s.currentRegister.isSome = true ∨ s.currentField.isSome = true
          ∨ ((n = "register" ∨ "register" ∈ c.names)
              ∧ s.currentPeripheral.isSome = true)) := by
      intro h hcp hn
      have hcps : s.currentPeripheral.isSome = true := fromP (b2 ▸ hcp) hn
      rcases h with (h | h) | ⟨k, e, he, hk⟩
      · rcases fromR (b3 ▸ h) with h | h
        · exact Or.inl h
        · exact Or.inr (Or.inr ⟨Or.inl h.1, hcps⟩)
      · rcases fromF (b4 ▸ h) with h | h
        · exact Or.inr (Or.inl h)
        · exact Or.inl h
      · rcases trigger k e he hk with h | h
        · rcases fromR h with h | h
          · exact Or.inl h
          · exact Or.inr (Or.inr ⟨Or.inl h.1, hcps⟩)
        · exact Or.inr (Or.inr ⟨Or.inr h, hcps⟩)
    have closedP : n = "peripheral" →
        s2.currentRegister = none ∧ s2.currentField = none := by
      intro hn
      have hcp : s.currentPeripheral.isSome = false := by
        cases h : s.currentPeripheral.isSome with
        | false => rfl
        | true => exact absurd hn (hctx.ne_peripheral h)
      have h1 : s2.currentRegister.isSome = false := by
        cases h : s2.currentRegister.isSome with
        | false => rfl
        | true =>
          rcases fromR (b3 ▸ h) with h | h
          · rw [linkedSome s hlink (Or.inl h)] at hcp; cases hcp
          · rw [h.2] at hcp; cases hcp
      have h2 : s2.currentField.isSome = false := by
        cases h : s2.currentField.isSome with
        | false => rfl
        | true =>
          rcases fromF (b4 ▸ h) with h | h
          · rw [linkedSome s hlink (Or.inr h)] at hcp; cases hcp
          · rw [linkedSome s hlink (Or.inl h)] at hcp; cases hcp
      exact ⟨by simpa using h1, by simpa using h2⟩
    have l3 : LinkedP strict (svdStep s2 (Token.EndElement n)) := by
      apply LinkedP_end strict s2 n rn closedP _ hc3
      intro hs h hp
      have hn : n ≠ "peripheral" := by
        intro e
        obtain ⟨q1, q2⟩ := closedP e
        rw [q1, q2] at h
        simp at h
      exact (safe hs (hpar ▸ hp)
        (triggerS (Or.inl h) (linkedSome s2 hc3 h) hn)).1
    obtain ⟨newr, hr1, hr2, hr3⟩ := ihr (svdStep s2 (Token.EndElement n)) c3 rr l3
      (by
        intro hs h htop
        rw [e3, e4] at h
        rw [e1] at htop
        have := hfrozen hs h htop
        simp only [Forest.topNames, List.mem_cons, not_or] at this
        exact this.2)
      (by
        intro hs h htop
        rw [e2] at h
        rw [e1] at htop
        exact earlyNames_rest _ _ _ _ (hearly hs h htop))
      (fun hs => (nameOrdered_elem _ _ _ _ _ (hord hs)).2.2)
    -- a record that refers to the peripheral open at the end tag, which is not the
    -- peripheral's own, refers to the peripheral open at the end
    have carry : ∀ e p, s2.currentPeripheral = some p →
        RefersTo strict "_peripheral_id" "_peripheral_name" e p → n ≠ "peripheral" →
        (s.currentRegister.isSome = true ∨ s.currentField.isSome = true
          ∨ ((n = "register" ∨ "register" ∈ c.names)
              ∧ s.currentPeripheral.isSome = true)) →
        ∃ q, (svdRun (svdStep s2 (Token.EndElement n)) rest.tokens).currentPeripheral
            = some q
          ∧ RefersTo strict "_peripheral_id" "_peripheral_name" e q := by
      intro e p hp href hn ht
      obtain ⟨p3, hp3, href3⟩ := end_keeps_reference strict s2 n e p hp href hn k1
        (fun hs hpp => (safe hs (hpar ▸ hpp) ht).1)
      obtain ⟨q, hq, hstab⟩ := stable_peripheral rest _ p3 hp3
        (c3.cP (isSome_of_eq_some hp3))
      refine ⟨q, hq, RefersTo_of_get _ _ _ _ _ _ href3 ?_ ?_⟩
      · apply hstab
        intro _ hmem
        exact rr "_id" (by simp [syntheticKeys]) (topNames_subset rest _ hmem)
      · intro hs
        apply hstab
        intro htop
        rw [e1] at htop
        exact (safe hs htop ht).2
    refine ⟨newc ++ (ends ++ newr), ?_, ?_, hr3⟩
    · rw [hr1, d1, hc1, a6]
      simp only [List.append_assoc]
    · intro k e he hk
      rcases List.mem_append.1 he with he | he
      · -- sent while the content was read
        rcases hc2 k e he hk with ⟨p, hsub, href⟩ | ⟨p, hp, href⟩
        · exact Or.inl ⟨p, hsub.trans (List.sublist_append_left _ _), href⟩
        · by_cases hn : n = "peripheral"
          · refine Or.inl ⟨p, ?_, href⟩
            exact sublist_pair _ _ _ _ he (List.mem_append_left _ (d3 p hp hn))
          · exact Or.inr (carry e p hp href hn
              (triggerS (Or.inr ⟨k, e, he, hk⟩) (isSome_of_eq_some hp) hn))
      · rcases List.mem_append.1 he with he | he
        · -- sent by the end tag
          rcases d2 k e he with ⟨h, _, _⟩ | ⟨_, hn, hcr⟩ | ⟨_, hn, x0, hx0, hx⟩
          · exact absurd h hk
          · obtain ⟨p, hp, href⟩ := hc3.1 e hcr
            have hnp : n ≠ "peripheral" := by rw [hn]; decide
            exact Or.inr (carry e p hp href hnp
              (triggerS (Or.inl (Or.inl (isSome_of_eq_some hcr))) (isSome_of_eq_some hp) hnp))
          · obtain ⟨p, hp, href⟩ := hc3.2 x0 hx0
            have hnp : n ≠ "peripheral" := by rw [hn]; decide
            have href2 : RefersTo strict "_peripheral_id" "_peripheral_name" e p := by
              rcases hx with h | h
              · rw [h]; exact href
              · rw [h]
                exact RefersTo_set_child _ _ _ _ _ _ _ href (rn _ (by simp [syntheticKeys]))
                  (rn _ (by simp [syntheticKeys]))
            exact Or.inr (carry e p hp href2 hnp
              (triggerS (Or.inl (Or.inr (isSome_of_eq_some hx0))) (isSome_of_eq_some hp) hnp))
        · -- sent while the rest was read
          rcases hr2 k e he hk with ⟨p, hsub, href⟩ | h
          · refine Or.inl ⟨p, ?_, href⟩
            exact (hsub.trans (List.sublist_append_right _ _)).trans
              (List.sublist_append_right _ _)
          · exact Or.inr h
  | text t rest ih =>
    simp only [Forest.tokens, svdRun_cons]
    exact ih (svdStep s (Token.CharData t)) hctx.text hres hlink hfrozen hearly hord
  | other rest ih =>
    simp only [Forest.tokens, svdRun_cons]
    exact ih (svdStep s Token.Other) hctx.other hres hlink hfrozen hearly hord

/-- A start tag keeps the open field linked to the open register. -/
theorem LinkedR_start (strict : Bool) (s : SVDState) (n : String)
    (hne : s.currentRegister.isSome = true → n ≠ "register")
    (h : LinkedR strict s) : LinkedR strict (svdStep s (Token.StartElement n)) := by
  obtain ⟨hr1, _⟩ := svdStep_start_register s n
  obtain ⟨hf1, _⟩ := svdStep_start_field s n
  have keep : ∀ r, s.currentRegister = some r →
      (svdStep s (Token.StartElement n)).currentRegister = some r := by
    intro r hr
    have hn := hne (isSome_of_eq_some hr)
    rw [hr1]
    cases s.currentPeripheral with
    | none => exact hr
    | some p => simp only [if_neg (fun e : n = "register" ∧ _ => hn e.1)]; exact hr
  intro x hx
  rw [hf1] at hx
  cases hcr : s.currentRegister with
  | none =>
    rw [hcr] at hx
    obtain ⟨q, hq, _⟩ := h x hx
    rw [hcr] at hq
    cases hq
  | some r =>
    rw [hcr] at hx
    by_cases hc : n = "field" ∧ "fields" ∈ s.pathStack ++ [n]
    · simp only [if_pos hc, Option.some.injEq] at hx
      refine ⟨r, keep r hcr, ?_⟩
      subst hx
      exact ⟨by simp [Record.get, GoMap.lookup], fun _ => by simp [Record.get, GoMap.lookup]⟩
    · simp only [if_neg hc] at hx
      obtain ⟨q, hq, href⟩ := h x hx
      exact ⟨q, keep q hq, href⟩

theorem end_register_keep (s : SVDState) (n : String) (r : Record)
    (hr : s.currentRegister = some r) (hn : n ≠ "register") :
    (svdStep s (Token.EndElement n)).currentRegister = some r
    ∨ (parentElement s.pathStack = some "register"
        ∧ (svdStep s (Token.EndElement n)).currentRegister
            = some (GoMap.set r n (TrimSpace s.textBuilder))) := by
  rw [svdStep_end_register, hr]
  simp only [hn, if_false]
  split
  · rename_i hc
    exact Or.inr ⟨hc.1, rfl⟩
  · exact Or.inl rfl

/-- An end tag, other than that of the register, keeps a record that refers to the
open register referring to it, when the tag does not store a key the reference
reads. -/
theorem end_keeps_reference_register (strict : Bool) (s : SVDState) (n : String)
    (e r : Record) (hr : s.currentRegister = some r)
    (href : RefersTo strict "_register_id" "_register_name" e r)
    (hn : n ≠ "register") (hid : n ≠ "_id")
    (hname : strict = true → parentElement s.pathStack = some "register" → n ≠ "name") :
    ∃ q, (svdStep s (Token.EndElement n)).currentRegister = some q
      ∧ RefersTo strict "_register_id" "_register_name" e q := by
  rcases end_register_keep s n r hr hn with h | ⟨hpar, h⟩
  · exact ⟨r, h, href⟩
  · exact ⟨_, h, RefersTo_set_parent _ _ _ _ _ _ _ href hid (fun hs => hname hs hpar)⟩

/-- An end tag keeps the open field linked to the open register. -/
theorem LinkedR_end (strict : Bool) (s : SVDState) (n : String)
    (hkeys : ∀ k ∈ syntheticKeys, n ≠ k)
    (hclosed : n = "register" → s.currentField = none)
    (hname : strict = true → s.currentField.isSome = true →
      parentElement s.pathStack = some "register" → n ≠ "name")
    (h : LinkedR strict s) : LinkedR strict (svdStep s (Token.EndElement n)) := by
  have k1 : n ≠ "_id" := hkeys _ (by simp [syntheticKeys])
  have k2 : n ≠ "_register_id" := hkeys _ (by simp [syntheticKeys])
  have k3 : n ≠ "_register_name" := hkeys _ (by simp [syntheticKeys])
  intro x hx
  obtain ⟨_, x0, hx0, hxx⟩ := end_field_some s n x hx
  obtain ⟨r, hr, href⟩ := h x0 hx0
  have hn : n ≠ "register" := by
    intro e
    have := hclosed e
    rw [hx0] at this
    cases this
  have href2 : RefersTo strict "_register_id" "_register_name" x r := by
    rcases hxx with e | ⟨_, e⟩
    · rw [e]; exact href
    · rw [e]; exact RefersTo_set_child _ _ _ _ _ _ _ href k2 k3
  exact end_keeps_reference_register strict s n x r hr href2 hn k1
    (fun hs hpar => hname hs (isSome_of_eq_some hx0) hpar)

/-- Run over a valid forest from a state whose open field refers to the open
register: every field record sent refers to a register record sent later or to
the register still open at the end. With `strict` the names are part of the
reference, under the condition that names come first. -/
theorem linked_register (strict : Bool) (f : Forest) (s : SVDState)
    (hctx : Ctx s f) (hres : ∀ k ∈ syntheticKeys, k ∉ f.names)
    (hlink : LinkedR strict s)
    (hfrozen : strict = true → s.currentField.isSome = true →
      s.pathStack.getLast? = some "register" → "name" ∉ f.topNames)
    (hearly : strict = true → s.currentRegister.isSome = true →
      s.pathStack.getLast? = some "register" → f.earlyNames "field" = true)
    (hord : strict = true → f.nameOrdered "register" "field" = true) :
    ∃ new, (svdRun s f.tokens).sent = s.sent ++ new
      ∧ ResolvedR strict new (svdRun s f.tokens).currentRegister
      ∧ LinkedR strict (svdRun s f.tokens) := by
  induction f generalizing s with
  | nil =>
    refine ⟨[], by simp [Forest.tokens, svdRun_nil], ?_, hlink⟩
    intro e he
    cases he
  | elem n c rest ihc ihr =>
    have rn : ∀ k ∈ syntheticKeys, n ≠ k :=
      fun k hk e => (names_elem_not_mem _ _ _ _ (hres k hk)).1 e.symm
    have rc : ∀ k ∈ syntheticKeys, k ∉ c.names :=
      fun k hk => (names_elem_not_mem _ _ _ _ (hres k hk)).2.1
    have rr : ∀ k ∈ syntheticKeys, k ∉ rest.names :=
      fun k hk => (names_elem_not_mem _ _ _ _ (hres k hk)).2.2
    have k1 : n ≠ "_id" := rn _ (by simp [syntheticKeys])
    have safe : strict = true → s.pathStack.getLast? = some "register" →
        (s.currentField.isSome = true
          ∨ ((n = "field" ∨ "field" ∈ c.names) ∧ s.currentRegister.isSome = true)) →
        n ≠ "name" ∧ "name" ∉ rest.topNames := by
      intro hs htop ht
      rcases ht with ht | ⟨ht, hcr⟩
      · have := hfrozen hs ht htop
        simp only [Forest.topNames, List.mem_cons, not_or] at this
        exact ⟨fun e => this.1 e.symm, this.2⟩
      · exact earlyNames_kid "field" n c rest (hearly hs hcr htop) ht
    have a1 := svdStep_start_pathStack s n
    have a4 := svdStep_start_register_isSome s n
    have a5 := svdStep_start_field_isSome s n
    have a6 := svdStep_start_sent s n
    have l1 := LinkedR_start strict s n (fun hs => hctx.ne_register hs) hlink
    have c1 := hctx.start
    obtain ⟨e1, _, e3, e4, c3⟩ := hctx.stop
    obtain ⟨b1, _, b3, b4⟩ := c1.frames
    have fromF : (svdStep s (Token.StartElement n)).currentField.isSome = true →
        s.currentField.isSome = true
          ∨ (n = "field" ∧ s.currentRegister.isSome = true) := by
      intro h
      rw [a5, Bool.or_eq_true] at h
      rcases h with h | h
      · exact Or.inl h
      · simp only [nestedField, Bool.and_eq_true, beq_iff_eq] at h
        exact Or.inr ⟨h.1.1, h.2⟩
    have fromR : (svdStep s (Token.StartElement n)).currentRegister.isSome = true →
        n ≠ "register" → s.currentRegister.isSome = true := by
      intro h hn
      rw [a4, Bool.or_eq_true] at h
      rcases h with h | h
      · exact h
      · simp only [nestedRegister, Bool.and_eq_true, beq_iff_eq] at h
        exact absurd h.1.1 hn
    have linkedSome : ∀ t : SVDState, LinkedR strict t →
        t.currentField.isSome = true → t.currentRegister.isSome = true := by
      intro t ht h
      obtain ⟨x, hx⟩ := Option.isSome_iff_exists.1 h
      obtain ⟨r, hr, _⟩ := ht x hx
      exact isSome_of_eq_some hr
    have frozen1 : strict = true →
        (svdStep s (Token.StartElement n)).currentField.isSome = true →
        (svdStep s (Token.StartElement n)).pathStack.getLast? = some "register" →
        "name" ∉ c.topNames := by
      intro _ h htop
      rw [a1, getLast?_concat_eq] at htop
      have hn : n = "register" := Option.some.inj htop
      exfalso
      rcases fromF h with h | h
      · exact hctx.ne_register (linkedSome s hlink h) hn
      · rw [hn] at h
        exact absurd h.1 (by decide)
    have early1 : strict = true →
        (svdStep s (Token.StartElement n)).currentRegister.isSome = true →
        (svdStep s (Token.StartElement n)).pathStack.getLast? = some "register" →
        c.earlyNames "field" = true := by
      intro hs _ htop
      rw [a1, getLast?_concat_eq] at htop
      exact (nameOrdered_elem _ _ _ _ _ (hord hs)).1 (Option.some.inj htop)
    rw [svdRun_elem]
    obtain ⟨newc, hc1, hc2, hc3⟩ := ihc (svdStep s (Token.StartElement n)) c1 rc l1 frozen1
      early1 (fun hs => (nameOrdered_elem _ _ _ _ _ (hord hs)).2.1)
    have trigger : ∀ e, (Kind.Field, e) ∈ newc → "field" ∈ c.names := by
      intro e he
      by_contra hfield
      exact no_fields c _ c1 hfield newc hc1 e he
    generalize svdStep s (Token.StartElement n) = s1 at a1 a4 a5 a6 l1 c1 e1 e3 e4 c3 b1 b3 b4 fromR fromF hc1 hc2 hc3 trigger ⊢
    generalize svdRun s1 c.tokens = s2 at e1 e3 e4 c3 b1 b3 b4 hc1 hc2 hc3 ⊢
    obtain ⟨ends, d1, d2, _, d4⟩ := end_sent_cases s2 n
    have hpar : parentElement s2.pathStack = s.pathStack.getLast? := by
      rw [b1, a1, parentElement_concat]
    have triggerS : (s2.currentField.isSome = true ∨ ∃ e, (Kind.Field, e) ∈ newc) →
        s2.currentRegister.isSome = true → n ≠ "register" →
        (s.currentField.isSome = true
          ∨ ((n = "field" ∨ "field" ∈ c.names) ∧ s.currentRegister.isSome = true)) := by
      intro h hcr hn
      have hcrs : s.currentRegister.isSome = true := fromR (b3 ▸ hcr) hn
      rcases h with h | ⟨e, he⟩
      · rcases fromF (b4 ▸ h) with h | h
        · exact Or.inl h
        · exact Or.inr ⟨Or.inl h.1, hcrs⟩
      · exact Or.inr ⟨Or.inr (trigger e he), hcrs⟩
    have closedR : n = "register" → s2.currentField = none := by
      intro hn
      have hcr : s.currentRegister.isSome = false := by
        cases h : s.currentRegister.isSome with
        | false => rfl
        | true => exact absurd hn (hctx.ne_register h)
      have h2 : s2.currentField.isSome = false := by
        cases h : s2.currentField.isSome with
        | false => rfl
        | true =>
          rcases fromF (b4 ▸ h) with h | h
          · rw [linkedSome s hlink h] at hcr; cases hcr
          · rw [h.2] at hcr; cases hcr
      simpa using h2
    have l3 : LinkedR strict (svdStep s2 (Token.EndElement n)) := by
      apply LinkedR_end strict s2 n rn closedR _ hc3
      intro hs h hp
      have hn : n ≠ "register" := by
        intro e
        rw [closedR e] at h
        simp at h
      exact (safe hs (hpar ▸ hp) (triggerS (Or.inl h) (linkedSome s2 hc3 h) hn)).1
    obtain ⟨newr, hr1, hr2, hr3⟩ := ihr (svdStep s2 (Token.EndElement n)) c3 rr l3
      (by
        intro hs h htop
        rw [e4] at h
        rw [e1] at htop
        have := hfrozen hs h htop
        simp only [Forest.topNames, List.mem_cons, not_or] at this
        exact this.2)
      (by
        intro hs h htop
        rw [e3] at h
        rw [e1] at htop
        exact earlyNames_rest _ _ _ _ (hearly hs h htop))
      (fun hs => (nameOrdered_elem _ _ _ _ _ (hord hs)).2.2)
    have carry : ∀ e r, s2.currentRegister = some r →
        RefersTo strict "_register_id" "_register_name" e r → n ≠ "register" →
        (s.currentField.isSome = true
          ∨ ((n = "field" ∨ "field" ∈ c.names) ∧ s.currentRegister.isSome = true)) →
        ∃ q, (svdRun (svdStep s2 (Token.EndElement n)) rest.tokens).currentRegister
            = some q
          ∧ RefersTo strict "_register_id" "_register_name" e q := by
      intro e r hr href hn ht
      obtain ⟨r3, hr3', href3⟩ := end_keeps_reference_register strict s2 n e r hr href hn k1
        (fun hs hpp => (safe hs (hpar ▸ hpp) ht).1)
      obtain ⟨q, hq, hstab⟩ := stable_register rest _ r3 hr3'
        (c3.cR (isSome_of_eq_some hr3'))
      refine ⟨q, hq, RefersTo_of_get _ _ _ _ _ _ href3 ?_ ?_⟩
      · apply hstab
        intro _ hmem
        exact rr "_id" (by simp [syntheticKeys]) (topNames_subset rest _ hmem)
      · intro hs
        apply hstab
        intro htop
        rw [e1] at htop
        exact (safe hs htop ht).2
    refine ⟨newc ++ (ends ++ newr), ?_, ?_, hr3⟩
    · rw [hr1, d1, hc1, a6]
      simp only [List.append_assoc]
    · intro e he
      rcases List.mem_append.1 he with he | he
      · rcases hc2 e he with ⟨r, hsub, href⟩ | ⟨r, hr, href⟩
        · exact Or.inl ⟨r, hsub.trans (List.sublist_append_left _ _), href⟩
        · by_cases hn : n = "register"
          · refine Or.inl ⟨r, ?_, href⟩
            exact sublist_pair _ _ _ _ he (List.mem_append_left _ (d4 r hr hn))
          · exact Or.inr (carry e r hr href hn
              (triggerS (Or.inr ⟨e, he⟩) (isSome_of_eq_some hr) hn))
      · rcases List.mem_append.1 he with he | he
        · rcases d2 _ e he with ⟨h, _, _⟩ | ⟨h, _, _⟩ | ⟨_, hn, x0, hx0, hx⟩
          · cases h
          · cases h
          · obtain ⟨r, hr, href⟩ := hc3 x0 hx0
            have hnr : n ≠ "register" := by rw [hn]; decide
            have href2 : RefersTo strict "_register_id" "_register_name" e r := by
              rcases hx with h | h
              · rw [h]; exact href
              · rw [h]
                exact RefersTo_set_child _ _ _ _ _ _ _ href (rn _ (by simp [syntheticKeys]))
                  (rn _ (by simp [syntheticKeys]))
            exact Or.inr (carry e r hr href2 hnr
              (triggerS (Or.inl (isSome_of_eq_some hx0)) (isSome_of_eq_some hr) hnr))
        · rcases hr2 e he with ⟨r, hsub, href⟩ | h
          · refine Or.inl ⟨r, ?_, href⟩
            exact (hsub.trans (List.sublist_append_right _ _)).trans
              (List.sublist_append_right _ _)
          · exact Or.inr h
  | text t rest ih =>
    simp only [Forest.tokens, svdRun_cons]
    exact ih (svdStep s (Token.CharData t)) hctx.text hres hlink hfrozen hearly hord
  | other rest ih =>
    simp only [Forest.tokens, svdRun_cons]
    exact ih (svdStep s Token.Other) hctx.other hres hlink hfrozen hearly hord

theorem Ctx_init (f : Forest) (hv : ValidSVD f) : Ctx SVDState.init f :=
  ⟨hv.1, hv.2.1, hv.2.2.1, fun h => by simp [SVDState.init] at h,
    fun h => by simp [SVDState.init] at h, fun h => by simp [SVDState.init] at h⟩

theorem final_slots_closed (f : Forest) (hv : ValidSVD f) :
    (svdRun SVDState.init f.tokens).currentPeripheral = none
    ∧ (svdRun SVDState.init f.tokens).currentRegister = none := by
  obtain ⟨_, h2, h3, _⟩ := (Ctx_init f hv).frames
  constructor
  · simpa [SVDState.init] using h2
  · simpa [SVDState.init] using h3

/-- In a valid document every register and field record refers to a peripheral
record sent after it. -/
theorem peripheral_references (strict : Bool) (f : Forest) (hv : ValidSVD f)
    (hord : strict = true → f.nameOrdered "peripheral" "register" = true) :
    ∀ k e, (k, e) ∈ (ParseSVD (.ok { tokens := f.tokens, err := none })).sent →
      k ≠ Kind.Peripheral →
      ∃ p, [(k, e), (Kind.Peripheral, p)].Sublist
            (ParseSVD (.ok { tokens := f.tokens, err := none })).sent
        ∧ RefersTo strict "_peripheral_id" "_peripheral_name" e p := by
  obtain ⟨new, h1, h2, _⟩ := linked_peripheral strict f SVDState.init (Ctx_init f hv)
    hv.2.2.2
    ⟨fun r hr => by simp [SVDState.init] at hr, fun x hx => by simp [SVDState.init] at hx⟩
    (fun _ h => by simp [SVDState.init] at h)
    (fun _ h => by simp [SVDState.init] at h) hord
  rw [ParseSVD_sent]
  have hnew : (svdRun SVDState.init f.tokens).sent = new := by
    rw [h1]; simp [SVDState.init]
  rw [(final_slots_closed f hv).1] at h2
  rw [hnew]
  intro k e he hk
  rcases h2 k e he hk with h | ⟨p, hp, _⟩
  · exact h
  · cases hp

/-- In a valid document every field record refers to a register record sent after
it. -/
theorem register_references (strict : Bool) (f : Forest) (hv : ValidSVD f)
    (hord : strict = true → f.nameOrdered "register" "field" = true) :
    ∀ e, (Kind.Field, e) ∈ (ParseSVD (.ok { tokens := f.tokens, err := none })).sent →
      ∃ r, [(Kind.Field, e), (Kind.Register, r)].Sublist
            (ParseSVD (.ok { tokens := f.tokens, err := none })).sent
        ∧ RefersTo strict "_register_id" "_register_name" e r := by
  obtain ⟨new, h1, h2, _⟩ := linked_register strict f SVDState.init (Ctx_init f hv)
    hv.2.2.2
    (fun x hx => by simp [SVDState.init] at hx)
    (fun _ h => by simp [SVDState.init] at h)
    (fun _ h => by simp [SVDState.init] at h) hord
  rw [ParseSVD_sent]
  have hnew : (svdRun SVDState.init f.tokens).sent = new := by
    rw [h1]; simp [SVDState.init]
  rw [(final_slots_closed f hv).2] at h2
  rw [hnew]
  intro e he
  rcases h2 e he with h | ⟨r, hr, _⟩
  · exact h
  · cases hr

theorem idChildFree_of_no_end (ts : List Token) (path : List String)
    (h : Token.EndElement "_id" ∉ ts) : idChildFree path ts = true := by
  induction ts generalizing path with
  | nil => rfl
  | cons t ts ih =>
    have h2 : Token.EndElement "_id" ∉ ts := fun e => h (List.mem_cons_of_mem _ e)
    cases t with
    | StartElement n => simp only [idChildFree]; exact ih _ h2
    | EndElement n =>
      have hn : n ≠ "_id" := fun e => h (by rw [e]; exact List.mem_cons_self _ _)
      simp [idChildFree, hn, ih _ h2]
    | CharData c => simp only [idChildFree]; exact ih _ h2
    | Other => simp only [idChildFree]; exact ih _ h2

theorem tokens_end_mem (f : Forest) (k : String) (h : Token.EndElement k ∈ f.tokens) :
    k ∈ f.names := by
  induction f with
  | nil => simp [Forest.tokens] at h
  | elem n c rest ihc ihr =>
    simp only [Forest.tokens, List.mem_cons, List.mem_append, Token.EndElement.injEq] at h
    simp only [Forest.names, List.mem_cons, List.mem_append]
    rcases h with h | h | h | h
    · cases h
    · exact Or.inr (Or.inl (ihc h))
    · exact Or.inl h
    · exact Or.inr (Or.inr (ihr h))
  | text t rest ih =>
    simp only [Forest.tokens, List.mem_cons] at h
    rcases h with h | h
    · cases h
    · exact ih h
  | other rest ih =>
    simp only [Forest.tokens, List.mem_cons] at h
    rcases h with h | h
    · cases h
    · exact ih h

theorem formatID_ne_empty (k : Kind) (n : Nat) : formatID k.idPrefix n ≠ "" := by
  intro h
  have h1 := congrArg String.data h
  cases k <;>
    simp [formatID, Kind.idPrefix, peripheralIDPrefix, registerIDPrefix, fieldIDPrefix] at h1

theorem valid_idInv (f : Forest) (hv : ValidSVD f) :
    SvdIdInv (svdRun SVDState.init f.tokens) := by
  apply SvdIdInv_run _ _ _ SvdIdInv_init
  apply idChildFree_of_no_end
  intro h
  exact hv.2.2.2 "_id" (by simp [syntheticKeys]) (tokens_end_mem f _ h)

/-- In a valid document the `_id` of a peripheral record is not empty, and two
peripheral records with the same `_id` are the same record. -/
theorem peripheral_ids (f : Forest) (hv : ValidSVD f) :
    (∀ p, (Kind.Peripheral, p) ∈ (ParseSVD (.ok { tokens := f.tokens, err := none })).sent →
      Record.get p "_id" ≠ "")
    ∧ (∀ p q, (Kind.Peripheral, p) ∈ (ParseSVD (.ok { tokens := f.tokens, err := none })).sent →
      (Kind.Peripheral, q) ∈ (ParseSVD (.ok { tokens := f.tokens, err := none })).sent →
      Record.get p "_id" = Record.get q "_id" → p = q) := by
  rw [ParseSVD_sent]
  obtain ⟨hP, _, _⟩ := valid_idInv f hv
  have hmem : ∀ p, (Kind.Peripheral, p) ∈ (svdRun SVDState.init f.tokens).sent →
      p ∈ chanOf Kind.Peripheral (svdRun SVDState.init f.tokens).sent := by
    intro p hp
    simp only [chanOf, List.mem_map, List.mem_filter]
    exact ⟨(Kind.Peripheral, p), ⟨hp, by simp⟩, rfl⟩
  have hnd := IdInv_nodup _ _ _ _ hP
  obtain ⟨ks, h1, _⟩ := hP
  constructor
  · intro p hp
    have : Record.get p "_id" ∈ idsOf Kind.Peripheral (svdRun SVDState.init f.tokens).sent :=
      List.mem_map.2 ⟨p, hmem p hp, rfl⟩
    rw [h1] at this
    obtain ⟨k, _, hk⟩ := List.mem_map.1 this
    rw [← hk]
    exact formatID_ne_empty Kind.Peripheral k
  · intro p q hp hq hpq
    exact List.inj_on_of_nodup_map hnd (hmem p hp) (hmem q hq) hpq

/-- In a valid document two register records with the same `_id` are the same
record. -/
theorem register_ids (f : Forest) (hv : ValidSVD f) :
    ∀ p q, (Kind.Register, p) ∈ (ParseSVD (.ok { tokens := f.tokens, err := none })).sent →
      (Kind.Register, q) ∈ (ParseSVD (.ok { tokens := f.tokens, err := none })).sent →
      Record.get p "_id" = Record.get q "_id" → p = q := by
  rw [ParseSVD_sent]
  obtain ⟨_, hR, _⟩ := valid_idInv f hv
  have hmem : ∀ p, (Kind.Register, p) ∈ (svdRun SVDState.init f.tokens).sent →
      p ∈ chanOf Kind.Register (svdRun SVDState.init f.tokens).sent := by
    intro p hp
    simp only [chanOf, List.mem_map, List.mem_filter]
    exact ⟨(Kind.Register, p), ⟨hp, by simp⟩, rfl⟩
  have hnd := IdInv_nodup _ _ _ _ hR
  intro p q hp hq hpq
  exact List.inj_on_of_nodup_map hnd (hmem p hp) (hmem q hq) hpq

set_option maxRecDepth 8000 in
/-- The records sent for the sample document, by kind and `_id`. -/
theorem svdDoc_sent_ids :
    (ParseSVD (.ok { tokens := svdDoc.tokens, err := none })).sent.map
        (fun e => (e.1, Record.get e.2 "_id"))
      = [(Kind.Field, "F0000"), (Kind.Register, "R0000"), (Kind.Register, "R0001"),
         (Kind.Peripheral, "P0000")] := by
  rfl

set_option maxRecDepth 8000 in
/-- The kinds of the records sent for the sample document. -/
theorem svdDoc_sent_kinds :
    (ParseSVD (.ok { tokens := svdDoc.tokens, err := none })).sent.map Prod.fst
      = [Kind.Field, Kind.Register, Kind.Register, Kind.Peripheral] := by
  rfl

/-- The records sent for the document whose peripheral name comes last. -/
theorem lateNameDoc_sent :
    (ParseSVD (.ok { tokens := lateNameDoc.tokens, err := none })).sent
      = [(Kind.Register, [("_id", "R0000"), ("_peripheral_id", "P0000"),
            ("_peripheral_name", ""), ("name", "CR")]),
         (Kind.Peripheral, [("_id", "P0000"), ("name", "TIM")])] := by
  rfl

/-- C7, as stated, fails in its last part: a field is sent at its end tag, before the
end tags of its register and peripheral. The sample document is valid, its
records are sent in the order field `F0000`, registers `R0000`, `R0001`,
peripheral `P0000`, and no register record is sent before the field record. -/
theorem C7_order_counterexample :
    ValidSVD svdDoc
    ∧ (ParseSVD (.ok { tokens := svdDoc.tokens, err := none })).sent.map
        (fun e => (e.1, Record.get e.2 "_id"))
      = [(Kind.Field, "F0000"), (Kind.Register, "R0000"), (Kind.Register, "R0001"),
         (Kind.Peripheral, "P0000")]
    ∧ ¬ ∃ x r, [(Kind.Register, r), (Kind.Field, x)].Sublist
          (ParseSVD (.ok { tokens := svdDoc.tokens, err := none })).sent := by
  refine ⟨by decide, svdDoc_sent_ids, ?_⟩
  rintro ⟨x, r, h⟩
  have h2 := h.map Prod.fst
  rw [svdDoc_sent_kinds] at h2
  revert h2
  simp only [List.map_cons, List.map_nil]
  decide

/-- C7, amended. For every valid SVD document, every register record sent by
`ParseSVD` has a non-empty `_peripheral_id` equal to the `_id` of a peripheral
record that is sent (after it), and every field record has a `_register_id` and a
`_peripheral_id` equal to the `_id` of a register record and of a peripheral
record that are sent after that field record. -/
theorem C7_references (f : Forest) (hv : ValidSVD f) :
    (∀ r, (Kind.Register, r) ∈ (ParseSVD (.ok { tokens := f.tokens, err := none })).sent →
        Record.get r "_peripheral_id" ≠ ""
        ∧ ∃ p, [(Kind.Register, r), (Kind.Peripheral, p)].Sublist
              (ParseSVD (.ok { tokens := f.tokens, err := none })).sent
          ∧ Record.get p "_id" = Record.get r "_peripheral_id")
    ∧ (∀ x, (Kind.Field, x) ∈ (ParseSVD (.ok { tokens := f.tokens, err := none })).sent →
        (∃ r, [(Kind.Field, x), (Kind.Register, r)].Sublist
              (ParseSVD (.ok { tokens := f.tokens, err := none })).sent
          ∧ Record.get r "_id" = Record.get x "_register_id")
        ∧ (∃ p, [(Kind.Field, x), (Kind.Peripheral, p)].Sublist
              (ParseSVD (.ok { tokens := f.tokens, err := none })).sent
          ∧ Record.get p "_id" = Record.get x "_peripheral_id")) := by
  have hP := peripheral_references false f hv (fun h => by cases h)
  have hR := register_references false f hv (fun h => by cases h)
  have hid := (peripheral_ids f hv).1
  refine ⟨?_, ?_⟩
  · intro r hr
    obtain ⟨p, hsub, href⟩ := hP Kind.Register r hr (by decide)
    have hp : (Kind.Peripheral, p)
        ∈ (ParseSVD (.ok { tokens := f.tokens, err := none })).sent :=
      hsub.subset (by simp)
    exact ⟨href.1 ▸ hid p hp, p, hsub, href.1⟩
  · intro x hx
    obtain ⟨r, hsub, href⟩ := hR x hx
    obtain ⟨p, hsub2, href2⟩ := hP Kind.Field x hx (by decide)
    exact ⟨⟨r, hsub, href.1⟩, ⟨p, hsub2, href2.1⟩⟩

/-- A concrete instance of C7: the sample document. -/
theorem C7_references_witness :
    (∀ r, (Kind.Register, r) ∈ (ParseSVD (.ok { tokens := svdDoc.tokens, err := none })).sent →
        Record.get r "_peripheral_id" ≠ ""
        ∧ ∃ p, [(Kind.Register, r), (Kind.Peripheral, p)].Sublist
              (ParseSVD (.ok { tokens := svdDoc.tokens, err := none })).sent
          ∧ Record.get p "_id" = Record.get r "_peripheral_id")
    ∧ (∀ x, (Kind.Field, x) ∈ (ParseSVD (.ok { tokens := svdDoc.tokens, err := none })).sent →
        (∃ r, [(Kind.Field, x), (Kind.Register, r)].Sublist
              (ParseSVD (.ok { tokens := svdDoc.tokens, err := none })).sent
          ∧ Record.get r "_id" = Record.get x "_register_id")
        ∧ (∃ p, [(Kind.Field, x), (Kind.Peripheral, p)].Sublist
              (ParseSVD (.ok { tokens := svdDoc.tokens, err := none })).sent
          ∧ Record.get p "_id" = Record.get x "_peripheral_id")) :=
  C7_references svdDoc (by decide)

/-- C10, as stated, fails when the name comes after the container: in
`<peripheral><registers><register>...</register></registers><name>TIM</name></peripheral>`
the register is opened before the peripheral has a name, so the register record
has the empty `_peripheral_name` while its peripheral record has the name
"TIM". -/
theorem C10_late_name_counterexample :
    ValidSVD lateNameDoc
    ∧ (ParseSVD (.ok { tokens := lateNameDoc.tokens, err := none })).sent
      = [(Kind.Register, [("_id", "R0000"), ("_peripheral_id", "P0000"),
            ("_peripheral_name", ""), ("name", "CR")]),
         (Kind.Peripheral, [("_id", "P0000"), ("name", "TIM")])]
    ∧ Record.get [("_id", "R0000"), ("_peripheral_id", "P0000"), ("_peripheral_name", ""),
          ("name", "CR")] "_peripheral_name"
        ≠ Record.get [("_id", "P0000"), ("name", "TIM")] "name" := by
  refine ⟨by decide, lateNameDoc_sent, by decide⟩

/-- C10, amended. For every valid SVD document in which the names come first (in
every peripheral the `name` children end before its first register starts, and
in every register before its first field starts): for every register record, a
peripheral record with the `_id` of its `_peripheral_id` is sent, and the
`_peripheral_name` of the register is the `name` of that peripheral record; for
every field record, a register record and a peripheral record with the `_id`s of
its `_register_id` and `_peripheral_id` are sent, and its `_register_name` and
`_peripheral_name` are their `name`s. An absent `name` reads as the empty
string. -/
theorem C10_parent_names (f : Forest) (hv : ValidSVD f) (hn : NamesFirst f) :
    (∀ r, (Kind.Register, r) ∈ (ParseSVD (.ok { tokens := f.tokens, err := none })).sent →
      (∃ p, (Kind.Peripheral, p) ∈ (ParseSVD (.ok { tokens := f.tokens, err := none })).sent
        ∧ Record.get p "_id" = Record.get r "_peripheral_id")
      ∧ ∀ p, (Kind.Peripheral, p) ∈ (ParseSVD (.ok { tokens := f.tokens, err := none })).sent →
          Record.get p "_id" = Record.get r "_peripheral_id" →
          Record.get r "_peripheral_name" = Record.get p "name")
    ∧ (∀ x, (Kind.Field, x) ∈ (ParseSVD (.ok { tokens := f.tokens, err := none })).sent →
      ((∃ r, (Kind.Register, r) ∈ (ParseSVD (.ok { tokens := f.tokens, err := none })).sent
        ∧ Record.get r "_id" = Record.get x "_register_id")
      ∧ ∀ r, (Kind.Register, r) ∈ (ParseSVD (.ok { tokens := f.tokens, err := none })).sent →
          Record.get r "_id" = Record.get x "_register_id" →
          Record.get x "_register_name" = Record.get r "name")
      ∧ ((∃ p, (Kind.Peripheral, p) ∈ (ParseSVD (.ok { tokens := f.tokens, err := none })).sent
        ∧ Record.get p "_id" = Record.get x "_peripheral_id")
      ∧ ∀ p, (Kind.Peripheral, p) ∈ (ParseSVD (.ok { tokens := f.tokens, err := none })).sent →
          Record.get p "_id" = Record.get x "_peripheral_id" →
          Record.get x "_peripheral_name" = Record.get p "name")) := by
  have hP := peripheral_references true f hv (fun _ => hn.1)
  have hR := register_references true f hv (fun _ => hn.2)
  have uP := (peripheral_ids f hv).2
  have uR := register_ids f hv
  have viaP : ∀ k e, (k, e) ∈ (ParseSVD (.ok { tokens := f.tokens, err := none })).sent →
      k ≠ Kind.Peripheral →
      (∃ p, (Kind.Peripheral, p) ∈ (ParseSVD (.ok { tokens := f.tokens, err := none })).sent
        ∧ Record.get p "_id" = Record.get e "_peripheral_id")
      ∧ ∀ p, (Kind.Peripheral, p) ∈ (ParseSVD (.ok { tokens := f.tokens, err := none })).sent →
          Record.get p "_id" = Record.get e "_peripheral_id" →
          Record.get e "_peripheral_name" = Record.get p "name" := by
    intro k e he hk
    obtain ⟨p, hsub, href⟩ := hP k e he hk
    have hp : (Kind.Peripheral, p)
        ∈ (ParseSVD (.ok { tokens := f.tokens, err := none })).sent :=
      hsub.subset (by simp)
    refine ⟨⟨p, hp, href.1⟩, ?_⟩
    intro q hq hqe
    have : q = p := uP q p hq hp (hqe.trans href.1.symm)
    rw [this]
    exact (href.2 rfl).symm
  refine ⟨fun r hr => viaP Kind.Register r hr (by decide), ?_⟩
  intro x hx
  refine ⟨?_, viaP Kind.Field x hx (by decide)⟩
  obtain ⟨r, hsub, href⟩ := hR x hx
  have hr : (Kind.Register, r)
      ∈ (ParseSVD (.ok { tokens := f.tokens, err := none })).sent :=
    hsub.subset (by simp)
  refine ⟨⟨r, hr, href.1⟩, ?_⟩
  intro q hq hqe
  have : q = r := uR q r hq hr (hqe.trans href.1.symm)
  rw [this]
  exact (href.2 rfl).symm

/-- A concrete instance of C10: the sample document, whose names come first. -/
theorem C10_parent_names_witness :
    (ValidSVD svdDoc ∧ NamesFirst svdDoc)
    ∧ (∀ r, (Kind.Register, r) ∈ (ParseSVD (.ok { tokens := svdDoc.tokens, err := none })).sent →
      (∃ p, (Kind.Peripheral, p) ∈ (ParseSVD (.ok { tokens := svdDoc.tokens, err := none })).sent
        ∧ Record.get p "_id" = Record.get r "_peripheral_id")
      ∧ ∀ p, (Kind.Peripheral, p) ∈ (ParseSVD (.ok { tokens := svdDoc.tokens, err := none })).sent →
          Record.get p "_id" = Record.get r "_peripheral_id" →
          Record.get r "_peripheral_name" = Record.get p "name")
    ∧ (∀ x, (Kind.Field, x) ∈ (ParseSVD (.ok { tokens := svdDoc.tokens, err := none })).sent →
      ((∃ r, (Kind.Register, r) ∈ (ParseSVD (.ok { tokens := svdDoc.tokens, err := none })).sent
        ∧ Record.get r "_id" = Record.get x "_register_id")
      ∧ ∀ r, (Kind.Register, r) ∈ (ParseSVD (.ok { tokens := svdDoc.tokens, err := none })).sent →
          Record.get r "_id" = Record.get x "_register_id" →
          Record.get x "_register_name" = Record.get r "name")
      ∧ ((∃ p, (Kind.Peripheral, p) ∈ (ParseSVD (.ok { tokens := svdDoc.tokens, err := none })).sent
        ∧ Record.get p "_id" = Record.get x "_peripheral_id")
      ∧ ∀ p, (Kind.Peripheral, p) ∈ (ParseSVD (.ok { tokens := svdDoc.tokens, err := none })).sent →
          Record.get p "_id" = Record.get x "_peripheral_id" →
          Record.get x "_peripheral_name" = Record.get p "name")) :=
  ⟨by decide, C10_parent_names svdDoc (by decide) (by decide)⟩

/-! ## The writer -/

theorem GoMap.set_lookup_self {α : Type} (m : GoMap α) (k : String) (v : α)
    (h : m.lookup k = some v) : GoMap.set m k v = m := by
  induction m with
  | nil => simp [GoMap.lookup] at h
  | cons e rest ih =>
    obtain ⟨a, b⟩ := e
    by_cases h2 : a = k
    · simp [GoMap.lookup, h2] at h
      simp [GoMap.set, h2, h]
    · simp [GoMap.lookup, h2] at h
      simp [GoMap.set, h2, ih h]

/-- The rendered row has one cell per header. -/
theorem renderRow_length (headers : List String) (r : Record) :
    (renderRow headers r).length = headers.length := by
  simp [renderRow]

/-- The cell under a header is the value of the record at that header, the empty
string when the key is missing. -/
theorem renderRow_get (headers : List String) (r : Record) (i : Nat) (h : i < headers.length) :
    (renderRow headers r)[i]? = some (Record.get r (headers.get ⟨i, h⟩)) := by
  simp only [renderRow, List.getElem?_map, Record.get]
  rw [List.getElem?_eq_getElem h]
  simp only [Option.map_some', List.get_eq_getElem]
  cases GoMap.lookup r headers[i] <;> rfl

theorem GoMap.lookup_filter {α : Type} (m : GoMap α) (p : String → Bool) (k : String)
    (hk : p k = true) : GoMap.lookup (m.filter (fun kv => p kv.1)) k = GoMap.lookup m k := by
  induction m with
  | nil => rfl
  | cons e rest ih =>
    obtain ⟨a, b⟩ := e
    by_cases h2 : a = k
    · subst h2
      simp [List.filter, hk, GoMap.lookup]
    · by_cases h3 : p a = true
      · simp [List.filter, h3, GoMap.lookup, h2, ih]
      · simp [List.filter, h3, GoMap.lookup, h2, ih]

/-- The rendered row depends only on the values at the headers. -/
theorem renderRow_congr (headers : List String) (r r' : Record)
    (h : ∀ k ∈ headers, GoMap.lookup r k = GoMap.lookup r' k) :
    renderRow headers r = renderRow headers r' := by
  simp only [renderRow]
  apply List.map_congr_left
  intro k hk
  rw [h k hk]

/-- With a backend that accepts every row of the sheet, the loop of `flushSheet` hands
over the rendered records at consecutive row indices. -/
theorem flushRows_accept (be : Backend) (sheetName : String)
    (hacc : ∀ tr i c, be.setRow sheetName tr i c = none) :
    ∀ (buf : List Record) (sheet : SheetWriter),
      flushRows be sheetName buf sheet
        = ({ sheet with
             streamWriter :=
               { sheet.streamWriter with
                 rows := sheet.streamWriter.rows
                   ++ (buf.map (renderRow sheet.headers)).enumFrom sheet.rowIndex },
             rowIndex := sheet.rowIndex + buf.length }, none) := by
  intro buf
  induction buf with
  | nil => intro sheet; simp [flushRows]
  | cons r rest ih =>
    intro sheet
    simp only [flushRows, hacc]
    rw [ih]
    simp [List.enumFrom_cons, Nat.add_comm, Nat.add_left_comm, Nat.add_assoc]

/-- A flush of one sheet leaves the other sheets as they are. -/
theorem flushSheet_other (be : Backend) (ew : ExcelWriter) (n sheetName : String)
    (h : n ≠ sheetName) :
    (flushSheet be ew n).1.currentSheets.lookup sheetName
      = ew.currentSheets.lookup sheetName := by
  unfold flushSheet
  cases hl : ew.currentSheets.lookup n with
  | none => rfl
  | some sheet =>
    dsimp only
    split_ifs
    · rfl
    · cases hf : flushRows be n sheet.rowBuffer sheet with
      | mk sheet1 err =>
        cases err <;> simp [GoMap.lookup_set_ne _ _ _ _ h]

/-- A flush keeps the sheets of the writer. -/
theorem flushSheet_isSome (be : Backend) (ew : ExcelWriter) (n sheetName : String) :
    ((flushSheet be ew n).1.currentSheets.lookup sheetName).isSome
      = (ew.currentSheets.lookup sheetName).isSome := by
  by_cases h : n = sheetName
  · subst h
    unfold flushSheet
    cases hl : ew.currentSheets.lookup n with
    | none => simp [hl]
    | some sheet =>
      dsimp only
      split_ifs
      · simp [hl]
      · cases hf : flushRows be n sheet.rowBuffer sheet with
        | mk sheet1 err =>
          cases err <;> simp [GoMap.lookup_set_self]
  · rw [flushSheet_other be ew n sheetName h]

/-- With a backend that accepts every row of the sheet, `flushSheet` returns no error and
hands over the buffered records. -/
theorem flushSheet_at (be : Backend) (ew : ExcelWriter) (sheetName : String)
    (hacc : ∀ tr i c, be.setRow sheetName tr i c = none)
    (headers : List String) (b k : Nat) (tr : List (Nat × List String))
    (done pending : List Record) (h : SheetAt ew sheetName headers b k tr done pending) :
    (flushSheet be ew sheetName).2 = none
      ∧ SheetAt (flushSheet be ew sheetName).1 sheetName headers b k tr (done ++ pending) [] := by
  obtain ⟨sheet, hl, hH, hb, hrows, hidx, hbuf⟩ := h
  unfold flushSheet
  rw [hl]
  dsimp only
  split_ifs with h0
  · have hp : pending = [] := by
      rw [← hbuf]; exact List.eq_nil_of_length_eq_zero h0
    subst hp
    exact ⟨rfl, sheet, hl, hH, hb, by simpa using hrows, by simpa using hidx, hbuf⟩
  · rw [flushRows_accept be sheetName hacc]
    dsimp only
    refine ⟨rfl, _, GoMap.lookup_set_self _ _ _, hH, hb, ?_, ?_, rfl⟩
    · dsimp only
      rw [hrows, hbuf, hidx, hH, List.map_append, List.enumFrom_append, List.length_map,
        List.append_assoc]
    · dsimp only
      rw [hidx, hbuf, List.length_append, Nat.add_assoc]

/-- A `WriteRow` to one sheet leaves the other sheets as they are. -/
theorem WriteRow_other (be : Backend) (ew : ExcelWriter) (n sheetName : String) (data : Record)
    (h : n ≠ sheetName) :
    (WriteRow be ew n data).1.currentSheets.lookup sheetName
      = ew.currentSheets.lookup sheetName := by
  unfold WriteRow
  cases hl : ew.currentSheets.lookup n with
  | none => rfl
  | some sheet =>
    dsimp only
    split_ifs
    · rw [flushSheet_other be _ n sheetName h]
      exact GoMap.lookup_set_ne _ _ _ _ h
    · exact GoMap.lookup_set_ne _ _ _ _ h

/-- A `WriteRow` keeps the sheets of the writer. -/
theorem WriteRow_isSome (be : Backend) (ew : ExcelWriter) (n sheetName : String)
    (data : Record) :
    ((WriteRow be ew n data).1.currentSheets.lookup sheetName).isSome
      = (ew.currentSheets.lookup sheetName).isSome := by
  by_cases h : n = sheetName
  · subst h
    unfold WriteRow
    cases hl : ew.currentSheets.lookup n with
    | none => simp [hl]
    | some sheet =>
      dsimp only
      split_ifs
      · rw [flushSheet_isSome]
        simp [GoMap.lookup_set_self]
      · simp [GoMap.lookup_set_self]
  · rw [WriteRow_other be ew n sheetName data h]

/-- With a backend that accepts every row of the sheet, `WriteRow` returns no error; the
record joins the buffer, and the buffer is handed over when it reaches the batch
size. -/
theorem WriteRow_at (be : Backend) (ew : ExcelWriter) (sheetName : String)
    (hacc : ∀ tr i c, be.setRow sheetName tr i c = none)
    (headers : List String) (b k : Nat) (hb : 1 ≤ b) (tr : List (Nat × List String))
    (done pending : List Record) (data : Record)
    (h : SheetAt ew sheetName headers b k tr done pending) :
    (WriteRow be ew sheetName data).2 = none
      ∧ ∃ done1 pending1, done1 ++ pending1 = done ++ pending ++ [data]
          ∧ pending1.length < b
          ∧ SheetAt (WriteRow be ew sheetName data).1 sheetName headers b k tr done1 pending1 := by
  have h' := h
  obtain ⟨sheet, hl, hH, hbs, hrows, hidx, hbuf⟩ := h
  have hat : SheetAt
      { ew with
        currentSheets :=
          ew.currentSheets.set sheetName ({ sheet with rowBuffer := sheet.rowBuffer ++ [data] }) }
      sheetName headers b k tr done (pending ++ [data]) :=
    ⟨_, GoMap.lookup_set_self _ _ _, hH, hbs, hrows, hidx, by rw [← hbuf]⟩
  unfold WriteRow
  rw [hl]
  dsimp only
  split_ifs with hfull
  · obtain ⟨he, hs⟩ := flushSheet_at be _ sheetName hacc headers b k tr done _ hat
    refine ⟨he, done ++ (pending ++ [data]), [], ?_, ?_, hs⟩
    · simp
    · simpa using hb
  · refine ⟨rfl, done, pending ++ [data], by simp, ?_, hat⟩
    rw [hbuf, hbs] at hfull
    omega

/-- The sequence of calls, seen from one sheet: the records passed to it are handed
over or pending, and fewer than the batch size are pending. -/
theorem writeCalls_at (be : Backend) (sheetName : String)
    (hacc : ∀ tr i c, be.setRow sheetName tr i c = none)
    (headers : List String) (b k : Nat) (hb : 1 ≤ b) (tr : List (Nat × List String)) :
    ∀ (calls : List (String × Record)) (ew : ExcelWriter) (done pending : List Record),
      SheetAt ew sheetName headers b k tr done pending → pending.length < b →
      ∃ done1 pending1, done1 ++ pending1 = done ++ pending ++ recordsFor sheetName calls
        ∧ pending1.length < b
        ∧ SheetAt (writeCalls be calls ew) sheetName headers b k tr done1 pending1 := by
  intro calls
  induction calls with
  | nil =>
    intro ew done pending h hlen
    exact ⟨done, pending, by simp [recordsFor], hlen, h⟩
  | cons c rest ih =>
    intro ew done pending h hlen
    obtain ⟨n, data⟩ := c
    by_cases hn : n = sheetName
    · subst hn
      obtain ⟨-, d1, p1, e1, l1, s1⟩ :=
        WriteRow_at be ew n hacc headers b k hb tr done pending data h
      obtain ⟨d2, p2, e2, l2, s2⟩ := ih _ d1 p1 s1 l1
      refine ⟨d2, p2, ?_, l2, s2⟩
      rw [e2, e1]
      simp [recordsFor]
    · have hat : SheetAt (WriteRow be ew n data).1 sheetName headers b k tr done pending := by
        obtain ⟨sheet, hl, rest'⟩ := h
        exact ⟨sheet, by rw [WriteRow_other be ew n sheetName data hn]; exact hl, rest'⟩
      obtain ⟨d2, p2, e2, l2, s2⟩ := ih _ done pending hat hlen
      refine ⟨d2, p2, ?_, l2, s2⟩
      rw [e2]
      simp [recordsFor, hn]

/-- With a backend that accepts every row, the first loop of `Close` returns no error,
and the sheets it visits have their buffers handed over. -/
theorem flushAll_at (be : Backend) (hacc : ∀ n tr i c, be.setRow n tr i c = none)
    (sheetName : String) (headers : List String) (b k : Nat) (tr : List (Nat × List String)) :
    ∀ (names : List String) (ew : ExcelWriter) (done pending : List Record),
      (∀ n ∈ names, (ew.currentSheets.lookup n).isSome = true) →
      SheetAt ew sheetName headers b k tr done pending →
      (flushAll be names ew).2 = none
        ∧ (sheetName ∈ names →
            SheetAt (flushAll be names ew).1 sheetName headers b k tr (done ++ pending) [])
        ∧ (sheetName ∉ names →
            SheetAt (flushAll be names ew).1 sheetName headers b k tr done pending) := by
  intro names
  induction names with
  | nil =>
    intro ew done pending _ h
    exact ⟨rfl, by simp, fun _ => h⟩
  | cons n rest ih =>
    intro ew done pending hex h
    have hrest : ∀ m ∈ rest, ((flushSheet be ew n).1.currentSheets.lookup m).isSome = true := by
      intro m hm
      rw [flushSheet_isSome]
      exact hex m (List.mem_cons_of_mem _ hm)
    obtain ⟨sheetN, hsn⟩ := Option.isSome_iff_exists.1 (hex n (List.mem_cons_self _ _))
    have hatN : SheetAt ew n sheetN.headers sheetN.batchSize sheetN.rowIndex
        sheetN.streamWriter.rows [] sheetN.rowBuffer :=
      ⟨sheetN, hsn, rfl, rfl, by simp, by simp, rfl⟩
    obtain ⟨he, -⟩ := flushSheet_at be ew n (hacc n) _ _ _ _ _ _ hatN
    have hfa : flushAll be (n :: rest) ew = flushAll be rest (flushSheet be ew n).1 := by
      cases hf : flushSheet be ew n with
      | mk ew1 err =>
        rw [hf] at he
        dsimp only at he
        subst he
        simp [flushAll, hf]
    rw [hfa]
    by_cases hn : n = sheetName
    · subst hn
      obtain ⟨-, hs⟩ := flushSheet_at be ew n (hacc n) headers b k tr done pending h
      obtain ⟨he2, hin, hout⟩ := ih _ (done ++ pending) [] hrest hs
      refine ⟨he2, fun _ => ?_, fun hnot => absurd (List.mem_cons_self _ _) hnot⟩
      by_cases hr : n ∈ rest
      · simpa using hin hr
      · exact hout hr
    · have hat : SheetAt (flushSheet be ew n).1 sheetName headers b k tr done pending := by
        obtain ⟨sheet, hl, rest'⟩ := h
        exact ⟨sheet, by rw [flushSheet_other be ew n sheetName hn]; exact hl, rest'⟩
      obtain ⟨he2, hin, hout⟩ := ih _ done pending hrest hat
      refine ⟨he2, ?_, ?_⟩
      · intro hmem
        rcases List.mem_cons.1 hmem with h1 | h1
        · exact absurd h1.symm hn
        · exact hin h1
      · intro hnot
        exact hout (fun h1 => hnot (List.mem_cons_of_mem _ h1))

/-- The second loop of `Close` changes no sheet but for the flag of its stream writer. -/
theorem flushStreams_at (be : Backend) (sheetName : String) (headers : List String) (b k : Nat)
    (tr : List (Nat × List String)) (done pending : List Record) :
    ∀ (names : List String) (ew : ExcelWriter),
      SheetAt ew sheetName headers b k tr done pending →
      SheetAt (flushStreams be names ew).1 sheetName headers b k tr done pending := by
  intro names
  induction names with
  | nil => intro ew h; exact h
  | cons n rest ih =>
    intro ew h
    unfold flushStreams
    cases hl : ew.currentSheets.lookup n with
    | none => exact ih ew h
    | some sheet =>
      dsimp only
      cases hf : be.flush n sheet.streamWriter.rows with
      | some e => exact h
      | none =>
        dsimp only
        apply ih
        obtain ⟨sheet0, hl0, hH, hbs, hrows, hidx, hbuf⟩ := h
        by_cases hn : n = sheetName
        · subst hn
          rw [hl] at hl0
          cases hl0
          exact ⟨_, GoMap.lookup_set_self _ _ _, hH, hbs, hrows, hidx, hbuf⟩
        · exact ⟨sheet0, by rw [GoMap.lookup_set_ne _ _ _ _ hn]; exact hl0, hH, hbs, hrows, hidx,
            hbuf⟩

/-- With a backend that accepts every row, `Close` hands over what is pending on every
sheet, whatever happens at the flush of the streams and at the save. -/
theorem Close_at (be : Backend) (hacc : ∀ n tr i c, be.setRow n tr i c = none)
    (ordF ordS : MapOrder SheetWriter) (hF : ordF.Valid) (ew : ExcelWriter)
    (sheetName : String) (headers : List String) (b k : Nat) (tr : List (Nat × List String))
    (done pending : List Record) (h : SheetAt ew sheetName headers b k tr done pending) :
    SheetAt (Close be ordF ordS ew).1 sheetName headers b k tr (done ++ pending) [] := by
  have hnames : ∀ n ∈ (ordF ew.currentSheets).map Prod.fst,
      (ew.currentSheets.lookup n).isSome = true := by
    intro n hn
    obtain ⟨e, he, rfl⟩ := List.mem_map.1 hn
    exact GoMap.lookup_isSome_of_mem _ _ _ ((hF _).mem_iff.1 he)
  have hmem : sheetName ∈ (ordF ew.currentSheets).map Prod.fst := by
    obtain ⟨sheet, hl, -⟩ := h
    exact List.mem_map.2 ⟨(sheetName, sheet),
      (hF _).mem_iff.2 (GoMap.mem_of_lookup _ _ _ hl), rfl⟩
  obtain ⟨he, hin, -⟩ :=
    flushAll_at be hacc sheetName headers b k tr _ ew done pending hnames h
  have s1 := hin hmem
  unfold Close
  cases hfa : flushAll be ((ordF ew.currentSheets).map Prod.fst) ew with
  | mk ew1 err =>
    rw [hfa] at he s1
    dsimp only at he s1
    subst he
    dsimp only
    have s2 := flushStreams_at be sheetName headers b k tr (done ++ pending) []
      ((ordS ew1.currentSheets).map Prod.fst) ew1 s1
    cases hfs : flushStreams be ((ordS ew1.currentSheets).map Prod.fst) ew1 with
    | mk ew2 err2 =>
      rw [hfs] at s2
      cases err2 with
      | some e => exact s2
      | none =>
        dsimp only
        cases be.saveAs ew2.filename with
        | some e => exact s2
        | none => exact s2

/-- A sheet right after `CreateSheet`: nothing handed over, nothing pending, next row 2. -/
theorem CreateSheet_at (be : Backend) (ew : ExcelWriter) (sheetName : String)
    (headers : List String) (hnew : be.newSheet sheetName = none)
    (hsw : be.newStreamWriter sheetName = none) (hhd : be.setHeader sheetName headers = none) :
    (CreateSheet be ew sheetName headers).2 = none
      ∧ SheetAt (CreateSheet be ew sheetName headers).1 sheetName headers ew.batchSize 2 [] [] [] := by
  unfold CreateSheet
  rw [hnew, hsw, hhd]
  exact ⟨rfl, _, GoMap.lookup_set_self _ _ _, rfl, rfl, rfl, rfl, rfl⟩

/-- Create a sheet, pass records to `WriteRow`, `Close`: with a backend that accepts every
row, the stream writer of the sheet was handed the rendered records of the sheet
from row 2 on, in the order of the calls, for every batch size from 1 on. -/
theorem writer_rows (be : Backend) (hacc : ∀ n tr i c, be.setRow n tr i c = none)
    (ordF ordS : MapOrder SheetWriter) (hF : ordF.Valid) (ew : ExcelWriter)
    (hb : 1 ≤ ew.batchSize) (sheetName : String) (headers : List String)
    (hnew : be.newSheet sheetName = none) (hsw : be.newStreamWriter sheetName = none)
    (hhd : be.setHeader sheetName headers = none) (calls : List (String × Record)) :
    sheetRows (Close be ordF ordS
        (writeCalls be calls (CreateSheet be ew sheetName headers).1)).1 sheetName
      = some (((recordsFor sheetName calls).map (renderRow headers)).enumFrom 2) := by
  obtain ⟨-, h0⟩ := CreateSheet_at be ew sheetName headers hnew hsw hhd
  obtain ⟨d1, p1, e1, -, h1⟩ :=
    writeCalls_at be sheetName (hacc sheetName) headers ew.batchSize 2 hb [] calls _ [] [] h0
      (by simpa using hb)
  obtain ⟨sheet, hl, -, -, hrows, -, -⟩ :=
    Close_at be hacc ordF ordS hF _ sheetName headers ew.batchSize 2 [] d1 p1 h1
  simp only [sheetRows, hl, Option.map_some', hrows, e1, List.nil_append]

/-- C11. With a backend that accepts the rows of the sheet, `flushSheet` returns no error
and hands the stream writer one rendered row for each buffered record, at
consecutive row indices. The rendered row has exactly one cell for each header:
the value of the record at that header when the record has the key, the empty
string otherwise; it is the row of the record restricted to the keys among the
headers, so a key that is not a header is in no cell and raises no error. -/
theorem C11_flush_renders (be : Backend) (ew : ExcelWriter) (sheetName : String)
    (sheet : SheetWriter) (hl : ew.currentSheets.lookup sheetName = some sheet)
    (hacc : ∀ tr i c, be.setRow sheetName tr i c = none) :
    (flushSheet be ew sheetName).2 = none
    ∧ sheetRows (flushSheet be ew sheetName).1 sheetName
        = some (sheet.streamWriter.rows
            ++ (sheet.rowBuffer.map (renderRow sheet.headers)).enumFrom sheet.rowIndex)
    ∧ ∀ r : Record,
        (renderRow sheet.headers r).length = sheet.headers.length
        ∧ (∀ i (h : i < sheet.headers.length),
            (renderRow sheet.headers r)[i]?
              = some (if (GoMap.lookup r (sheet.headers.get ⟨i, h⟩)).isSome
                  then Record.get r (sheet.headers.get ⟨i, h⟩) else ""))
        ∧ renderRow sheet.headers r
            = renderRow sheet.headers (r.filter (fun kv => decide (kv.1 ∈ sheet.headers))) := by
  have hat : SheetAt ew sheetName sheet.headers sheet.batchSize sheet.rowIndex
      sheet.streamWriter.rows [] sheet.rowBuffer :=
    ⟨sheet, hl, rfl, rfl, by simp, by simp, rfl⟩
  obtain ⟨he, sheet1, hl1, -, -, hrows, -, -⟩ := flushSheet_at be ew sheetName hacc _ _ _ _ _ _ hat
  refine ⟨he, ?_, ?_⟩
  · simp only [sheetRows, hl1, Option.map_some', hrows, List.nil_append]
  · intro r
    refine ⟨renderRow_length _ _, ?_, ?_⟩
    · intro i h
      rw [renderRow_get _ _ i h]
      simp only [Record.get]
      cases GoMap.lookup r (sheet.headers.get ⟨i, h⟩) <;> simp
    · apply renderRow_congr
      intro k hk
      exact (GoMap.lookup_filter r (fun a => decide (a ∈ sheet.headers)) k (by simpa using hk)).symm

/-- A concrete instance of C11: a sheet with the headers `a`, `b` and a buffered record
with the keys `a` and `z`. -/
theorem C11_flush_renders_witness :
    (flushSheet Backend.accepting
        { filename := "out.xlsx", batchSize := 8, saved := false,
          currentSheets := [("S", { streamWriter := { header := ["a", "b"], rows := [],
                                                      flushed := false },
                                    headers := ["a", "b"], rowIndex := 2,
                                    rowBuffer := [[("a", "1"), ("z", "9")]],
                                    batchSize := 8 })] } "S").2 = none
    ∧ sheetRows (flushSheet Backend.accepting
        { filename := "out.xlsx", batchSize := 8, saved := false,
          currentSheets := [("S", { streamWriter := { header := ["a", "b"], rows := [],
                                                      flushed := false },
                                    headers := ["a", "b"], rowIndex := 2,
                                    rowBuffer := [[("a", "1"), ("z", "9")]],
                                    batchSize := 8 })] } "S").1 "S"
        = some [(2, ["1", ""])] := by
  have h := C11_flush_renders Backend.accepting
    { filename := "out.xlsx", batchSize := 8, saved := false,
      currentSheets := [("S", { streamWriter := { header := ["a", "b"], rows := [],
                                                  flushed := false },
                                headers := ["a", "b"], rowIndex := 2,
                                rowBuffer := [[("a", "1"), ("z", "9")]],
                                batchSize := 8 })] } "S" _ rfl (fun _ _ _ => rfl)
  exact ⟨h.1, h.2.1⟩

/-- C12. For every sheet created in a writer with a batch size from 1 on, and every
sequence of `WriteRow` calls followed by `Close`, on a backend that accepts every
row: the rows handed to the stream writer of the sheet are the rendered records
passed to that sheet, in the order of the calls, at the rows 2, 3, ...; hence
they are the same for two writers with different batch sizes. -/
theorem C12_batch_size_independent (be : Backend)
    (hacc : ∀ n tr i c, be.setRow n tr i c = none)
    (ordF1 ordS1 ordF2 ordS2 : MapOrder SheetWriter) (hF1 : ordF1.Valid) (hF2 : ordF2.Valid)
    (ew1 ew2 : ExcelWriter) (hb1 : 1 ≤ ew1.batchSize) (hb2 : 1 ≤ ew2.batchSize)
    (sheetName : String) (headers : List String)
    (hnew : be.newSheet sheetName = none) (hsw : be.newStreamWriter sheetName = none)
    (hhd : be.setHeader sheetName headers = none) (calls : List (String × Record)) :
    sheetRows (Close be ordF1 ordS1
        (writeCalls be calls (CreateSheet be ew1 sheetName headers).1)).1 sheetName
      = some (((recordsFor sheetName calls).map (renderRow headers)).enumFrom 2)
    ∧ sheetRows (Close be ordF2 ordS2
        (writeCalls be calls (CreateSheet be ew2 sheetName headers).1)).1 sheetName
      = sheetRows (Close be ordF1 ordS1
        (writeCalls be calls (CreateSheet be ew1 sheetName headers).1)).1 sheetName := by
  have r1 := writer_rows be hacc ordF1 ordS1 hF1 ew1 hb1 sheetName headers hnew hsw hhd calls
  have r2 := writer_rows be hacc ordF2 ordS2 hF2 ew2 hb2 sheetName headers hnew hsw hhd calls
  exact ⟨r1, r2.trans r1.symm⟩

/-- A concrete instance of C12: three records, batch sizes 1 and 10000. -/
theorem C12_batch_size_independent_witness :
    sheetRows (Close Backend.accepting id id
        (writeCalls Backend.accepting
          [("S", [("a", "1")]), ("S", [("b", "2")]), ("S", [("a", "3"), ("b", "4")])]
          (CreateSheet Backend.accepting (NewExcelWriter "out.xlsx" 1) "S" ["a", "b"]).1)).1 "S"
      = some [(2, ["1", ""]), (3, ["", "2"]), (4, ["3", "4"])]
    ∧ sheetRows (Close Backend.accepting id id
        (writeCalls Backend.accepting
          [("S", [("a", "1")]), ("S", [("b", "2")]), ("S", [("a", "3"), ("b", "4")])]
          (CreateSheet Backend.accepting (NewExcelWriter "out.xlsx" 10000) "S" ["a", "b"]).1)).1 "S"
      = sheetRows (Close Backend.accepting id id
        (writeCalls Backend.accepting
          [("S", [("a", "1")]), ("S", [("b", "2")]), ("S", [("a", "3"), ("b", "4")])]
          (CreateSheet Backend.accepting (NewExcelWriter "out.xlsx" 1) "S" ["a", "b"]).1)).1 "S" :=
  C12_batch_size_independent Backend.accepting (fun _ _ _ _ => rfl) id id id id
    (fun _ => List.Perm.refl _) (fun _ => List.Perm.refl _)
    (NewExcelWriter "out.xlsx" 1) (NewExcelWriter "out.xlsx" 10000) (by decide) (by decide)
    "S" ["a", "b"] rfl rfl rfl _

/-- C13. `WriteRow` for a sheet name the writer has no sheet for returns the error
"sheet not found: " with the name, and the writer is as it was: no sheet is
created, no buffer changes, no row is handed over. -/
theorem C13_unknown_sheet (be : Backend) (ew : ExcelWriter) (sheetName : String) (data : Record)
    (h : ew.currentSheets.lookup sheetName = none) :
    WriteRow be ew sheetName data = (ew, some ("sheet not found: " ++ sheetName)) := by
  unfold WriteRow
  rw [h]

/-- A concrete instance of C13: a writer with the sheet `S` only, and a row for `T`. -/
theorem C13_unknown_sheet_witness :
    WriteRow Backend.accepting
        (CreateSheet Backend.accepting (NewExcelWriter "out.xlsx" 2) "S" ["a"]).1 "T"
        [("a", "1")]
      = ((CreateSheet Backend.accepting (NewExcelWriter "out.xlsx" 2) "S" ["a"]).1,
         some "sheet not found: T") :=
  C13_unknown_sheet Backend.accepting _ "T" [("a", "1")] (by decide)

/-! ## The header sample -/

/-- The first loop of `collectHeadersAndData` with `m` records still to sample, `m ≥ 1`:
it takes the next `m` records, or all when there are fewer. -/
theorem collectLoop_take (ordK : MapOrder String) (sampleSize : Nat) :
    ∀ (chan : List Record) (headerSet : GoMap Bool) (dataRows : List Record) (count m : Nat),
      count + m = sampleSize → 1 ≤ m →
      collectLoop ordK sampleSize chan headerSet dataRows count
        = ((chan.take m).foldl
              (fun hs data => (ordK data).foldl (fun hs kv => GoMap.set hs kv.1 true) hs)
              headerSet,
           dataRows ++ chan.take m, chan.drop m) := by
  intro chan
  induction chan with
  | nil =>
    intro headerSet dataRows count m _ _
    simp [collectLoop]
  | cons data chan ih =>
    intro headerSet dataRows count m hm h1
    unfold collectLoop
    dsimp only
    by_cases hc : count + 1 ≥ sampleSize
    · have : m = 1 := by omega
      subst this
      rw [if_pos hc]
      simp
    · rw [if_neg hc]
      obtain ⟨m', rfl⟩ : ∃ m', m = m' + 1 := ⟨m - 1, by omega⟩
      rw [ih _ _ (count + 1) m' (by omega) (by omega)]
      simp

/-- The keys of the header set after a list of records was added. -/
theorem headerSet_records (ordK : MapOrder String) (hK : ordK.Valid) (recs : List Record)
    (hs : GoMap Bool) (x : String) :
    x ∈ (recs.foldl
          (fun hs data => (ordK data).foldl (fun hs kv => GoMap.set hs kv.1 true) hs) hs).map
            Prod.fst
      ↔ x ∈ hs.map Prod.fst ∨ ∃ r ∈ recs, x ∈ r.keys := by
  induction recs generalizing hs with
  | nil => simp
  | cons r recs ih =>
    simp only [List.foldl_cons]
    rw [ih, headerSet_keys, ((hK r).map Prod.fst).mem_iff]
    simp only [List.mem_cons, exists_eq_or_imp, Record.keys]
    tauto

/-- The header set never holds a key twice. -/
theorem headerSet_records_nodup (ordK : MapOrder String) (recs : List Record)
    (hs : GoMap Bool) (h : (hs.map Prod.fst).Nodup) :
    ((recs.foldl
        (fun hs data => (ordK data).foldl (fun hs kv => GoMap.set hs kv.1 true) hs) hs).map
          Prod.fst).Nodup := by
  induction recs generalizing hs with
  | nil => simpa using h
  | cons r recs ih =>
    simp only [List.foldl_cons]
    exact ih _ (headerSet_nodup _ _ h)

/-- The result of `collectHeadersAndData` for a sample size from 1 on. -/
theorem collect_spec (ordK : MapOrder String) (hK : ordK.Valid) (ordH : MapOrder Bool)
    (hH : ordH.Valid) (dataChan : List Record) (s : Nat) (hs : 1 ≤ s) :
    (collectHeadersAndData ordK ordH dataChan s).headers.Sorted (· < ·)
    ∧ (∀ k, k ∈ (collectHeadersAndData ordK ordH dataChan s).headers
          ↔ ∃ r ∈ dataChan.take s, k ∈ r.keys)
    ∧ (collectHeadersAndData ordK ordH dataChan s).dataRows = dataChan.take s
    ∧ (collectHeadersAndData ordK ordH dataChan s).rest = dataChan.drop s := by
  simp only [collectHeadersAndData]
  rw [collectLoop_take ordK s dataChan [] [] 0 s (by omega) hs]
  dsimp only
  refine ⟨?_, ?_, by simp, rfl⟩
  · apply List.Sorted.lt_of_le (List.sorted_insertionSort _ _)
    apply (List.perm_insertionSort _ _).nodup_iff.2
    apply ((hH _).map Prod.fst).nodup_iff.2
    exact headerSet_records_nodup ordK _ [] (by simp)
  · intro k
    simp only [sortStrings]
    rw [(List.perm_insertionSort _ _).mem_iff, ((hH _).map Prod.fst).mem_iff,
      headerSet_records ordK hK]
    simp

theorem take_min_length {α : Type} (l : List α) (s : Nat) :
    l.take (min s l.length) = l.take s := by
  by_cases h : s ≤ l.length
  · rw [Nat.min_eq_left h]
  · have h2 : l.length ≤ s := by omega
    rw [Nat.min_eq_right h2, List.take_length, List.take_of_length_le h2]

/-- C14. For every record stream of `n` records and every sample size `s ≥ 1`, in whatever
order the keys of a record and the header set are visited: the headers returned by
`collectHeadersAndData` are in strictly increasing order (so without duplicates), a
string is a header exactly when it is a key of one of the first `min s n` records,
and the data rows returned are those first `min s n` records, in stream order. -/
theorem C14_header_sample (ordK : MapOrder String) (hK : ordK.Valid) (ordH : MapOrder Bool)
    (hH : ordH.Valid) (dataChan : List Record) (s : Nat) (hs : 1 ≤ s) :
    (collectHeadersAndData ordK ordH dataChan s).headers.Sorted (· < ·)
    ∧ (∀ k, k ∈ (collectHeadersAndData ordK ordH dataChan s).headers
          ↔ ∃ r ∈ dataChan.take (min s dataChan.length), k ∈ r.keys)
    ∧ (collectHeadersAndData ordK ordH dataChan s).dataRows
        = dataChan.take (min s dataChan.length) := by
  rw [take_min_length]
  obtain ⟨h1, h2, h3, -⟩ := collect_spec ordK hK ordH hH dataChan s hs
  exact ⟨h1, h2, h3⟩

/-- A concrete instance of C14: three records, sample size 2. -/
theorem C14_header_sample_witness :
    (collectHeadersAndData id id [[("b", "2"), ("a", "1")], [("c", "3")], [("d", "4")]]
        2).headers.Sorted (· < ·)
    ∧ (∀ k, k ∈ (collectHeadersAndData id id
            [[("b", "2"), ("a", "1")], [("c", "3")], [("d", "4")]] 2).headers
          ↔ ∃ r ∈ [[("b", "2"), ("a", "1")], [("c", "3")], [("d", "4")]].take
                (min 2 [[("b", "2"), ("a", "1")], [("c", "3")], [("d", "4")]].length),
              k ∈ Record.keys r)
    ∧ (collectHeadersAndData id id [[("b", "2"), ("a", "1")], [("c", "3")], [("d", "4")]]
        2).dataRows
        = [[("b", "2"), ("a", "1")], [("c", "3")], [("d", "4")]].take
            (min 2 [[("b", "2"), ("a", "1")], [("c", "3")], [("d", "4")]].length) :=
  C14_header_sample id (fun _ => List.Perm.refl _) id (fun _ => List.Perm.refl _)
    [[("b", "2"), ("a", "1")], [("c", "3")], [("d", "4")]] 2 (by decide)

/-! ## The generic conversion -/

/-- No record, no header. -/
theorem collect_nil (ordK : MapOrder String) (ordH : MapOrder Bool) (hH : ordH.Valid)
    (s : Nat) :
    collectHeadersAndData ordK ordH [] s = { headers := [], dataRows := [], rest := [] } := by
  have h : ordH [] = [] := List.Perm.eq_nil (hH [])
  simp [collectHeadersAndData, collectLoop, h, sortStrings]

/-- When the parser sends no record, the conversion returns "no data columns found"
before it reads the error channel. -/
theorem convert_no_record (s : Nat) (c : Converter) (be : Backend) (o : RangeOrders)
    (hH : o.headerSet.Valid) (file : Except String Decoder) (seek : Option String)
    (outputFile : String) (h : (ParseToRows o.counts file seek).dataChan = []) :
    convertSampled s c be o file seek outputFile
      = { err := some "no data columns found", writer := none, closeErr := none } := by
  simp only [convertSampled, convertStream, h, collect_nil _ _ hH]
  rfl

/-- C16, as the code has it. Whenever the parser sends no record, as it does when the
file does not open, when the detection fails and when the rewind fails, `Convert`
returns the error "no data columns found" and not the error of the parser: the
return on an empty header list comes before the loop over the error channel. -/
theorem C16_parser_error_masked (c : Converter) (be : Backend) (o : RangeOrders)
    (hH : o.headerSet.Valid) (file : Except String Decoder) (seek : Option String)
    (outputFile : String) (h : (ParseToRows o.counts file seek).dataChan = []) :
    Convert c be o file seek outputFile
      = { err := some "no data columns found", writer := none, closeErr := none } :=
  convert_no_record HeaderSampleSize c be o hH file seek outputFile h

/-- The failing input of C16: on `<r><a></a><b></b></r>` the parser reports "failed to detect
repeating XML element" and `Convert` returns "no data columns found". -/
theorem C16_parser_error_masked_witness :
    ParseToRows RangeOrders.stored.counts
        (.ok { tokens := noRepeatDoc.tokens, err := none }) none
      = { dataChan := [], errChan := ["failed to detect repeating XML element"] }
    ∧ Convert (NewConverter 65536) Backend.accepting RangeOrders.stored
        (.ok { tokens := noRepeatDoc.tokens, err := none }) none "out.xlsx"
      = { err := some "no data columns found", writer := none, closeErr := none } :=
  ⟨by rfl,
   C16_parser_error_masked (NewConverter 65536) Backend.accepting RangeOrders.stored
    (fun _ => List.Perm.refl _) _ none "out.xlsx" (by rfl)⟩

/-- C17, as the code has it. When the decoder reports an error, after whatever tokens, the
detector returns the empty name, and `ParseToRows` sends no record and the one error
"failed to detect repeating XML element": the error of the decoder is reported as
a detection failure and never as "XML parsing error: ...". -/
theorem C17_parse_error_as_detection_failure (ord : MapOrder Nat) (ts : List Token)
    (e : String) (seek : Option String) :
    detectRepeatingElementFromDecoder ord { tokens := ts, err := some e } = ""
    ∧ ParseToRows ord (.ok { tokens := ts, err := some e }) seek
      = { dataChan := [], errChan := ["failed to detect repeating XML element"] } := by
  refine ⟨rfl, ?_⟩
  simp [ParseToRows, detectRepeatingElementFromDecoder, errDetect]

/-- The loop over the sampled rows followed by the loop over the rest is one loop over
all rows. -/
theorem writeRows_append (be : Backend) (sheetName : String) (xs ys : List Record) :
    ∀ ew : ExcelWriter,
      writeRows be sheetName (xs ++ ys) ew
        = match writeRows be sheetName xs ew with
          | (ew1, some e) => (ew1, some e)
          | (ew1, none) => writeRows be sheetName ys ew1 := by
  induction xs with
  | nil => intro ew; rfl
  | cons x xs ih =>
    intro ew
    simp only [List.cons_append, writeRows]
    cases hw : WriteRow be ew sheetName x with
    | mk ew1 err =>
      cases err with
      | some e => rfl
      | none => exact ih ew1

/-- The body of `Convert` depends on the sample only through the headers. -/
theorem convertBody_take_drop (be : Backend) (ew : ExcelWriter) (headers : List String)
    (chan : List Record) (errChan : List String) (s : Nat) :
    convertBody be ew headers (chan.take s) (chan.drop s) errChan
      = match CreateSheet be ew "Sheet1" headers with
        | (ew1, some e) => (ew1, some ("failed to create sheet: " ++ e))
        | (ew1, none) =>
          match writeRows be "Sheet1" chan ew1 with
          | (ew2, some e) => (ew2, some e)
          | (ew2, none) => (ew2, errChan.head?) := by
  unfold convertBody
  cases hc : CreateSheet be ew "Sheet1" headers with
  | mk ew1 err =>
    cases err with
    | some e => rfl
    | none =>
      dsimp only
      have h := writeRows_append be "Sheet1" (chan.take s) (chan.drop s) ew1
      rw [List.take_append_drop] at h
      rw [h]
      cases hw : writeRows be "Sheet1" (List.take s chan) ew1 with
      | mk ew2 err2 =>
        cases err2 with
        | some e => rfl
        | none => rfl

/-- Two strictly increasing lists of strings with the same members are equal. -/
theorem sorted_lt_ext (l l' : List String) (h : l.Sorted (· < ·)) (h' : l'.Sorted (· < ·))
    (hm : ∀ k, k ∈ l ↔ k ∈ l') : l = l' :=
  List.eq_of_perm_of_sorted ((List.perm_ext_iff_of_nodup h.nodup h'.nodup).2 hm) h h'

/-- When every key of the stream is a key of one of its first `s` records, the headers
are the keys of the whole stream. -/
theorem collect_headers_all (ordK : MapOrder String) (hK : ordK.Valid) (ordH : MapOrder Bool)
    (hH : ordH.Valid) (dataChan : List Record) (s : Nat) (hs : 1 ≤ s)
    (hkeys : ∀ r ∈ dataChan, ∀ k ∈ r.keys, ∃ r' ∈ dataChan.take s, k ∈ r'.keys) (k : String) :
    k ∈ (collectHeadersAndData ordK ordH dataChan s).headers ↔ ∃ r ∈ dataChan, k ∈ r.keys := by
  rw [(collect_spec ordK hK ordH hH dataChan s hs).2.1]
  constructor
  · rintro ⟨r, hr, hk⟩
    exact ⟨r, List.mem_of_mem_take hr, hk⟩
  · rintro ⟨r, hr, hk⟩
    exact hkeys r hr k hk

/-- The conversion of a stream for two sample sizes that both see every key. -/
theorem convertStream_sample (s1 s2 : Nat) (h1 : 1 ≤ s1) (h2 : 1 ≤ s2) (c : Converter)
    (be : Backend) (o : RangeOrders) (hK : o.keys.Valid) (hH : o.headerSet.Valid)
    (parsed : ParseResult) (outputFile : String)
    (hkeys : ∀ r ∈ parsed.dataChan, ∀ k ∈ r.keys,
      ∃ r' ∈ parsed.dataChan.take (min s1 s2), k ∈ r'.keys) :
    convertStream s1 c be o parsed outputFile = convertStream s2 c be o parsed outputFile := by
  have hk1 : ∀ r ∈ parsed.dataChan, ∀ k ∈ r.keys, ∃ r' ∈ parsed.dataChan.take s1, k ∈ r'.keys := by
    intro r hr k hk
    obtain ⟨r', hr', hk'⟩ := hkeys r hr k hk
    exact ⟨r', (List.take_subset_take_left _ (Nat.min_le_left s1 s2)) hr', hk'⟩
  have hk2 : ∀ r ∈ parsed.dataChan, ∀ k ∈ r.keys, ∃ r' ∈ parsed.dataChan.take s2, k ∈ r'.keys := by
    intro r hr k hk
    obtain ⟨r', hr', hk'⟩ := hkeys r hr k hk
    exact ⟨r', (List.take_subset_take_left _ (Nat.min_le_right s1 s2)) hr', hk'⟩
  obtain ⟨a1, -, b1, c1⟩ := collect_spec o.keys hK o.headerSet hH parsed.dataChan s1 h1
  obtain ⟨a2, -, b2, c2⟩ := collect_spec o.keys hK o.headerSet hH parsed.dataChan s2 h2
  have hh : (collectHeadersAndData o.keys o.headerSet parsed.dataChan s1).headers
      = (collectHeadersAndData o.keys o.headerSet parsed.dataChan s2).headers := by
    apply sorted_lt_ext _ _ a1 a2
    intro k
    rw [collect_headers_all o.keys hK o.headerSet hH parsed.dataChan s1 h1 hk1,
      collect_headers_all o.keys hK o.headerSet hH parsed.dataChan s2 h2 hk2]
  simp only [convertStream]
  rw [b1, c1, b2, c2, convertBody_take_drop, convertBody_take_drop, hh]

/-- Two strings in order are sorted. -/
theorem sortStrings_pair (a b : String) (h : a ≤ b) : sortStrings [a, b] = [a, b] :=
  sortStrings_eq _ _ (List.Perm.refl _)
    (List.Pairwise.cons (by intro x hx; rw [List.mem_singleton] at hx; rw [hx]; exact h)
      (List.pairwise_singleton _ _))

/-- The headers and rows of the two-key stream for a sample of two records. -/
theorem twoKeys_collect :
    collectHeadersAndData id id [[("a", "1")], [("b", "2")]] 2
      = { headers := ["a", "b"], dataRows := [[("a", "1")], [("b", "2")]], rest := [] } := by
  have hle : ("a" : String) ≤ "b" := by
    rw [String.le_iff_toList_le]
    decide
  have h := sortStrings_pair "a" "b" hle
  simp only [collectHeadersAndData, collectLoop]
  simp [GoMap.set, h]

/-- C15, as stated, fails: for `<rows><row><a>1</a></row><row><b>2</b></row></rows>` the
parser sends the records `a = 1` and `b = 2`; with the sample size 1 the sheet has
the header `a` and the rows `1` and the empty cell, with the sample size 2 it has
the headers `a`, `b` and the rows `(1, empty)`, `(empty, 2)`. -/
theorem C15_late_key_counterexample :
    ParseToRows id (.ok { tokens := twoKeysDoc.tokens, err := none }) none
      = { dataChan := [[("a", "1")], [("b", "2")]], errChan := [] }
    ∧ (convertSampled 1 (NewConverter 65536) Backend.accepting RangeOrders.stored
        (.ok { tokens := twoKeysDoc.tokens, err := none }) none "out.xlsx").writer.bind
          (fun w => sheetContent w "Sheet1")
      = some (["a"], [(2, ["1"]), (3, [""])])
    ∧ (convertSampled 2 (NewConverter 65536) Backend.accepting RangeOrders.stored
        (.ok { tokens := twoKeysDoc.tokens, err := none }) none "out.xlsx").writer.bind
          (fun w => sheetContent w "Sheet1")
      = some (["a", "b"], [(2, ["1", ""]), (3, ["", "2"])]) := by
  have hp : ParseToRows id (.ok { tokens := twoKeysDoc.tokens, err := none }) none
      = { dataChan := [[("a", "1")], [("b", "2")]], errChan := [] } := by
    rfl
  refine ⟨hp, ?_, ?_⟩
  · simp only [convertSampled, convertStream, RangeOrders.stored, hp]
    rfl
  · simp only [convertSampled, convertStream, RangeOrders.stored, hp, twoKeys_collect]
    rfl

/-- C15, amended. For every record stream and every two sample sizes `s1, s2 ≥ 1` such
that every key of a record of the stream is a key of one of its first `min s1 s2`
records, the generic conversion is the same for `s1` and for `s2`: the same
headers, the same rows handed to the writer in the same order, the same error
returned. -/
theorem C15_sample_size (s1 s2 : Nat) (h1 : 1 ≤ s1) (h2 : 1 ≤ s2) (c : Converter)
    (be : Backend) (o : RangeOrders) (hK : o.keys.Valid) (hH : o.headerSet.Valid)
    (parsed : ParseResult) (outputFile : String)
    (hkeys : ∀ r ∈ parsed.dataChan, ∀ k ∈ r.keys,
      ∃ r' ∈ parsed.dataChan.take (min s1 s2), k ∈ r'.keys) :
    convertStream s1 c be o parsed outputFile = convertStream s2 c be o parsed outputFile :=
  convertStream_sample s1 s2 h1 h2 c be o hK hH parsed outputFile hkeys

/-- A concrete instance of C15: the sample sizes 1 and 128 on a stream whose first record
has every key. -/
theorem C15_sample_size_witness :
    convertStream 1 (NewConverter 65536) Backend.accepting RangeOrders.stored
        { dataChan := [[("a", "1"), ("b", "2")], [("a", "3")]], errChan := [] } "out.xlsx"
      = convertStream 128 (NewConverter 65536) Backend.accepting RangeOrders.stored
        { dataChan := [[("a", "1"), ("b", "2")], [("a", "3")]], errChan := [] } "out.xlsx" :=
  C15_sample_size 1 128 (by decide) (by decide) (NewConverter 65536) Backend.accepting
    RangeOrders.stored (fun _ => List.Perm.refl _) (fun _ => List.Perm.refl _)
    { dataChan := [[("a", "1"), ("b", "2")], [("a", "3")]], errChan := [] } "out.xlsx"
    (by decide)

/-! ## The SVD conversion -/

/-- The headers and rows of the two-key stream for the sample size of `Convert`. -/
theorem twoKeys_collect_default :
    collectHeadersAndData id id [[("a", "1")], [("b", "2")]] HeaderSampleSize
      = { headers := ["a", "b"], dataRows := [[("a", "1")], [("b", "2")]], rest := [] } := by
  have hle : ("a" : String) ≤ "b" := by
    rw [String.le_iff_toList_le]
    decide
  have h := sortStrings_pair "a" "b" hle
  have h1 : ¬ (0 + 1 ≥ HeaderSampleSize) := by decide
  have h2 : ¬ (0 + 1 + 1 ≥ HeaderSampleSize) := by decide
  simp only [collectHeadersAndData, collectLoop, h1, h2, if_false]
  simp [GoMap.set, h]

/-- The generic conversion of the two-key document on a backend. -/
theorem twoKeys_convert (be : Backend) :
    Convert (NewConverter 65536) be RangeOrders.stored
        (.ok { tokens := twoKeysDoc.tokens, err := none }) none "out.xlsx"
      = { err := (convertBody be (NewExcelWriter "out.xlsx" DefaultBatchSize) ["a", "b"]
                    [[("a", "1")], [("b", "2")]] [] []).2,
          writer := some (Close be id id
              (convertBody be (NewExcelWriter "out.xlsx" DefaultBatchSize) ["a", "b"]
                [[("a", "1")], [("b", "2")]] [] []).1).1,
          closeErr := (Close be id id
              (convertBody be (NewExcelWriter "out.xlsx" DefaultBatchSize) ["a", "b"]
                [[("a", "1")], [("b", "2")]] [] []).1).2 } := by
  have hp : ParseToRows id (.ok { tokens := twoKeysDoc.tokens, err := none }) none
      = { dataChan := [[("a", "1")], [("b", "2")]], errChan := [] } := by
    rfl
  simp only [Convert, convertSampled, convertStream, RangeOrders.stored, hp,
    twoKeys_collect_default]
  rfl

/-- The SVD conversion of the document with one peripheral when nothing fails: it
returns nil, `Close` returns nil, and the sheet of the peripherals has one row. -/
theorem plain_run_returns :
    (ConvertSVD (NewSVDConverter 65536) Backend.accepting RangeOrders.stored
      (.ok { tokens := onePeripheralDoc.tokens, err := none }) "out.xlsx" plainSchedule).map
        (fun r => (r.err, r.closeErr, r.writer.bind (fun w => sheetRows w "Peripherals")))
      = some (none, none, some [(2, ["P0000", "TIM", "", "", "", "", "", ""])]) := by
  rfl

/-- C18, as the code has it: the error of the deferred `Close` is dropped. On the
document `<rows><row><a>1</a></row><row><b>2</b></row></rows>`, `Convert` returns nil when
the save fails ("failed to save file: disk full", workbook not saved) and when
the final flush fails ("failed to write row: write failed", no row handed over,
workbook not saved). On an SVD document with one peripheral, `ConvertSVD` returns
nil in both cases too. -/
theorem C18_close_error_dropped :
    ((Convert (NewConverter 65536) Backend.failingSave RangeOrders.stored
        (.ok { tokens := twoKeysDoc.tokens, err := none }) none "out.xlsx").err = none
      ∧ (Convert (NewConverter 65536) Backend.failingSave RangeOrders.stored
        (.ok { tokens := twoKeysDoc.tokens, err := none }) none "out.xlsx").closeErr
          = some "failed to save file: disk full"
      ∧ (Convert (NewConverter 65536) Backend.failingSave RangeOrders.stored
        (.ok { tokens := twoKeysDoc.tokens, err := none }) none "out.xlsx").writer.map
          (fun w => w.saved) = some false)
    ∧ ((Convert (NewConverter 65536) Backend.failingRows RangeOrders.stored
        (.ok { tokens := twoKeysDoc.tokens, err := none }) none "out.xlsx").err = none
      ∧ (Convert (NewConverter 65536) Backend.failingRows RangeOrders.stored
        (.ok { tokens := twoKeysDoc.tokens, err := none }) none "out.xlsx").closeErr
          = some "failed to write row: write failed"
      ∧ (Convert (NewConverter 65536) Backend.failingRows RangeOrders.stored
        (.ok { tokens := twoKeysDoc.tokens, err := none }) none "out.xlsx").writer.map
          (fun w => (w.saved, sheetRows w "Sheet1")) = some (false, some []))
    ∧ (ConvertSVD (NewSVDConverter 65536) Backend.failingSave RangeOrders.stored
        (.ok { tokens := onePeripheralDoc.tokens, err := none }) "out.xlsx" plainSchedule).map
          (fun r => (r.err, r.closeErr, r.writer.map (fun w => w.saved)))
        = some (none, some "failed to save file: disk full", some false)
    ∧ (ConvertSVD (NewSVDConverter 65536) Backend.failingRows RangeOrders.stored
        (.ok { tokens := onePeripheralDoc.tokens, err := none }) "out.xlsx" plainSchedule).map
          (fun r => (r.err, r.closeErr, r.writer.map (fun w => w.saved)))
        = some (none, some "failed to write row: write failed", some false) := by
  refine ⟨?_, ?_, ?_, ?_⟩
  · rw [twoKeys_convert]
    exact ⟨rfl, rfl, rfl⟩
  · rw [twoKeys_convert]
    exact ⟨rfl, rfl, rfl⟩
  · rfl
  · rfl

/-- C19, as the code has it: the goroutine that forwards the error of the parser is not
waited for. A file that ends inside `<device>` makes `ParseSVD` report "XML parsing
error: unexpected EOF". Under the schedule in which the forwarding goroutine moves
last, the three consumers end, `ConvertSVD` closes `errors`, finds it empty and
returns nil: the error is lost. When the forwarding goroutine moves after that,
it sends on the closed channel: the program panics. Under the schedule in which
it moves first, `ConvertSVD` returns the error. -/
theorem C19_forwarded_error_lost :
    (ParseSVD (.ok truncatedSVD)).errChan = ["XML parsing error: unexpected EOF"]
    ∧ (svdAfter (NewSVDConverter 65536) Backend.accepting RangeOrders.stored
        (.ok truncatedSVD) "out.xlsx" lateForwarder).map
          (fun s => (s.peripherals, s.registers, s.fields, s.orchestrator, s.errChan.queue))
        = some (Task.finished, Task.finished, Task.finished,
            Orchestrator.returned none none, ["XML parsing error: unexpected EOF"])
    ∧ (ConvertSVD (NewSVDConverter 65536) Backend.accepting RangeOrders.stored
        (.ok truncatedSVD) "out.xlsx" lateForwarder).map (fun r => r.err) = some none
    ∧ (svdAfter (NewSVDConverter 65536) Backend.accepting RangeOrders.stored
        (.ok truncatedSVD) "out.xlsx" (lateForwarder ++ [.forwarder, .forwarder])).map
          (fun s => s.panicked) = some true
    ∧ (ConvertSVD (NewSVDConverter 65536) Backend.accepting RangeOrders.stored
        (.ok truncatedSVD) "out.xlsx" earlyForwarder).map (fun r => r.err)
        = some (some "XML parsing error: unexpected EOF") := by
  refine ⟨rfl, ?_, ?_, ?_, ?_⟩ <;> rfl

/-! ## The detector: the name selected -/

/-- The selection loop keeps a running maximum: its result is the start value or an
entry visited with a count above 1, and no count visited above 1 exceeds it. -/
theorem select_max (l : List (String × Nat)) :
    ∀ acc : Nat × String,
      (l.foldl selectStep acc = acc
          ∨ (((l.foldl selectStep acc).2, (l.foldl selectStep acc).1) ∈ l
              ∧ (l.foldl selectStep acc).1 > 1))
        ∧ acc.1 ≤ (l.foldl selectStep acc).1
        ∧ ∀ e ∈ l, e.2 ≤ (l.foldl selectStep acc).1 ∨ e.2 ≤ 1 := by
  induction l with
  | nil => intro acc; simp
  | cons e l ih =>
    intro acc
    simp only [List.foldl_cons]
    obtain ⟨h1, h2, h3⟩ := ih (selectStep acc e)
    by_cases hsel : e.2 > acc.1 ∧ e.2 > 1
    · have hs : selectStep acc e = (e.2, e.1) := by simp [selectStep, hsel]
      rw [hs] at h1 h2 h3 ⊢
      refine ⟨Or.inr ?_, ?_, ?_⟩
      · rcases h1 with h1 | h1
        · rw [h1]
          exact ⟨List.mem_cons_self _ _, hsel.2⟩
        · exact ⟨List.mem_cons_of_mem _ h1.1, h1.2⟩
      · simp only at h2
        omega
      · intro e' he'
        rcases List.mem_cons.1 he' with rfl | hmem
        · exact Or.inl h2
        · exact h3 e' hmem
    · have hs : selectStep acc e = acc := by simp [selectStep, hsel]
      rw [hs] at h1 h2 h3 ⊢
      refine ⟨?_, h2, ?_⟩
      · rcases h1 with h1 | h1
        · exact Or.inl h1
        · exact Or.inr ⟨List.mem_cons_of_mem _ h1.1, h1.2⟩
      · intro e' he'
        rcases List.mem_cons.1 he' with rfl | hmem
        · omega
        · exact h3 e' hmem

/-- C20. Whenever `detectRepeatingElementFromDecoder` returns a name that is not empty, in
whatever order the count map is visited, that name has at least 2 start tags at
depth > 1, and no name has more start tags at depth > 1 than it has. It holds for
every token stream, the well-formed ones in particular. -/
theorem C20_selected_is_max (ord : MapOrder Nat) (hord : ord.Valid) (d : Decoder)
    (hne : detectRepeatingElementFromDecoder ord d ≠ "") :
    2 ≤ deepCount (detectRepeatingElementFromDecoder ord d) 0 d.tokens
    ∧ ∀ m, deepCount m 0 d.tokens
        ≤ deepCount (detectRepeatingElementFromDecoder ord d) 0 d.tokens := by
  obtain ⟨ts, err⟩ := d
  cases err with
  | some e => exact absurd rfl hne
  | none =>
    simp only [detectRepeatingElementFromDecoder] at hne ⊢
    obtain ⟨h1, -, h3⟩ := select_max
      (ord (ts.foldl detectStep { elementCounts := [], pathStack := [] }).elementCounts) (0, "")
    generalize hr : (ord (ts.foldl detectStep { elementCounts := [], pathStack := [] }).elementCounts).foldl selectStep (0, "") = r at h1 h3 hne ⊢
    rcases h1 with h1 | ⟨hmem, hgt⟩
    · rw [h1] at hne
      exact absurd rfl hne
    · have hc := detect_entries ts r.2 r.1 ((hord _).mem_iff.1 hmem)
      refine ⟨by omega, ?_⟩
      intro m
      by_cases hm : 0 < deepCount m 0 ts
      · have hin := (hord _).mem_iff.2 (detect_entry_of_pos ts m hm)
        rcases h3 _ hin with h | h
        · simpa [← hc] using h
        · simp only at h
          omega
      · omega

/-- A concrete instance of C20: in `<r><a/><b/><a/></r>` the detector returns `a`, which
has 2 start tags below the root. -/
theorem C20_selected_is_max_witness :
    2 ≤ deepCount
        (detectRepeatingElementFromDecoder id
          { tokens := (Forest.elem "r" (.elem "a" .nil (.elem "b" .nil (.elem "a" .nil .nil)))
              .nil).tokens, err := none }) 0
        (Forest.elem "r" (.elem "a" .nil (.elem "b" .nil (.elem "a" .nil .nil))) .nil).tokens
    ∧ ∀ m, deepCount m 0
          (Forest.elem "r" (.elem "a" .nil (.elem "b" .nil (.elem "a" .nil .nil))) .nil).tokens
        ≤ deepCount
          (detectRepeatingElementFromDecoder id
            { tokens := (Forest.elem "r" (.elem "a" .nil (.elem "b" .nil (.elem "a" .nil .nil)))
                .nil).tokens, err := none }) 0
          (Forest.elem "r" (.elem "a" .nil (.elem "b" .nil (.elem "a" .nil .nil))) .nil).tokens :=
  C20_selected_is_max id (fun _ => List.Perm.refl _)
    { tokens := (Forest.elem "r" (.elem "a" .nil (.elem "b" .nil (.elem "a" .nil .nil)))
        .nil).tokens, err := none } (by decide)

/-! ## The detector: ties -/

/-- A list with an element that has a property splits at the first such element. -/
theorem first_split {α : Type} (p : α → Prop) (l : List α) (h : ∃ x ∈ l, p x) :
    ∃ pre e post, l = pre ++ e :: post ∧ p e ∧ ∀ x ∈ pre, ¬ p x := by
  induction l with
  | nil => simp at h
  | cons a l ih =>
    by_cases ha : p a
    · exact ⟨[], a, l, rfl, ha, by simp⟩
    · have h' : ∃ x ∈ l, p x := by
        obtain ⟨x, hx, hp⟩ := h
        rcases List.mem_cons.1 hx with rfl | hmem
        · exact absurd hp ha
        · exact ⟨x, hmem, hp⟩
      obtain ⟨pre, e, post, hl, he, hpre⟩ := ih h'
      refine ⟨a :: pre, e, post, by rw [hl]; rfl, he, ?_⟩
      intro x hx
      rcases List.mem_cons.1 hx with rfl | hmem
      · exact ha
      · exact hpre x hmem

/-- The selection loop returns the first entry visited that has the greatest count,
when that count is above 1. -/
theorem select_first_max (pre post : List (String × Nat)) (e : String × Nat)
    (hpre : ∀ x ∈ pre, x.2 < e.2) (hpost : ∀ x ∈ post, x.2 ≤ e.2) (he : 1 < e.2) :
    (pre ++ e :: post).foldl selectStep (0, "") = (e.2, e.1) := by
  rw [List.foldl_append, List.foldl_cons]
  obtain ⟨h1, -, -⟩ := select_max pre (0, "")
  have hlt : (pre.foldl selectStep (0, "")).1 < e.2 := by
    rcases h1 with h1 | ⟨hmem, -⟩
    · rw [h1]
      simp only
      omega
    · exact hpre _ hmem
  have hs : selectStep (pre.foldl selectStep (0, "")) e = (e.2, e.1) := by
    simp [selectStep, hlt, he]
  rw [hs]
  exact select_saturated post (e.2, e.1) hpost

/-- Among the names with the maximum count, the detector returns the one visited
first. -/
theorem detect_first_visited (ord : MapOrder Nat) (hord : ord.Valid) (ts : List Token)
    (n : String) (hn : HasMaxCount ts n) :
    HasMaxCount ts (detectRepeatingElementFromDecoder ord { tokens := ts, err := none })
    ∧ ∃ pre post,
        visitOrder ord ts
          = pre ++ detectRepeatingElementFromDecoder ord { tokens := ts, err := none } :: post
        ∧ ∀ x ∈ pre, ¬ HasMaxCount ts x := by
  obtain ⟨hn2, hmax⟩ := hn
  have hcount : ∀ x ∈ ord (ts.foldl detectStep { elementCounts := [], pathStack := [] }).elementCounts,
      x.2 = deepCount x.1 0 ts :=
    fun x hx => detect_entries ts x.1 x.2 ((hord _).mem_iff.1 hx)
  have hex : ∃ x ∈ ord (ts.foldl detectStep { elementCounts := [], pathStack := [] }).elementCounts,
      x.2 = deepCount n 0 ts :=
    ⟨(n, deepCount n 0 ts), (hord _).mem_iff.2 (detect_entry_of_pos ts n (by omega)), rfl⟩
  obtain ⟨pre, e, post, hl, he, hpre⟩ := first_split (fun x => x.2 = deepCount n 0 ts) _ hex
  have hmem : ∀ x, x ∈ pre ∨ x = e ∨ x ∈ post →
      x ∈ ord (ts.foldl detectStep { elementCounts := [], pathStack := [] }).elementCounts := by
    intro x hx
    rw [hl]
    simp only [List.mem_append, List.mem_cons]
    tauto
  have hle : ∀ x, x ∈ pre ∨ x = e ∨ x ∈ post → x.2 ≤ e.2 := by
    intro x hx
    rw [hcount x (hmem x hx), he]
    exact hmax x.1
  have hr : detectRepeatingElementFromDecoder ord { tokens := ts, err := none } = e.1 := by
    simp only [detectRepeatingElementFromDecoder]
    rw [hl, select_first_max pre post e ?_ (fun x hx => hle x (Or.inr (Or.inr hx))) (by omega)]
    intro x hx
    have h1 := hle x (Or.inl hx)
    have h2 := hpre x hx
    simp only at h2
    omega
  have hce : deepCount e.1 0 ts = deepCount n 0 ts := by
    rw [← hcount e (hmem e (Or.inr (Or.inl rfl))), he]
  rw [hr]
  refine ⟨⟨by omega, fun m => by rw [hce]; exact hmax m⟩, pre.map Prod.fst, post.map Prod.fst, ?_, ?_⟩
  · simp only [visitOrder, hl, List.map_append, List.map_cons]
  · intro x hx hx2
    obtain ⟨y, hy, rfl⟩ := List.mem_map.1 hx
    have h1 := hpre y hy
    simp only at h1
    have h2 := hcount y (hmem y (Or.inl hy))
    have h3 := hx2.2 n
    have h4 := hmax y.1
    omega

/-- In scenario A no name has more than 2 start tags below the root. -/
theorem scenarioA_count_le (m : String) : deepCount m 0 scenarioA.tokens ≤ 2 := by
  by_cases h1 : "item" = m
  · subst h1; decide
  · by_cases h2 : "name" = m
    · subst h2; decide
    · by_cases h3 : "qty" = m
      · subst h3; decide
      · simp [scenarioA, Forest.tokens, deepCount, h1, h2, h3]

/-- C21, as stated, fails: in scenario A the names `item`, `name` and `qty` share the
maximum count 2 and `item` is the first of them in the document. Visiting the
count map in the stored order the detector returns `item`; visiting it in the
reverse order, a permutation too, it returns `qty`. -/
theorem C21_tie_counterexample :
    MapOrder.Valid (id : MapOrder Nat) ∧ MapOrder.Valid (List.reverse : MapOrder Nat)
    ∧ HasMaxCount scenarioA.tokens "item" ∧ HasMaxCount scenarioA.tokens "name"
    ∧ HasMaxCount scenarioA.tokens "qty"
    ∧ seenOrder 0 scenarioA.tokens = ["item", "name", "qty", "item", "name", "qty"]
    ∧ detectRepeatingElementFromDecoder id { tokens := scenarioA.tokens, err := none } = "item"
    ∧ detectRepeatingElementFromDecoder List.reverse
        { tokens := scenarioA.tokens, err := none } = "qty" := by
  have e1 : deepCount "item" 0 scenarioA.tokens = 2 := by decide
  have e2 : deepCount "name" 0 scenarioA.tokens = 2 := by decide
  have e3 : deepCount "qty" 0 scenarioA.tokens = 2 := by decide
  refine ⟨fun m => List.Perm.refl m, fun m => List.reverse_perm m, ⟨by omega, ?_⟩,
    ⟨by omega, ?_⟩, ⟨by omega, ?_⟩, by decide, by decide, by decide⟩
  · intro m; rw [e1]; exact scenarioA_count_le m
  · intro m; rw [e2]; exact scenarioA_count_le m
  · intro m; rw [e3]; exact scenarioA_count_le m

/-- C21, amended. For every token stream in which some name has the maximum count (at
least 2 start tags at depth > 1 and no name with more), and every order in which
the count map is visited, `detectRepeatingElementFromDecoder` returns a name with
the maximum count, and among these the one that the order visits first: no name
visited before it has the maximum count. -/
theorem C21_first_visited_wins (ord : MapOrder Nat) (hord : ord.Valid) (ts : List Token)
    (n : String) (hn : HasMaxCount ts n) :
    HasMaxCount ts (detectRepeatingElementFromDecoder ord { tokens := ts, err := none })
    ∧ ∃ pre post,
        visitOrder ord ts
          = pre ++ detectRepeatingElementFromDecoder ord { tokens := ts, err := none } :: post
        ∧ ∀ x ∈ pre, ¬ HasMaxCount ts x :=
  detect_first_visited ord hord ts n hn

/-- A concrete instance of C21: scenario A visited in the reverse order. -/
theorem C21_first_visited_wins_witness :
    HasMaxCount scenarioA.tokens
      (detectRepeatingElementFromDecoder List.reverse
        { tokens := scenarioA.tokens, err := none })
    ∧ ∃ pre post,
        visitOrder List.reverse scenarioA.tokens
          = pre ++ detectRepeatingElementFromDecoder List.reverse
              { tokens := scenarioA.tokens, err := none } :: post
        ∧ ∀ x ∈ pre, ¬ HasMaxCount scenarioA.tokens x :=
  C21_first_visited_wins List.reverse (fun m => List.reverse_perm m) scenarioA.tokens "item"
    ⟨by decide, fun m => by
      have e1 : deepCount "item" 0 scenarioA.tokens = 2 := by decide
      rw [e1]
      exact scenarioA_count_le m⟩

/-! ## The buffer of the writer -/

/-- The loop of `flushSheet` changes neither the batch size nor the buffer, and keeps the
sheet indexed, whatever the backend does. -/
theorem flushRows_indexed (be : Backend) (sheetName : String) :
    ∀ (buf : List Record) (sheet : SheetWriter),
      (flushRows be sheetName buf sheet).1.batchSize = sheet.batchSize
      ∧ (flushRows be sheetName buf sheet).1.rowBuffer = sheet.rowBuffer
      ∧ (sheet.Indexed → (flushRows be sheetName buf sheet).1.Indexed) := by
  intro buf
  induction buf with
  | nil => intro sheet; exact ⟨rfl, rfl, id⟩
  | cons r rest ih =>
    intro sheet
    unfold flushRows
    dsimp only
    cases hs : be.setRow sheetName sheet.streamWriter.rows sheet.rowIndex
        (renderRow sheet.headers r) with
    | some e => exact ⟨rfl, rfl, id⟩
    | none =>
      dsimp only
      obtain ⟨h1, h2, h3⟩ := ih
        { sheet with
          streamWriter :=
            { sheet.streamWriter with
              rows := sheet.streamWriter.rows
                ++ [(sheet.rowIndex, renderRow sheet.headers r)] },
          rowIndex := sheet.rowIndex + 1 }
      refine ⟨h1, h2, fun hI => h3 ?_⟩
      obtain ⟨hi, hr⟩ := hI
      refine ⟨?_, ?_⟩
      · simp only [List.length_append, List.length_singleton]
        omega
      · simp only [List.map_append, List.map_cons, List.map_nil, List.length_append,
          List.length_singleton, hr, hi, List.range'_1_concat]

/-- What `flushSheet` does to the sheet it flushes: batch size and index invariant are
kept; the buffer is empty when no error is returned. -/
theorem flushSheet_self (be : Backend) (ew : ExcelWriter) (sheetName : String)
    (sheet : SheetWriter) (hl : ew.currentSheets.lookup sheetName = some sheet) :
    ∃ sheet1, (flushSheet be ew sheetName).1.currentSheets.lookup sheetName = some sheet1
      ∧ sheet1.batchSize = sheet.batchSize
      ∧ (sheet.Indexed → sheet1.Indexed)
      ∧ ((flushSheet be ew sheetName).2 = none → sheet1.rowBuffer.length = 0)
      ∧ (flushSheet be ew sheetName).1.batchSize = ew.batchSize := by
  unfold flushSheet
  rw [hl]
  dsimp only
  split_ifs with h0
  · exact ⟨sheet, hl, rfl, id, fun _ => h0, rfl⟩
  · obtain ⟨h1, h2, h3⟩ := flushRows_indexed be sheetName sheet.rowBuffer sheet
    cases hf : flushRows be sheetName sheet.rowBuffer sheet with
    | mk sheet1 err =>
      rw [hf] at h1 h2 h3
      cases err with
      | some e =>
        exact ⟨sheet1, GoMap.lookup_set_self _ _ _, h1, h3, (fun h => by cases h), rfl⟩
      | none =>
        exact ⟨_, GoMap.lookup_set_self _ _ _, h1, h3, fun _ => rfl, rfl⟩

/-- A flush keeps the batch size of the writer. -/
theorem flushSheet_batchSize (be : Backend) (ew : ExcelWriter) (sheetName : String) :
    (flushSheet be ew sheetName).1.batchSize = ew.batchSize := by
  cases hl : ew.currentSheets.lookup sheetName with
  | none => simp [flushSheet, hl]
  | some sheet => exact (flushSheet_self be ew sheetName sheet hl).choose_spec.2.2.2.2

/-- A new writer has the buffer invariant. -/
theorem BufferInv_new (filename : String) (b : Nat) : BufferInv b (NewExcelWriter filename b) := by
  refine ⟨rfl, ?_⟩
  intro n sheet h
  simp [NewExcelWriter, GoMap.lookup] at h

/-- `CreateSheet` keeps the buffer invariant. -/
theorem BufferInv_create (be : Backend) (b : Nat) (hb : 1 ≤ b) (ew : ExcelWriter)
    (sheetName : String) (headers : List String) (h : BufferInv b ew) :
    BufferInv b (CreateSheet be ew sheetName headers).1 := by
  obtain ⟨hbs, hsheets⟩ := h
  unfold CreateSheet
  cases be.newSheet sheetName with
  | some e => exact ⟨hbs, hsheets⟩
  | none =>
    dsimp only
    cases be.newStreamWriter sheetName with
    | some e => exact ⟨hbs, hsheets⟩
    | none =>
      dsimp only
      cases be.setHeader sheetName headers with
      | some e => exact ⟨hbs, hsheets⟩
      | none =>
        dsimp only
        refine ⟨hbs, ?_⟩
        intro m sheet hm
        rw [GoMap.lookup_set] at hm
        split_ifs at hm with hnm
        · cases hm
          exact ⟨hbs, by simpa using hb, rfl, rfl⟩
        · exact hsheets m sheet hm

/-- A `WriteRow` that returns nil keeps the buffer invariant. -/
theorem BufferInv_write (be : Backend) (b : Nat) (ew : ExcelWriter)
    (sheetName : String) (data : Record) (h : BufferInv b ew)
    (hok : (WriteRow be ew sheetName data).2 = none) :
    BufferInv b (WriteRow be ew sheetName data).1 := by
  obtain ⟨hbs, hsheets⟩ := h
  revert hok
  unfold WriteRow
  cases hl : ew.currentSheets.lookup sheetName with
  | none => intro hok; cases hok
  | some sheet =>
    dsimp only
    obtain ⟨s1, s2, s3⟩ := hsheets sheetName sheet hl
    split_ifs with hfull
    · intro hok
      obtain ⟨sheet2, hl2, hb2, hi2, hbuf2, hbs2⟩ := flushSheet_self be
        { ew with
          currentSheets :=
            ew.currentSheets.set sheetName ({ sheet with rowBuffer := sheet.rowBuffer ++ [data] }) }
        sheetName { sheet with rowBuffer := sheet.rowBuffer ++ [data] }
        (GoMap.lookup_set_self _ _ _)
      refine ⟨hbs2.trans hbs, ?_⟩
      intro m sheetM hm
      by_cases hnm : sheetName = m
      · subst hnm
        rw [hl2] at hm
        cases hm
        refine ⟨hb2.trans s1, ?_, hi2 s3⟩
        rw [hbuf2 hok]
        omega
      · rw [flushSheet_other be _ sheetName m hnm] at hm
        rw [GoMap.lookup_set_ne _ _ _ _ hnm] at hm
        exact hsheets m sheetM hm
    · intro _
      refine ⟨hbs, ?_⟩
      intro m sheetM hm
      dsimp only at hm
      rw [GoMap.lookup_set] at hm
      split_ifs at hm with hnm
      · cases hm
        refine ⟨s1, ?_, s3⟩
        dsimp only at hfull ⊢
        omega
      · exact hsheets m sheetM hm

/-- The buffer invariant holds after every call of a sequence in which each `WriteRow`
returns nil. -/
theorem BufferInv_calls (be : Backend) (b : Nat) (hb : 1 ≤ b) :
    ∀ (calls : List WriterCall) (ew ew1 : ExcelWriter), BufferInv b ew →
      applyCalls be calls ew = some ew1 →
      ∀ k, ∃ ew2, applyCalls be (calls.take k) ew = some ew2 ∧ BufferInv b ew2 := by
  intro calls
  induction calls with
  | nil =>
    intro ew ew1 h _ k
    exact ⟨ew, by simp [applyCalls], h⟩
  | cons c rest ih =>
    intro ew ew1 h hrun k
    cases k with
    | zero => exact ⟨ew, by simp [applyCalls], h⟩
    | succ k =>
      cases c with
      | create n hs =>
        simp only [applyCalls, List.take_succ_cons] at hrun ⊢
        exact ih _ ew1 (BufferInv_create be b hb ew n hs h) hrun k
      | write n data =>
        simp only [applyCalls, List.take_succ_cons] at hrun ⊢
        cases hw : WriteRow be ew n data with
        | mk ew3 err =>
          rw [hw] at hrun
          cases err with
          | some e => simp at hrun
          | none =>
            dsimp only at hrun ⊢
            have h3 : BufferInv b ew3 := by
              have := BufferInv_write be b ew n data h (by rw [hw])
              rw [hw] at this
              exact this
            exact ih ew3 ew1 h3 hrun k

/-- C22. For every batch size `b ≥ 1`, every backend and every sequence of `CreateSheet` and
`WriteRow` calls on a new writer in which each `WriteRow` returns nil: after each
call every sheet has fewer than `b` records in its buffer, its row index is 2 plus
the number of rows handed to its stream writer, and these rows have the indices
2, 3, ... in order, without gap or repeat. -/
theorem C22_buffer_invariant (be : Backend) (filename : String) (b : Nat) (hb : 1 ≤ b)
    (calls : List WriterCall) (ew1 : ExcelWriter)
    (hrun : applyCalls be calls (NewExcelWriter filename b) = some ew1) :
    ∀ k, ∃ ew2, applyCalls be (calls.take k) (NewExcelWriter filename b) = some ew2
      ∧ ∀ sheetName sheet, ew2.currentSheets.lookup sheetName = some sheet →
          sheet.rowBuffer.length < b
          ∧ sheet.rowIndex = 2 + sheet.streamWriter.rows.length
          ∧ sheet.streamWriter.rows.map Prod.fst
              = List.range' 2 sheet.streamWriter.rows.length := by
  intro k
  obtain ⟨ew2, h2, -, hinv⟩ :=
    BufferInv_calls be b hb calls _ ew1 (BufferInv_new filename b) hrun k
  refine ⟨ew2, h2, ?_⟩
  intro n sheet hl
  obtain ⟨-, hbuf, hidx, hrows⟩ := hinv n sheet hl
  exact ⟨hbuf, hidx, hrows⟩

/-- A concrete instance of C22: batch size 2, one sheet, three rows; the state after the
third call. -/
theorem C22_buffer_invariant_witness :
    ∃ ew2,
      applyCalls Backend.accepting
          ([WriterCall.create "S" ["a"], WriterCall.write "S" [("a", "1")],
            WriterCall.write "S" [("a", "2")], WriterCall.write "S" [("a", "3")]].take 3)
          (NewExcelWriter "out.xlsx" 2) = some ew2
      ∧ ∀ sheetName sheet, ew2.currentSheets.lookup sheetName = some sheet →
          sheet.rowBuffer.length < 2
          ∧ sheet.rowIndex = 2 + sheet.streamWriter.rows.length
          ∧ sheet.streamWriter.rows.map Prod.fst
              = List.range' 2 sheet.streamWriter.rows.length :=
  C22_buffer_invariant Backend.accepting "out.xlsx" 2 (by decide)
    [WriterCall.create "S" ["a"], WriterCall.write "S" [("a", "1")],
      WriterCall.write "S" [("a", "2")], WriterCall.write "S" [("a", "3")]]
    { filename := "out.xlsx", batchSize := 2, saved := false,
      currentSheets := [("S", { streamWriter := { header := ["a"],
                                                  rows := [(2, ["1"]), (3, ["2"])],
                                                  flushed := false },
                                headers := ["a"], rowIndex := 4,
                                rowBuffer := [[("a", "3")]], batchSize := 2 })] }
    (by rfl) 3

end Xml2Excel
